import Mathlib

/-!
# dserve_util.c : string buffer, printing, query parsing

A shallow embedding of `src/Server/dserve_util.c` (WhiteDB `dserve`).

Conventions of the embedding

* a byte is a `Nat` below 256; a C `int` is an `Int` (reduced with `wrap32`
  where the source can overflow);
* the output buffer `tdata->buf` is a map from offsets to bytes; `bufptr` is the
  offset of `tdata->bufptr` from `tdata->buf`, so a `realloc` that moves the
  block keeps all offsets;
* the constants of `dserve.h` are not part of the translated sources and are
  the fields of `Consts`;
* `realloc`, the record store and floating point formatting are outside this
  file and are parameters (`Env`, `Db`).
-/

namespace Dserve

/-! ## Constants and machine integers -/

/-- The constants of `dserve.h` and `dbapi.h` used by `dserve_util.c`. -/
structure Consts where
  MIN_STRLEN : Int
  STRLEN_FACTOR : Int
  MAX_MALLOC : Int
  MAXPARAMS : Int
  JS_NULL : List Nat
  JS_TYPE_ERR : List Nat
  CSV_SEPARATOR : Nat
  WG_ILLEGAL : Int

/-- Reduction of an integer to the range of a 32 bit two's complement `int`. -/
def wrap32 (x : Int) : Int := (x + 2147483648) % 4294967296 - 2147483648

/-- Reduction of an integer to an `unsigned char`. -/
def wrap8 (x : Int) : Nat := (x % 256).toNat

/-- Conversion of an integer to `char`: a signed or an unsigned 8 bit value,
depending on the platform. -/
def to_char (char_signed : Bool) (x : Int) : Int :=
  if char_signed then (x + 128) % 256 - 128 else x % 256

/-! ## The output buffer -/

/-- The fields of `struct thread_data` used by the printing functions.
`nalloc`, `nfree` and `wmax` are ghost fields: the number of `realloc` calls
made, the number of `free` calls made on `buf`, and one past the highest
offset of `buf` that was stored to. -/
structure thread_data where
  buf : Int → Nat
  bufsize : Int
  bufptr : Int
  format : Int
  showid : Int
  depth : Int
  maxdepth : Int
  strenc : Int
  nalloc : Nat
  nfree : Nat
  wmax : Int

/-- The allocator: `realloc k n` is the outcome of the `k`-th call of
`realloc`, asking for `n` bytes: `none` for a failed allocation, else the
(indeterminate) initial content of the bytes beyond the old size. -/
structure Env where
  realloc : Nat → Int → Option (Int → Nat)

/-- Store one byte at offset `i` of the buffer: `buf[i] = v`. -/
def poke (t : thread_data) (i : Int) (v : Nat) : thread_data :=
  { t with buf := fun j => if j = i then v else t.buf j,
           wmax := max t.wmax (i + 1) }

/-- Store the bytes `bs` at offsets `off, off+1, ...` in this order. -/
def store (t : thread_data) (off : Int) : List Nat → thread_data
  | [] => t
  | b :: bs => store (poke t off b) (off + 1) bs

/-- Store one byte at the cursor and advance it: `**bptr = v; (*bptr)++;`. -/
def putc (t : thread_data) (v : Nat) : thread_data :=
  { poke t t.bufptr v with bufptr := t.bufptr + 1 }

/-- Move the cursor to offset `p`: `*bptr = p`. -/
def set_bufptr (t : thread_data) (p : Int) : thread_data :=
  { t with bufptr := p }

/-- The bytes at offsets `off .. off+n-1`. -/
def peek (t : thread_data) (off : Int) (n : Nat) : List Nat :=
  (List.range n).map (fun i => t.buf (off + i))

/-- `strlen(buf + p)`, looking at no more than `fuel` bytes. -/
def c_strlen (m : Int → Nat) (p : Int) : Nat → Nat
  | 0 => 0
  | fuel + 1 => if m p = 0 then 0 else c_strlen m (p + 1) fuel + 1

/-- `str_guarantee_space(tdata, needed)`: the returned `int` and the new state.
`buf` is taken to be non-NULL, and `used = (int)(ptr - buf)` to be in range of
an `int`. A successful `realloc` keeps the bytes below the old size; a failed
one is followed by `free(buf)`, which leaves the fields of `tdata` as they
are. -/
def str_guarantee_space (K : Consts) (E : Env) (t : thread_data) (needed : Int) :
    Int × thread_data :=
  if needed > t.bufsize - t.bufptr then
    let used := t.bufptr
    let newlen := wrap32 (t.bufsize * 2)
    let newlen := if newlen < needed then needed else newlen
    if newlen > K.MAX_MALLOC then (0, t)
    else
      match E.realloc t.nalloc newlen with
      | none => (0, { t with nalloc := t.nalloc + 1, nfree := t.nfree + 1 })
      | some junk =>
        let t1 : thread_data :=
          { t with buf := fun j => if j < t.bufsize then t.buf j else junk j,
                   nalloc := t.nalloc + 1 }
        let t2 := poke t1 (newlen - 1) 0
        (1, { t2 with bufsize := newlen, bufptr := used })
  else (1, t)

/-- An allocator that always succeeds and hands out zeroed memory. -/
def env_ok : Env := { realloc := fun _ _ => some (fun _ => 0) }

/-- Sample values of the constants. -/
def sample_consts : Consts :=
  { MIN_STRLEN := 100, STRLEN_FACTOR := 6, MAX_MALLOC := 100000000, MAXPARAMS := 100,
    JS_NULL := [91, 93], JS_TYPE_ERR := [34, 34], CSV_SEPARATOR := 44, WG_ILLEGAL := 255 }

/-- A buffer of `cap` zero bytes with the cursor at offset `cur`. -/
def mk_tdata (cap cur : Int) (format showid depth maxdepth strenc : Int) : thread_data :=
  { buf := fun _ => 0, bufsize := cap, bufptr := cur, format := format, showid := showid,
    depth := depth, maxdepth := maxdepth, strenc := strenc, nalloc := 0, nfree := 0, wmax := 0 }

/-! ## Escaping: `sprint_string`, `sprint_blob` -/

/-- The table `hex_chars = "0123456789abcdef"`. -/
def hex_chars : List Nat := [48, 49, 50, 51, 52, 53, 54, 55, 56, 57, 97, 98, 99, 100, 101, 102]

/-- The bytes stored for one source byte `c` (not NUL) in the loop of
`sprint_string` selected by `strenc`: `0` raw, `3` csv, `1` url, else json. -/
def esc_bytes (strenc : Int) (c : Nat) : List Nat :=
  if strenc = 0 then [c]
  else if strenc = 3 then
    if c = 34 then [c, c] else [c]
  else if strenc = 1 then
    if c < 32 ∨ c = 37 ∨ c = 34 ∨ c > 126 then
      [37, hex_chars.getD (c >>> 4) 0, hex_chars.getD (c &&& 15) 0]
    else [c]
  else
    if c = 8 then [92, 98]
    else if c = 10 then [92, 110]
    else if c = 13 then [92, 114]
    else if c = 9 then [92, 116]
    else if c = 12 then [92, 102]
    else if c = 34 then [92, 34]
    else if c = 92 then [92, 92]
    else if c = 47 then [92, 47]
    else if c < 32 then
      [92, 117, 48, 48, hex_chars.getD (c >>> 4) 0, hex_chars.getD (c &&& 15) 0]
    else [c]

/-- The loop `for(i=0;i<limit;i++) { c=*sptr++; ... }` of `sprint_string`
together with the closing quote and terminator stored after it. The source
is the list of bytes at `sptr`; the end of the list reads as the NUL
terminator. The first argument is the number of iterations left. -/
def sprint_loop (strenc : Int) : Nat → List Nat → List Nat
  | 0, _ => [34, 0]
  | _ + 1, [] => [34, 0]
  | k + 1, c :: rest =>
    if c = 0 then [34, 0] else esc_bytes strenc c ++ sprint_loop strenc k rest

/-- `sprint_string(bptr, limit, strdata, strenc)`: the bytes stored at
`bptr[0], bptr[1], ...`, in this order (the function returns 1 always). -/
def sprint_string (limit : Int) (strdata : Option (List Nat)) (strenc : Int) : List Nat :=
  match strdata with
  | none => [34, 34, 0]
  | some s => 34 :: sprint_loop strenc limit.toNat s

/-- `sprint_blob(bptr, limit, strdata, strenc)`: the bytes stored at
`bptr[0], bptr[1], ...`; `strenc` is not looked at. -/
def sprint_blob (limit : Int) (strdata : Option (List Nat)) (_strenc : Int) : List Nat :=
  match strdata with
  | none => [34, 34, 0]
  | some s => 34 :: sprint_loop 1 limit.toNat s

/-! ## Query parsing: `urldecode`, `parse_query` -/

/-- `isxdigit` of `ctype.h` in the C locale. -/
def isxdigit (c : Int) : Bool :=
  (48 ≤ c && c ≤ 57) || (97 ≤ c && c ≤ 102) || (65 ≤ c && c ≤ 70)

/-- The three statements of `urldecode` that turn the `char` `a` holding a hex
digit into its value:
`if (a >= 'a') a -= 'A'-'a'; if (a >= 'A') a -= ('A' - 10); else a -= '0';` -/
def hex_adjust (char_signed : Bool) (a : Int) : Int :=
  let a1 := if a ≥ 97 then to_char char_signed (a - (65 - 97)) else a
  if a1 ≥ 65 then to_char char_signed (a1 - (65 - 10)) else to_char char_signed (a1 - 48)

/-- `strlen(mem + p)` for a character array given as a list; the end of the
list reads as NUL. -/
def list_strlen (mem : List Nat) (p : Nat) : Nat :=
  ((mem.drop p).takeWhile (fun b => b != 0)).length

/-- The C string at `mem + p`. -/
def cstr (mem : List Nat) (p : Nat) : List Nat :=
  (mem.drop p).takeWhile (fun b => b != 0)

/-- The `while (*src)` loop of `urldecode` and the final `*dst++ = 0`, on the
character array `mem` with `dst` and `src` as indices. The first argument
bounds the number of iterations; `none` when it is used up. -/
def urldecode_loop (char_signed : Bool) (endptr : Nat) :
    Nat → List Nat → Nat → Nat → Option (List Nat)
  | 0, _, _, _ => none
  | fuel + 1, mem, dst, src =>
    if mem.getD src 0 = 0 then some (mem.set dst 0)
    else
      let a := to_char char_signed (mem.getD (src + 1) 0)
      let b := to_char char_signed (mem.getD (src + 2) 0)
      if mem.getD src 0 = 37 ∧ src + 2 < endptr ∧ (a ≠ 0 ∧ b ≠ 0) ∧
          (isxdigit a = true ∧ isxdigit b = true) then
        urldecode_loop char_signed endptr fuel
          (mem.set dst (wrap8 (16 * hex_adjust char_signed a + hex_adjust char_signed b)))
          (dst + 1) (src + 3)
      else
        urldecode_loop char_signed endptr fuel (mem.set dst (mem.getD src 0)) (dst + 1) (src + 1)

/-- `urldecode(indst, src)` on the character array `mem` holding both (non-NULL)
pointers: the array after the call. The returned pointer is `indst`. -/
def urldecode (char_signed : Bool) (mem : List Nat) (indst src : Nat) : Option (List Nat) :=
  if mem.getD src 0 = 0 then some mem
  else urldecode_loop char_signed (src + list_strlen mem src) (mem.length + 1) mem indst src

/-- The inner loops of `parse_query`: `for(;i<ql;i++) if (query[i]==ch) break;`
gives the final `i`. The last argument is `ql - i`. -/
def scan_for (ch : Nat) (query : List Nat) (ql : Nat) : Nat → Nat → Nat
  | i, 0 => i
  | i, n + 1 =>
    if i < ql then
      if query.getD i 0 = ch then i else scan_for ch query ql (i + 1) n
    else i

/-- The result of `parse_query`: the returned `int`, the character array and
the pointers stored in `params[0..]` and `values[0..]`. -/
structure parse_result where
  ret : Int
  query : List Nat
  params : List Nat
  values : List Nat
deriving DecidableEq, Repr

/-- The outer loop of `parse_query`, entered with the loop variable `i`. The
first argument bounds the number of iterations. -/
def parse_loop (char_signed : Bool) (K : Consts) (ql : Nat) :
    Nat → List Nat → Nat → Int → List Nat → List Nat → Option parse_result
  | 0, _, _, _, _, _ => none
  | fuel + 1, query, i, count, params, values =>
    if i < ql then
      let pi := i
      let i1 := scan_for 61 query ql i (ql - i)
      let q1 := if i1 < ql then query.set i1 0 else query
      let i2 := i1 + 1
      if i2 ≥ ql then some ⟨-1, q1, params, values⟩
      else
        let vi := i2
        let i3 := scan_for 38 q1 ql i2 (ql - i2)
        let q2 := if i3 < ql then q1.set i3 0 else q1
        if count ≥ K.MAXPARAMS then some ⟨-1, q2, params, values⟩
        else
          match urldecode char_signed q2 pi pi with
          | none => none
          | some q3 =>
            match urldecode char_signed q3 vi vi with
            | none => none
            | some q4 =>
              parse_loop char_signed K ql fuel q4 (i3 + 1) (count + 1)
                (params ++ [pi]) (values ++ [vi])
    else some ⟨count, query, params, values⟩

/-- `parse_query(query, ql, params, values)`. -/
def parse_query (char_signed : Bool) (K : Consts) (query : List Nat) (ql : Int) :
    Option parse_result :=
  parse_loop char_signed K ql.toNat (ql.toNat + 1) query 0 0 [] []

/-! ## The record store -/

/-- An encoded value as the printing code sees it: the tag given by
`wg_get_encoded_type` together with what the `wg_decode_` functions of that
tag return. Strings are the bytes at the returned pointer (`none` for NULL);
for doubles the text is what `snprintf` with `DOUBLE_FORMAT` prints, for dates
and times it is what `wg_strf_iso_datetime` leaves in `strbuf`. -/
inductive Value where
  | null
  | record (ptrdata : Option Nat)
  | int (intdata : Int)
  | double (txt : List Nat)
  | fixpoint (txt : List Nat)
  | str (strdata : Option (List Nat)) (exdata : Option (List Nat))
  | uri (strdata : Option (List Nat)) (exdata : Option (List Nat))
  | xmlliteral (strdata : Option (List Nat)) (exdata : Option (List Nat))
  | char (intdata : Int)
  | date (strbuf : List Nat)
  | time (strbuf : List Nat)
  | var (intdata : Int)
  | blob (strdata : Option (List Nat)) (strl : Int)
  | other

/-- The database as used by the printing code. A record is named by its
address. -/
structure Db where
  value : Int → Value
  get_record_len : Nat → Int
  get_field : Nat → Int → Int
  encode_record : Nat → Int

/-! ## Formatted output -/

/-- The text printed for `%d`. -/
def fmt_d (n : Int) : List Nat :=
  if n < 0 then 45 :: (Nat.toDigits 10 n.natAbs).map Char.toNat
  else (Nat.toDigits 10 n.natAbs).map Char.toNat

/-- The text printed for `%s`; a NULL argument prints as `(null)`. -/
def fmt_s (s : Option (List Nat)) : List Nat :=
  match s with
  | none => [40, 110, 117, 108, 108, 41]
  | some l => cstr l 0

/-- `strlen` of a string that may be NULL, as computed in `sprint_value`
(`if (strdata!=NULL) strl1=strlen(strdata); else strl1=0;`). The blob case
calls `strlen` without the test; a NULL blob is given the length 0 here. -/
def opt_strlen (s : Option (List Nat)) : Int :=
  match s with
  | none => 0
  | some l => (list_strlen l 0 : Nat)

/-- The bytes stored by `snprintf(p, limit, ...)` when the formatted text is
`text`: the text cut to `limit-1` bytes and a terminator; nothing for
`limit = 0`; a negative `limit` becomes a huge `size_t`. -/
def snprintf (limit : Int) (text : List Nat) : List Nat :=
  if limit = 0 then []
  else if limit < 0 then text ++ [0]
  else text.take (limit - 1).toNat ++ [0]

/-- The statements `snprintf(*bptr, limit, ...); return *bptr+strlen(*bptr);`
of `sprint_value`. The terminator is looked for among the bytes just stored
(for `limit = 0` nothing is stored and the cursor is taken not to move). -/
def print_ret (t : thread_data) (limit : Int) (text : List Nat) :
    Option Int × thread_data :=
  let w := snprintf limit text
  let t1 := store t t.bufptr w
  (some (t1.bufptr + c_strlen t1.buf t1.bufptr w.length), t1)

/-- What `sprint_value` returns (with the fuel of the embedding): `none` when
the fuel is used up, else the returned pointer (as an offset into `buf`,
`none` for NULL) and the new state. -/
abbrev Printer := Int → thread_data → Option (Option Int × thread_data)

/-! ## Printing: `sprint_record`, `sprint_value` -/

/-- The loop `for(i=0; i<len; i++)` of `sprint_record`, entered with loop
variable `i` and `n` iterations left. The result `0` stands for `return 0`
inside the loop, `1` for leaving the loop. `sv` is `sprint_value`. -/
def sprint_fields (K : Consts) (E : Env) (sv : Printer) (db : Db) (rec : Nat) :
    Nat → Int → thread_data → Option (Int × thread_data)
  | 0, _, t => some (1, t)
  | n + 1, i, t =>
    let enc := db.get_field rec i
    if enc = K.WG_ILLEGAL then some (0, t)
    else
      let r := str_guarantee_space K E t K.MIN_STRLEN
      if r.1 = 0 then some (0, r.2)
      else
        let t1 := r.2
        let t2 : thread_data :=
          if i ≠ 0 ∨ t1.showid ≠ 0 then
            putc t1 (if t1.format ≠ 0 then 44 else K.CSV_SEPARATOR)
          else t1
        match sv enc t2 with
        | none => none
        | some (none, t3) => some (0, t3)
        | some (some tmp, t3) => sprint_fields K E sv db rec n (i + 1) (set_bufptr t3 tmp)

/-- `sprint_record(db, rec, tdata)`: the returned `int` and the new state;
`none` when the fuel of `sv` is used up. `sv` is `sprint_value`. -/
def sprint_record (K : Consts) (E : Env) (sv : Printer) (db : Db) (rec : Option Nat)
    (t : thread_data) : Option (Int × thread_data) :=
  let limit := K.MIN_STRLEN
  let r := str_guarantee_space K E t K.MIN_STRLEN
  if r.1 = 0 then some (0, r.2)
  else
    let t1 := r.2
    match rec with
    | none =>
      let t2 := store t1 t1.bufptr (snprintf limit (cstr K.JS_NULL 0))
      some (1, set_bufptr t2 (t2.bufptr + (list_strlen K.JS_NULL 0 : Nat)))
    | some rec =>
      let t2 : thread_data := if t1.format ≠ 0 then putc t1 91 else t1
      let len := db.get_record_len rec
      if len < 0 then some (0, t2)
      else
        let t3 : thread_data :=
          if t2.showid ≠ 0 then
            let w := snprintf (limit - 1) (fmt_d (wrap32 (db.encode_record rec)))
            let t' := store t2 t2.bufptr w
            set_bufptr t' (t'.bufptr + c_strlen t'.buf t'.bufptr w.length)
          else t2
        match sprint_fields K E sv db rec len.toNat 0 t3 with
        | none => none
        | some (ret, t4) =>
          if ret = 0 then some (0, t4)
          else if t4.format ≠ 0 then
            let r5 := str_guarantee_space K E t4 K.MIN_STRLEN
            if r5.1 = 0 then some (0, r5.2)
            else some (1, putc r5.2 93)
          else some (1, t4)

/-- `sprint_value(db, enc, tdata)`. The first argument bounds the nesting of
calls of `sprint_value`; the result is `none` when it is used up. -/
def sprint_value (K : Consts) (E : Env) (db : Db) : Nat → Printer
  | 0, _, _ => none
  | fuel + 1, enc, t =>
    let limit := K.MIN_STRLEN
    match db.value enc with
    | Value.null =>
      let r := str_guarantee_space K E t K.MIN_STRLEN
      if r.1 = 0 then some (none, r.2)
      else if r.2.format ≠ 0 then some (print_ret r.2 limit (cstr K.JS_NULL 0))
      else some (some r.2.bufptr, r.2)
    | Value.record ptrdata =>
      let r := str_guarantee_space K E t K.MIN_STRLEN
      if r.1 = 0 then some (none, r.2)
      else if r.2.format = 0 ∨ r.2.depth ≥ r.2.maxdepth then
        some (print_ret r.2 limit (fmt_d (wrap32 enc)))
      else
        match ptrdata with
        | none => some (none, r.2)
        | some rec =>
          match sprint_record K E (sprint_value K E db fuel) db (some rec) r.2 with
          | none => none
          | some (_, t2) =>
            let t3 := poke t2 t2.bufptr 0
            some (some t3.bufptr, t3)
    | Value.int intdata =>
      let r := str_guarantee_space K E t K.MIN_STRLEN
      if r.1 = 0 then some (none, r.2)
      else some (print_ret r.2 limit (fmt_d intdata))
    | Value.double txt =>
      let r := str_guarantee_space K E t K.MIN_STRLEN
      if r.1 = 0 then some (none, r.2)
      else some (print_ret r.2 limit txt)
    | Value.fixpoint txt =>
      let r := str_guarantee_space K E t K.MIN_STRLEN
      if r.1 = 0 then some (none, r.2)
      else some (print_ret r.2 limit txt)
    | Value.str strdata exdata =>
      let strl1 := opt_strlen strdata
      let strl2 := opt_strlen exdata
      let r := str_guarantee_space K E t (wrap32 (K.MIN_STRLEN + K.STRLEN_FACTOR * (strl1 + strl2)))
      if r.1 = 0 then some (none, r.2)
      else
        let t1 := r.2
        let w := sprint_string (strl1 + strl2) strdata t1.strenc
        let t2 := store t1 t1.bufptr w
        match exdata with
        | none => some (some (t2.bufptr + c_strlen t2.buf t2.bufptr w.length), t2)
        | some ex =>
          let w2 := snprintf limit (64 :: cstr ex 0 ++ [34])
          let t3 := store t2 (t2.bufptr + strl1 + 1) w2
          some (some (t3.bufptr + c_strlen t3.buf t3.bufptr (w.length + w2.length)), t3)
    | Value.uri strdata exdata =>
      let strl1 := opt_strlen strdata
      let strl2 := opt_strlen exdata
      let limit := wrap32 (K.MIN_STRLEN + K.STRLEN_FACTOR * (strl1 + strl2))
      let r := str_guarantee_space K E t limit
      if r.1 = 0 then some (none, r.2)
      else
        match exdata with
        | none => some (print_ret r.2 limit (34 :: fmt_s strdata ++ [34]))
        | some ex => some (print_ret r.2 limit (34 :: cstr ex 0 ++ 58 :: fmt_s strdata ++ [34]))
    | Value.xmlliteral strdata exdata =>
      let strl1 := opt_strlen strdata
      let strl2 := opt_strlen exdata
      let limit := wrap32 (K.MIN_STRLEN + K.STRLEN_FACTOR * (strl1 + strl2))
      let r := str_guarantee_space K E t limit
      if r.1 = 0 then some (none, r.2)
      else some (print_ret r.2 limit (34 :: fmt_s exdata ++ 58 :: fmt_s strdata ++ [34]))
    | Value.char intdata =>
      let r := str_guarantee_space K E t K.MIN_STRLEN
      if r.1 = 0 then some (none, r.2)
      else some (print_ret r.2 limit [34, wrap8 intdata, 34])
    | Value.date strbuf =>
      let r := str_guarantee_space K E t K.MIN_STRLEN
      if r.1 = 0 then some (none, r.2)
      else some (print_ret r.2 limit (34 :: cstr (strbuf.take 10) 0 ++ [34]))
    | Value.time strbuf =>
      let r := str_guarantee_space K E t K.MIN_STRLEN
      if r.1 = 0 then some (none, r.2)
      else some (print_ret r.2 limit (34 :: cstr strbuf 11 ++ [34]))
    | Value.var intdata =>
      let r := str_guarantee_space K E t K.MIN_STRLEN
      if r.1 = 0 then some (none, r.2)
      else some (print_ret r.2 limit (34 :: 63 :: fmt_d intdata ++ [34]))
    | Value.blob strdata strl =>
      let limit := wrap32 (K.MIN_STRLEN + K.STRLEN_FACTOR * opt_strlen strdata)
      let r := str_guarantee_space K E t limit
      if r.1 = 0 then some (none, r.2)
      else
        let w := sprint_blob strl strdata r.2.strenc
        let t2 := store r.2 r.2.bufptr w
        some (some (t2.bufptr + c_strlen t2.buf t2.bufptr w.length), t2)
    | Value.other =>
      let r := str_guarantee_space K E t K.MIN_STRLEN
      if r.1 = 0 then some (none, r.2)
      else some (print_ret r.2 limit (cstr K.JS_TYPE_ERR 0))

/-! ## Reference decoders and encoders for the round trip properties -/

/-- The value of a hexadecimal digit, upper or lower case. -/
def hex_digit_val (c : Nat) : Option Nat :=
  if 48 ≤ c ∧ c ≤ 57 then some (c - 48)
  else if 97 ≤ c ∧ c ≤ 102 then some (c - 87)
  else if 65 ≤ c ∧ c ≤ 70 then some (c - 55)
  else none

/-- Byte-level unescaping of the text between the quotes of a JSON string
literal (RFC 4627), restricted to the escapes the claim names: the
two-character escapes `\b \n \r \t \f \" \\ \/` and `\u00XX`. A lone
backslash, another escape, an unescaped quote or a raw byte below `0x20` make
the text ill-formed (`none`). -/
def json_unescape : List Nat → Option (List Nat)
  | [] => some []
  | c :: rest =>
    if c = 92 then
      match rest with
      | [] => none
      | e :: rest1 =>
        if e = 98 then (json_unescape rest1).map (fun r => 8 :: r)
        else if e = 110 then (json_unescape rest1).map (fun r => 10 :: r)
        else if e = 114 then (json_unescape rest1).map (fun r => 13 :: r)
        else if e = 116 then (json_unescape rest1).map (fun r => 9 :: r)
        else if e = 102 then (json_unescape rest1).map (fun r => 12 :: r)
        else if e = 34 then (json_unescape rest1).map (fun r => 34 :: r)
        else if e = 92 then (json_unescape rest1).map (fun r => 92 :: r)
        else if e = 47 then (json_unescape rest1).map (fun r => 47 :: r)
        else if e = 117 then
          match rest1 with
          | h1 :: h2 :: h3 :: h4 :: rest2 =>
            if h1 = 48 ∧ h2 = 48 then
              match hex_digit_val h3, hex_digit_val h4 with
              | some a, some b => (json_unescape rest2).map (fun r => (16 * a + b) :: r)
              | _, _ => none
            else none
          | _ => none
        else none
    else if c = 34 ∨ c < 32 then none
    else (json_unescape rest).map (fun r => c :: r)

/-- All bytes of `s` escaped in the mode `strenc`, one after the other. -/
def esc_all (strenc : Int) : List Nat → List Nat
  | [] => []
  | c :: rest => esc_bytes strenc c ++ esc_all strenc rest

/-- The C string stored by `sprint_string` without its first and last
character (the enclosing quotes). -/
def strip_quotes (out : List Nat) : List Nat := ((cstr out 0).drop 1).dropLast

/-- Escape `s` with `sprint_string` in url mode, remove the enclosing quotes,
and decode the text in place with `urldecode`: the resulting C string. -/
def url_round_trip (char_signed : Bool) (s : List Nat) (limit : Int) : Option (List Nat) :=
  (urldecode char_signed (strip_quotes (sprint_string limit (some s) 1) ++ [0]) 0 0).map
    (fun m => cstr m 0)

/-- The C strings that the pointers stored by `parse_query` point to. -/
def parse_pairs (r : parse_result) : List (List Nat × List Nat) :=
  (r.params.map (cstr r.query)).zip (r.values.map (cstr r.query))

/-! ## Sample databases -/

/-- A database in which every encoded value is the string `s` without a
language. -/
def db_str (s : List Nat) : Db :=
  { value := fun _ => Value.str (some s) none, get_record_len := fun _ => 0,
    get_field := fun _ _ => 0, encode_record := fun _ => 0 }

/-- A chain of three records: record 0 has the single field 1000, a reference
to record 1; record 1 has the single field 2000, a reference to record 2;
record 2 has the single field 7, an integer. -/
def db_chain : Db :=
  { value := fun e =>
      if e = 1000 then Value.record (some 1)
      else if e = 2000 then Value.record (some 2)
      else Value.int e,
    get_record_len := fun _ => 1,
    get_field := fun r _ => if r = 0 then 1000 else if r = 1 then 2000 else 7,
    encode_record := fun r => 1000 * r }

/-- Record 0 has the single field 1000, a reference to record 1; the single
field of record 1 is `WG_ILLEGAL` (255 in `sample_consts`). -/
def db_illegal : Db :=
  { value := fun e => if e = 1000 then Value.record (some 1) else Value.int e,
    get_record_len := fun _ => 1,
    get_field := fun r _ => if r = 0 then 1000 else 255,
    encode_record := fun r => 1000 * r }

/-- Two records that refer to each other: the single field of record 10 is
4000, a reference to record 11, and the single field of record 11 is 3000, a
reference to record 10. -/
def db_cycle : Db :=
  { value := fun e =>
      if e = 3000 then Value.record (some 10)
      else if e = 4000 then Value.record (some 11)
      else Value.int e,
    get_record_len := fun _ => 1,
    get_field := fun r _ => if r = 10 then 4000 else 3000,
    encode_record := fun r => 1000 * r }

/-! ## Invariant and measure used for termination -/

/-- The capacity is between 0 and `MAX_MALLOC`. -/
def buf_inv (K : Consts) (t : thread_data) : Prop :=
  0 ≤ t.bufsize ∧ t.bufsize ≤ K.MAX_MALLOC

/-- The room left below the ceiling, for the capacity and for the cursor. -/
def pot (K : Consts) (t : thread_data) : Nat :=
  (K.MAX_MALLOC - t.bufsize).toNat + (K.MAX_MALLOC - t.bufptr).toNat

/-- What a call of `sprint_value` started in `t` guarantees about its result:
the capacity stays within bounds and does not shrink, the cursor does not move
back, and a returned pointer is not before the cursor. -/
def sv_post (K : Consts) (t : thread_data) (res : Option Int × thread_data) : Prop :=
  buf_inv K res.2 ∧ t.bufsize ≤ res.2.bufsize ∧ t.bufptr ≤ res.2.bufptr ∧
    ∀ p, res.1 = some p → res.2.bufptr ≤ p

/-- What a call of `sprint_record` started in `t` guarantees about its
result. -/
def sr_post (K : Consts) (t : thread_data) (res : Int × thread_data) : Prop :=
  buf_inv K res.2 ∧ t.bufsize ≤ res.2.bufsize ∧ t.bufptr ≤ res.2.bufptr

/-- The printer `sv` returns, with `sv_post`, from every state whose measure
is below `B`. -/
def sv_total (K : Consts) (sv : Printer) (B : Nat) : Prop :=
  ∀ enc t, buf_inv K t → pot K t < B → ∃ res, sv enc t = some res ∧ sv_post K t res

/-! ## Query values: `encode_incomp`, `encode_intype`, `encode_invalue` -/

/-- The constants of `dbapi.h` and `dserve.h` used by the `encode_` functions:
the type tags, the comparison operators and `BAD_WG_VALUE`. -/
structure ApiConsts where
  WG_NULLTYPE : Int
  WG_RECORDTYPE : Int
  WG_INTTYPE : Int
  WG_DOUBLETYPE : Int
  WG_STRTYPE : Int
  WG_CHARTYPE : Int
  WG_COND_EQUAL : Int
  WG_COND_NOT_EQUAL : Int
  WG_COND_LESSTHAN : Int
  WG_COND_GREATER : Int
  WG_COND_LTEQUAL : Int
  WG_COND_GTEQUAL : Int
  BAD_WG_VALUE : Int

/-- The functions `wg_encode_query_param_` of the database library.
`param_double` takes the text handed to `strtod`. -/
structure QueryApi where
  param_null : Int
  param_int : Int → Int
  param_double : List Nat → Int
  param_str : List Nat → Int
  param_char : Nat → Int

/-- `strcmp(s, name) == 0` for a character array `s` and a literal `name`. -/
def str_eq (s : List Nat) (name : List Nat) : Bool := cstr s 0 == name

/-- `encode_incomp(db, incomp)`. Both operands of
`incomp==NULL || incomp=='\0'` compare the pointer itself with zero. -/
def encode_incomp (T : ApiConsts) (incomp : Option (List Nat)) : Int :=
  match incomp with
  | none => T.WG_COND_EQUAL
  | some s =>
    if str_eq s [101, 113, 117, 97, 108] then T.WG_COND_EQUAL
    else if str_eq s [110, 111, 116, 95, 101, 113, 117, 97, 108] then T.WG_COND_NOT_EQUAL
    else if str_eq s [108, 101, 115, 115, 116, 104, 97, 110] then T.WG_COND_LESSTHAN
    else if str_eq s [103, 114, 101, 97, 116, 101, 114] then T.WG_COND_GREATER
    else if str_eq s [108, 116, 101, 113, 117, 97, 108] then T.WG_COND_LTEQUAL
    else if str_eq s [103, 116, 101, 113, 117, 97, 108] then T.WG_COND_GTEQUAL
    else T.BAD_WG_VALUE

/-- `encode_intype(db, intype)`. Both operands of
`intype==NULL || intype=='\0'` compare the pointer itself with zero. -/
def encode_intype (T : ApiConsts) (intype : Option (List Nat)) : Int :=
  match intype with
  | none => 0
  | some s =>
    if str_eq s [110, 117, 108, 108] then T.WG_NULLTYPE
    else if str_eq s [105, 110, 116] then T.WG_INTTYPE
    else if str_eq s [114, 101, 99, 111, 114, 100] then T.WG_RECORDTYPE
    else if str_eq s [100, 111, 117, 98, 108, 101] then T.WG_DOUBLETYPE
    else if str_eq s [115, 116, 114] then T.WG_STRTYPE
    else if str_eq s [99, 104, 97, 114] then T.WG_CHARTYPE
    else T.BAD_WG_VALUE

/-- `isdigit` of `ctype.h`. -/
def isdigit (c : Nat) : Bool := 48 ≤ c && c ≤ 57

/-- The loop of `isint` on the bytes at `s`; the end of the list reads as
NUL. -/
def isint_loop : List Nat → Int
  | [] => 1
  | c :: rest => if c = 0 then 1 else if !isdigit c then 0 else isint_loop rest

/-- `isint(s)`. -/
def isint (s : Option (List Nat)) : Int :=
  match s with
  | none => 0
  | some l => isint_loop l

/-- The loop of `isdbl` on the bytes at `s`, entered with the counter `c`. -/
def isdbl_loop : List Nat → Int → Int
  | [], _ => 1
  | ch :: rest, c =>
    if ch = 0 then 1
    else if !isdigit ch then
      if ch = 46 then
        if c + 1 > 1 then 0 else isdbl_loop rest (c + 1)
      else 0
    else isdbl_loop rest c

/-- `isdbl(s)`. -/
def isdbl (s : Option (List Nat)) : Int :=
  match s with
  | none => 0
  | some l => isdbl_loop l 0

/-- `isspace` of `ctype.h` in the C locale. -/
def isspace (c : Nat) : Bool := c = 32 || (9 ≤ c && c ≤ 13)

/-- The digits at the start of `s` read as a decimal number, continuing from
`acc`. -/
def atoi_digits : List Nat → Nat → Nat
  | [], acc => acc
  | c :: rest, acc => if isdigit c then atoi_digits rest (acc * 10 + (c - 48)) else acc

/-- `atoi(s)`: white space, an optional sign, decimal digits. A value out of
the range of `int` (undefined in C) is reduced with `wrap32`. -/
def atoi (s : List Nat) : Int :=
  let r := s.dropWhile isspace
  if r.head? = some 45 then wrap32 (-(atoi_digits r.tail 0 : Nat))
  else if r.head? = some 43 then wrap32 (atoi_digits r.tail 0 : Nat)
  else wrap32 (atoi_digits r 0 : Nat)

/-- `encode_invalue(db, invalue, type)`. -/
def encode_invalue (K : Consts) (T : ApiConsts) (A : QueryApi) (invalue : Option (List Nat))
    (type : Int) : Int :=
  match invalue with
  | none => K.WG_ILLEGAL
  | some s =>
    if type = T.WG_NULLTYPE then A.param_null
    else if type = T.WG_INTTYPE then
      if isint (some s) = 0 then K.WG_ILLEGAL
      else A.param_int (atoi s)
    else if type = T.WG_RECORDTYPE then
      if isint (some s) = 0 then K.WG_ILLEGAL
      else atoi s
    else if type = T.WG_DOUBLETYPE then
      if isdbl (some s) = 0 then K.WG_ILLEGAL
      else A.param_double (cstr s 0)
    else if type = T.WG_STRTYPE then A.param_str (cstr s 0)
    else if type = T.WG_CHARTYPE then A.param_char (s.getD 0 0)
    else if type = 0 ∧ isint (some s) ≠ 0 then A.param_int (atoi s)
    else if type = 0 ∧ isdbl (some s) ≠ 0 then A.param_double (cstr s 0)
    else if type = 0 then A.param_str (cstr s 0)
    else K.WG_ILLEGAL

/-- The type tags are different from each other and from the infer tag 0. -/
def tags_distinct (T : ApiConsts) : Prop :=
  [0, T.WG_NULLTYPE, T.WG_RECORDTYPE, T.WG_INTTYPE, T.WG_DOUBLETYPE, T.WG_STRTYPE,
    T.WG_CHARTYPE].Nodup

/-- Sample values of the constants of `dbapi.h`. -/
def sample_api_consts : ApiConsts :=
  { WG_NULLTYPE := 1, WG_RECORDTYPE := 2, WG_INTTYPE := 3, WG_DOUBLETYPE := 4,
    WG_STRTYPE := 5, WG_CHARTYPE := 9, WG_COND_EQUAL := 1, WG_COND_NOT_EQUAL := 2,
    WG_COND_LESSTHAN := 4, WG_COND_GREATER := 8, WG_COND_LTEQUAL := 16,
    WG_COND_GTEQUAL := 32, BAD_WG_VALUE := -1 }

/-- A sample encoder: integers are encoded as themselves plus 1000, the other
values by fixed numbers. -/
def sample_query_api : QueryApi :=
  { param_null := 0, param_int := fun n => n + 1000, param_double := fun _ => 500,
    param_str := fun _ => 600, param_char := fun _ => 700 }

/-- The number written by a string of decimal digits. -/
def dec_value (s : List Nat) : Nat := s.foldl (fun acc c => acc * 10 + (c - 48)) 0

/-- The grammar of the claim for type double: only digits and at most one
period. -/
def dbl_grammar (s : List Nat) : Prop :=
  (∀ c ∈ s, isdigit c = true ∨ c = 46) ∧ s.count 46 ≤ 1

/-! ## Reference notions for the escaping claims -/

/-- The hexadecimal digit (lower case) for a value below 16. -/
def hex_digit (n : Nat) : Nat := if n < 10 then 48 + n else 87 + n

/-- The url escaping of a byte string in the words of the claim: a byte below
`0x20`, above `0x7e`, or equal to `%` or the quote becomes `%` and its two
hexadecimal digits; any other byte stays. -/
def url_escape_spec : List Nat → List Nat
  | [] => []
  | b :: rest =>
    (if b < 32 ∨ b > 126 ∨ b = 37 ∨ b = 34 then [37, hex_digit (b / 16), hex_digit (b % 16)]
      else [b]) ++ url_escape_spec rest

/-- Every `%` of the text is followed by two hexadecimal digits. -/
def percent_ok : List Nat → Bool
  | [] => true
  | c :: rest =>
    if c = 37 then
      match rest with
      | a :: b :: rest2 => (hex_digit_val a).isSome && (hex_digit_val b).isSome && percent_ok rest2
      | _ => false
    else percent_ok rest

/-- The value of a text as a JSON string literal: it has to begin and end with
a quote, and the text in between has to unescape. -/
def json_string_literal (txt : List Nat) : Option (List Nat) :=
  if txt.head? = some 34 ∧ txt.tail.getLast? = some 34 then json_unescape txt.tail.dropLast
  else none

/-- A database in which every encoded value is `v`. -/
def db_value (v : Value) : Db :=
  { value := fun _ => v, get_record_len := fun _ => 0,
    get_field := fun _ _ => 0, encode_record := fun _ => 0 }

/-- The text that `sprint_value` appends for the value `v`, printed into an
empty buffer of 1000 bytes with the given format and escaping mode: the bytes
from the cursor to the returned pointer. -/
def appended_text (v : Value) (format strenc : Int) : Option (List Nat) :=
  match sprint_value sample_consts env_ok (db_value v) 1 0 (mk_tdata 1000 0 format 0 0 0 strenc) with
  | some (some p, t) => some (peek t 0 p.toNat)
  | _ => none


/-! ## Counting the well-formed segments of a query -/

/-- The number of `&`-separated segments of `q` that contain `=`; the
flag tells whether the segment being read already has one. -/
def seg_count : List Nat → Bool → Nat
  | [], b => if b then 1 else 0
  | c :: rest, b =>
    if c = 38 then (if b then 1 else 0) + seg_count rest false
    else seg_count rest (b || decide (c = 61))

/-! ## Notions for the layout of a printed record -/

/-- The settings of two states agree. -/
def cfg_eq (a b : thread_data) : Prop :=
  a.format = b.format ∧ a.showid = b.showid ∧ a.depth = b.depth ∧ a.maxdepth = b.maxdepth ∧
    a.strenc = b.strenc

/-- The bytes of the buffer from offset `a` up to offset `b`. -/
def text_between (t : thread_data) (a b : Int) : List Nat := peek t a (b - a).toNat

/-- The text `txt` is what the printer `sv` appends for the value `enc` in
some call that starts with the settings of `t0`, returns a pointer and does
not reallocate: the bytes from the cursor to the returned pointer. -/
def rendered (sv : Printer) (t0 : thread_data) (enc : Int) (txt : List Nat) : Prop :=
  ∃ s s' p, cfg_eq s t0 ∧ sv enc s = some (some p, s') ∧ s.bufptr ≤ p ∧
    s'.nalloc = s.nalloc ∧ txt = text_between s' s.bufptr p

/-- The texts joined by the separator: none before the first text, none after
the last. -/
def join_sep (sep : Nat) : List (List Nat) → List Nat
  | [] => []
  | [a] => a
  | a :: b :: rest => a ++ sep :: join_sep sep (b :: rest)

/-- Every text preceded by the separator. -/
def prefixed (sep : Nat) : List (List Nat) → List Nat
  | [] => []
  | a :: rest => sep :: a ++ prefixed sep rest

/-- The texts as the field loop lays them out: a separator before every text
but the first, and before the first one too when `lead` is set. -/
def fields_text (sep : Nat) (lead : Bool) : List (List Nat) → List Nat
  | [] => []
  | a :: rest => (if lead then [sep] else []) ++ a ++ prefixed sep rest

/-- What a call of a printing function started in `s` leaves unchanged:
`realloc` calls are only counted up, the settings stay, the cursor does not
move back, a returned pointer is not before the cursor, and unless `realloc`
was called the bytes below the old cursor stay. -/
def frame_post (s : thread_data) (ret : Option Int) (s' : thread_data) : Prop :=
  s.nalloc ≤ s'.nalloc ∧ cfg_eq s' s ∧ s.bufptr ≤ s'.bufptr ∧
    (∀ p, ret = some p → s'.bufptr ≤ p) ∧
    (s'.nalloc = s.nalloc → ∀ j, j < s.bufptr → s'.buf j = s.buf j)

/-- Every result of the printer `sv` satisfies `frame_post`. -/
def sv_frame (sv : Printer) : Prop :=
  ∀ enc s res, sv enc s = some res → frame_post s res.1 res.2


/-- Record 5 has the three integer fields 10, 20 and 30; a record is encoded
as its address. -/
def db_ints : Db :=
  { value := fun e => Value.int e, get_record_len := fun _ => 3,
    get_field := fun _ i => 10 * (i + 1), encode_record := fun r => r }


/-! ## Authorization: `authorize`, `authorize_aux` -/

/-- The level constants of `dserve.h`. -/
structure Levels where
  READ_LEVEL : Int
  WRITE_LEVEL : Int
  ADMIN_LEVEL : Int

/-- The lists of `struct dserve_conf` that `authorize` looks at: for each the
entries `vals[0]`, ..., `vals[used-1]`, character arrays. -/
structure dserve_conf where
  dbases : List (List Nat)
  admin_ips : List (List Nat)
  write_ips : List (List Nat)
  read_ips : List (List Nat)
  admin_tokens : List (List Nat)
  write_tokens : List (List Nat)
  read_tokens : List (List Nat)

/-- The fields of `struct thread_data` used by `authorize` and by the cleanup
functions. Pointers are `none` for NULL; `db` is the address of the attached
database. -/
structure thread_ctx where
  isserver : Int
  iscgi : Int
  ip : Option (List Nat)
  db : Option Nat
  lock_id : Int
  lock_type : Int

/-- `strcmp(a, b) == 0` for two character arrays. -/
def strcmp_eq (a b : List Nat) : Bool := cstr a 0 == cstr b 0

/-- `strncmp(a, b, n) == 0`: the first `n` characters agree, where the
comparison ends after a terminator. -/
def strncmp_eq (a b : List Nat) (n : Nat) : Bool :=
  (cstr a 0 ++ [0]).take n == (cstr b 0 ++ [0]).take n

/-- The loop `for(i=0;i<n;i++)` of `authorize_aux` with the final `return 0`,
on the entries not yet looked at. -/
def authorize_aux_loop (str : List Nat) (sl : Int) (eqflag : Int) : List (List Nat) → Int
  | [] => 0
  | e :: rest =>
    if eqflag ≠ 0 then
      if strcmp_eq e str then 1 else authorize_aux_loop str sl eqflag rest
    else
      let ll : Int := (list_strlen e 0 : Nat)
      if sl ≥ ll ∧ strncmp_eq e str ll.toNat = true then 1
      else authorize_aux_loop str sl eqflag rest

/-- `authorize_aux(str, lst, n, eqflag)` with `lst` the first `n` entries of
the list. String lengths are taken to fit an `int`. -/
def authorize_aux (str : Option (List Nat)) (lst : List (List Nat)) (eqflag : Int) : Int :=
  if lst.length = 0 then 1
  else
    match str with
    | none => 0
    | some s =>
      let sl : Int := (list_strlen s 0 : Nat)
      if sl < 1 then 0 else authorize_aux_loop s sl eqflag lst

/-- `authorize(level, tdata, database, token)` with `conf` the configuration
`(tdata->global)->conf`. -/
def authorize (L : Levels) (conf : dserve_conf) (level : Int) (tdata : thread_ctx)
    (database token : Option (List Nat)) : Int :=
  if tdata.isserver = 0 ∧ tdata.iscgi = 0 then 1
  else if database.isSome = true ∧ authorize_aux database conf.dbases 1 = 0 then 0
  else if level = L.READ_LEVEL then
    let ok : Int :=
      if authorize_aux tdata.ip conf.admin_ips 0 ≠ 0 then 1
      else if authorize_aux tdata.ip conf.write_ips 0 ≠ 0 then 1
      else if authorize_aux tdata.ip conf.read_ips 0 ≠ 0 then 1
      else 0
    if ok = 0 then 0
    else if authorize_aux token conf.admin_tokens 1 ≠ 0 then 1
    else if authorize_aux token conf.write_tokens 1 ≠ 0 then 1
    else if authorize_aux token conf.read_tokens 1 ≠ 0 then 1
    else 0
  else if level = L.WRITE_LEVEL then
    let ok : Int :=
      if authorize_aux tdata.ip conf.admin_ips 0 ≠ 0 then 1
      else if authorize_aux tdata.ip conf.write_ips 0 ≠ 0 then 1
      else 0
    if ok = 0 then 0
    else if authorize_aux token conf.admin_tokens 1 ≠ 0 then 1
    else if authorize_aux token conf.write_tokens 1 ≠ 0 then 1
    else 0
  else if level = L.ADMIN_LEVEL then
    let ok : Int :=
      if authorize_aux tdata.ip conf.admin_ips 0 ≠ 0 then 1
      else 0
    if ok = 0 then 0
    else if authorize_aux token conf.admin_tokens 1 ≠ 0 then 1
    else 0
  else 0

/-- Sample values of the level constants. -/
def sample_levels : Levels := { READ_LEVEL := 0, WRITE_LEVEL := 1, ADMIN_LEVEL := 2 }

/-- A configuration without any list. -/
def conf_empty : dserve_conf :=
  { dbases := [], admin_ips := [], write_ips := [], read_ips := [],
    admin_tokens := [], write_tokens := [], read_tokens := [] }

/-- The address `10.0.0.` as a character array. -/
def net_10_0_0 : List Nat := [49, 48, 46, 48, 46, 48, 46, 0]

/-- A caller of the server from the address `10.0.a.5` (`a` a digit). -/
def caller (a : Nat) : thread_ctx :=
  { isserver := 1, iscgi := 0, ip := some [49, 48, 46, 48, 46, 48 + a, 46, 53, 0],
    db := none, lock_id := 0, lock_type := 0 }

/-! ### Reference for `authorize` -/

/-- Reference, in the words of the specification: a list matches a string
when the list is empty, or when the string is non-null and non-empty and some
entry is a prefix of it (`exact = false`, address lists) or equal to it
(`exact = true`, token lists). -/
def list_matches (exact : Bool) (s : Option (List Nat)) (lst : List (List Nat)) : Bool :=
  lst.isEmpty ||
    match s with
    | none => false
    | some str =>
      !(cstr str 0).isEmpty &&
        lst.any (fun e =>
          if exact then cstr e 0 == cstr str 0 else (cstr e 0).isPrefixOf (cstr str 0))

/-- Reference: the address lists that admit `ip` at `level`. -/
def addr_ok (L : Levels) (conf : dserve_conf) (level : Int) (ip : Option (List Nat)) : Bool :=
  if level = L.READ_LEVEL then
    list_matches false ip conf.admin_ips || list_matches false ip conf.write_ips ||
      list_matches false ip conf.read_ips
  else if level = L.WRITE_LEVEL then
    list_matches false ip conf.admin_ips || list_matches false ip conf.write_ips
  else if level = L.ADMIN_LEVEL then list_matches false ip conf.admin_ips
  else false

/-- Reference: the token lists that admit `token` at `level`. -/
def token_ok (L : Levels) (conf : dserve_conf) (level : Int) (token : Option (List Nat)) :
    Bool :=
  if level = L.READ_LEVEL then
    list_matches true token conf.admin_tokens || list_matches true token conf.write_tokens ||
      list_matches true token conf.read_tokens
  else if level = L.WRITE_LEVEL then
    list_matches true token conf.admin_tokens || list_matches true token conf.write_tokens
  else if level = L.ADMIN_LEVEL then list_matches true token conf.admin_tokens
  else false


/-- Reference for `authorize`: a non-network invocation is allowed; a named
database that the allow-list does not match is denied; else the result is
`addr_ok` and `token_ok`. -/
def authorize_ref (L : Levels) (conf : dserve_conf) (level : Int) (tdata : thread_ctx)
    (database token : Option (List Nat)) : Int :=
  if tdata.isserver = 0 ∧ tdata.iscgi = 0 then 1
  else if database.isSome = true ∧ list_matches true database conf.dbases = false then 0
  else if (addr_ok L conf level tdata.ip && token_ok L conf level token) = true then 1
  else 0

/-- A configuration in which the admin, write and read address lists all
hold the single entry `10.0.0.`. -/
def conf_three : dserve_conf :=
  { conf_empty with admin_ips := [net_10_0_0], write_ips := [net_10_0_0], read_ips := [net_10_0_0] }

/-- The text of an optional string: empty for NULL. -/
def opt_text (s : Option (List Nat)) : List Nat :=
  match s with
  | none => []
  | some l => cstr l 0



/-! ## Cleanup: `err_clear_detach_halt`, `clear_detach_final` -/

/-- The lock type constants of `dserve.h`. -/
structure LockConsts where
  READ_LOCK_TYPE : Int
  WRITE_LOCK_TYPE : Int

/-- A call made by the cleanup code, as recorded in a trace: `wg_end_read`,
`wg_end_write`, detaching a database, and `free` of the output buffer. -/
inductive Call where
  | end_read (db : Nat) (lock : Int)
  | end_write (db : Nat) (lock : Int)
  | detach (db : Nat)
  | free_buf
deriving DecidableEq, Repr

/-- What `clear_detach_final` sees of `*globalptr`: `maxthreads`, the array
`threads_data` as a function of the index, and `threads_data[0].common`
(`none` for NULL, else the value of its field `shutdown`). -/
structure dserve_global where
  maxthreads : Int
  threads_data : Nat → thread_ctx
  common : Option Int

/-- The assignment `threads_data[i] = v`. -/
def set_slot (td : Nat → thread_ctx) (i : Nat) (v : thread_ctx) : Nat → thread_ctx :=
  fun j => if j = i then v else td j

/-- The assignment `lock_id = 0` in a slot. -/
def clear_lock (s : thread_ctx) : thread_ctx := { s with lock_id := 0 }

/-- The assignment `db = NULL` in a slot. -/
def clear_db (s : thread_ctx) : thread_ctx := { s with db := none }

/-- The first loop of `clear_detach_final`,
`for(i=0;(i < globalptr->maxthreads) && (i<1000); i++)`, entered with the loop
variable `i`: the calls made, in order, and the array afterwards. The first
argument bounds the number of iterations left. -/
def clear_locks (L : LockConsts) (maxthreads : Int) :
    Nat → Nat → (Nat → thread_ctx) → List Call × (Nat → thread_ctx)
  | 0, _, td => ([], td)
  | fuel + 1, i, td =>
    if (i : Int) < maxthreads ∧ i < 1000 then
      match (td i).db with
      | some d =>
        if (td i).lock_id ≠ 0 then
          if (td i).lock_type = L.READ_LOCK_TYPE then
            let r := clear_locks L maxthreads fuel (i + 1) (set_slot td i (clear_lock (td i)))
            (Call.end_read d (td i).lock_id :: r.1, r.2)
          else if (td i).lock_type = L.WRITE_LOCK_TYPE then
            let r := clear_locks L maxthreads fuel (i + 1) (set_slot td i (clear_lock (td i)))
            (Call.end_write d (td i).lock_id :: r.1, r.2)
          else clear_locks L maxthreads fuel (i + 1) td
        else clear_locks L maxthreads fuel (i + 1) td
      | none => clear_locks L maxthreads fuel (i + 1) td
    else ([], td)

/-- The second loop of `clear_detach_final`, which detaches the databases. -/
def detach_all (maxthreads : Int) :
    Nat → Nat → (Nat → thread_ctx) → List Call × (Nat → thread_ctx)
  | 0, _, td => ([], td)
  | fuel + 1, i, td =>
    if (i : Int) < maxthreads ∧ i < 1000 then
      match (td i).db with
      | some d =>
        let r := detach_all maxthreads fuel (i + 1) (set_slot td i (clear_db (td i)))
        (Call.detach d :: r.1, r.2)
      | none => detach_all maxthreads fuel (i + 1) td
    else ([], td)

/-- `clear_detach_final(signal)` for `globalptr != NULL`: the calls made and
the new `*globalptr`. `serveroption` tells whether `SERVEROPTION` is defined.
Both loops end after at most 1000 iterations. -/
def clear_detach_final (serveroption : Bool) (L : LockConsts) (g : dserve_global) :
    List Call × dserve_global :=
  let common :=
    if serveroption = true ∧ g.maxthreads > 0 ∧ g.common.isSome = true then some 1
    else g.common
  let r1 := clear_locks L g.maxthreads 1001 0 g.threads_data
  let r2 := detach_all g.maxthreads 1001 0 r1.2
  (r1.1 ++ r2.1, { maxthreads := g.maxthreads, threads_data := r2.2, common := common })

/-- `err_clear_detach_halt(errstr, tdata)` up to its last statement, the call
of `errhalt` (which leaves the output buffer alone): the calls made and the
state, or `none` when `terminate()` is called. `rel_ok` tells whether the
release of the lock succeeds. `op_detach_database` is recorded as a call and
taken to leave the fields alone. The pointer `tdata->buf` is not NULL. -/
def err_clear_detach_halt (L : LockConsts) (rel_ok : Bool) (c : thread_ctx)
    (t : thread_data) : Option (List Call × thread_ctx × thread_data) :=
  let lock : Option (List Call × thread_ctx) :=
    match c.db with
    | some d =>
      if c.lock_id ≠ 0 then
        if c.lock_type = L.READ_LOCK_TYPE then
          if rel_ok = true then some ([Call.end_read d c.lock_id], clear_lock c)
          else none
        else if c.lock_type = L.WRITE_LOCK_TYPE then
          if rel_ok = true then some ([Call.end_write d c.lock_id], clear_lock c)
          else none
        else none
      else some ([], c)
    | none => some ([], c)
  match lock with
  | none => none
  | some (tr, c1) =>
    let tr2 :=
      match c1.db with
      | some d => tr ++ [Call.detach d]
      | none => tr
    some (tr2 ++ [Call.free_buf], c1, { t with nfree := t.nfree + 1 })

/-- Sample values of the lock type constants. -/
def sample_locks : LockConsts := { READ_LOCK_TYPE := 1, WRITE_LOCK_TYPE := 2 }

/-- An allocator that always fails. -/
def env_fail : Env := { realloc := fun _ _ => none }

/-- An idle slot of the thread table. -/
def idle_slot : thread_ctx :=
  { isserver := 1, iscgi := 0, ip := none, db := none, lock_id := 0, lock_type := 0 }

/-- A thread table of three threads that each hold a lock: thread 0 a read
lock 11 on the database at 100, thread 1 a write lock 12 on the database at
101, thread 2 a read lock 13 on the database at 102. -/
def three_threads : dserve_global :=
  { maxthreads := 3,
    threads_data := fun i =>
      if i = 0 then { idle_slot with db := some 100, lock_id := 11, lock_type := 1 }
      else if i = 1 then { idle_slot with db := some 101, lock_id := 12, lock_type := 2 }
      else if i = 2 then { idle_slot with db := some 102, lock_id := 13, lock_type := 1 }
      else idle_slot,
    common := some 0 }

/-! ### What the sweep is expected to do -/

/-- A slot is idle (no attachment, no lock), or it holds an attachment with a
read or a write lock. -/
def slot_ok (L : LockConsts) (s : thread_ctx) : Bool :=
  (s.db.isNone && decide (s.lock_id = 0)) ||
    (s.db.isSome && decide (s.lock_id ≠ 0) &&
      (decide (s.lock_type = L.READ_LOCK_TYPE) || decide (s.lock_type = L.WRITE_LOCK_TYPE)))

/-- The release that matches the lock held in a slot: `end_write` for a write
lock, `end_read` for a read lock, nothing without a lock. -/
def release_of (L : LockConsts) (s : thread_ctx) : Option Call :=
  match s.db with
  | some d =>
    if s.lock_id = 0 then none
    else if s.lock_type = L.WRITE_LOCK_TYPE then some (Call.end_write d s.lock_id)
    else some (Call.end_read d s.lock_id)
  | none => none

/-- The detach of the attachment held in a slot. -/
def detach_of (s : thread_ctx) : Option Call := s.db.map Call.detach


/-! ## The text decoded by `urldecode` -/

/-- The bytes at the indices `a`, ..., `b-1` of a character array. -/
def slice (mem : List Nat) (a b : Nat) : List Nat :=
  (List.range (b - a)).map (fun i => mem.getD (a + i) 0)

/-- What the loop of `urldecode` makes of a text (the bytes before the
terminator): a `%` that is followed by two more bytes of the text, both hex
digits, gives one byte and the three are passed over; every other byte is
copied as it is. -/
def decode_text (char_signed : Bool) : List Nat → List Nat
  | c :: a :: b :: rest =>
    if c = 37 ∧ (to_char char_signed a ≠ 0 ∧ to_char char_signed b ≠ 0) ∧
        (isxdigit (to_char char_signed a) = true ∧ isxdigit (to_char char_signed b) = true) then
      wrap8 (16 * hex_adjust char_signed (to_char char_signed a) +
        hex_adjust char_signed (to_char char_signed b)) :: decode_text char_signed rest
    else c :: decode_text char_signed (a :: b :: rest)
  | [c, a] => [c, a]
  | [c] => [c]
  | [] => []

/-! ## Theorems -/

theorem wrap32_eq_self (x : Int) (h1 : -2147483648 ≤ x) (h2 : x < 2147483648) :
    wrap32 x = x := by
  unfold wrap32
  omega

/-- C1, evaluated: with capacity 1000 and the cursor at 950, a request for 1100
bytes is answered with success after growing the buffer to 2000 bytes, which
leaves 1050 bytes ahead of the cursor, fewer than were asked for. -/
theorem str_guarantee_space_short :
    (str_guarantee_space sample_consts env_ok (mk_tdata 1000 950 1 0 0 0 2) 1100).1 = 1 ∧
    (str_guarantee_space sample_consts env_ok (mk_tdata 1000 950 1 0 0 0 2) 1100).2.bufsize = 2000 ∧
    (str_guarantee_space sample_consts env_ok (mk_tdata 1000 950 1 0 0 0 2) 1100).2.bufptr = 950 ∧
    ¬ ((str_guarantee_space sample_consts env_ok (mk_tdata 1000 950 1 0 0 0 2) 1100).2.bufsize
        - (str_guarantee_space sample_consts env_ok (mk_tdata 1000 950 1 0 0 0 2) 1100).2.bufptr
        ≥ 1100) := by
  decide

/-- C3: `str_guarantee_space` as a transition on capacity, cursor offset and
content, for a state with `0 ≤ cursor ≤ capacity ≤ MAX_MALLOC` (and
`MAX_MALLOC` below `2^30`, so that doubling a capacity stays in range of an
`int`). If `needed ≤ capacity - cursor` it returns 1 and changes nothing. Else,
with `newcap = max (2*capacity) needed`: if `newcap > MAX_MALLOC` it returns 0
with capacity, cursor and content unchanged; if the allocation fails it returns
0 with capacity and cursor unchanged; if the allocation succeeds it returns 1
with capacity `newcap`, the same cursor offset, the bytes below the cursor
unchanged and byte `newcap - 1` zero. In every case the capacity does not
decrease, stays at most `MAX_MALLOC`, and the cursor stays at most the
capacity. -/
theorem str_guarantee_space_transition (K : Consts) (E : Env) (t : thread_data) (needed : Int)
    (h0 : 0 ≤ t.bufptr) (h1 : t.bufptr ≤ t.bufsize) (h2 : t.bufsize ≤ K.MAX_MALLOC)
    (hM : K.MAX_MALLOC < 1073741824) :
    (needed ≤ t.bufsize - t.bufptr → str_guarantee_space K E t needed = (1, t)) ∧
    (t.bufsize - t.bufptr < needed → max (2 * t.bufsize) needed > K.MAX_MALLOC →
      (str_guarantee_space K E t needed).1 = 0 ∧
      (str_guarantee_space K E t needed).2.bufsize = t.bufsize ∧
      (str_guarantee_space K E t needed).2.bufptr = t.bufptr ∧
      (str_guarantee_space K E t needed).2.buf = t.buf) ∧
    (t.bufsize - t.bufptr < needed → max (2 * t.bufsize) needed ≤ K.MAX_MALLOC →
      E.realloc t.nalloc (max (2 * t.bufsize) needed) = none →
      (str_guarantee_space K E t needed).1 = 0 ∧
      (str_guarantee_space K E t needed).2.bufsize = t.bufsize ∧
      (str_guarantee_space K E t needed).2.bufptr = t.bufptr) ∧
    (t.bufsize - t.bufptr < needed → max (2 * t.bufsize) needed ≤ K.MAX_MALLOC →
      (E.realloc t.nalloc (max (2 * t.bufsize) needed)).isSome = true →
      (str_guarantee_space K E t needed).1 = 1 ∧
      (str_guarantee_space K E t needed).2.bufsize = max (2 * t.bufsize) needed ∧
      (str_guarantee_space K E t needed).2.bufptr = t.bufptr ∧
      (∀ i, i < t.bufptr → (str_guarantee_space K E t needed).2.buf i = t.buf i) ∧
      (str_guarantee_space K E t needed).2.buf (max (2 * t.bufsize) needed - 1) = 0) ∧
    (t.bufsize ≤ (str_guarantee_space K E t needed).2.bufsize ∧
      (str_guarantee_space K E t needed).2.bufsize ≤ K.MAX_MALLOC ∧
      (str_guarantee_space K E t needed).2.bufptr ≤ (str_guarantee_space K E t needed).2.bufsize) := by
  have hw : wrap32 (t.bufsize * 2) = 2 * t.bufsize := by
    rw [wrap32_eq_self] <;> omega
  have hnl : (if wrap32 (t.bufsize * 2) < needed then needed else wrap32 (t.bufsize * 2))
      = max (2 * t.bufsize) needed := by
    rw [hw]; split <;> omega
  refine ⟨?_, ?_, ?_, ?_, ?_⟩
  · intro h
    have : ¬ (needed > t.bufsize - t.bufptr) := by omega
    simp [str_guarantee_space, this]
  · intro h hc
    have hg : needed > t.bufsize - t.bufptr := by omega
    simp only [str_guarantee_space, hg, if_true, hnl, hc]
    simp
  · intro h hc hr
    have hg : needed > t.bufsize - t.bufptr := by omega
    have hc2 : ¬ (max (2 * t.bufsize) needed > K.MAX_MALLOC) := by omega
    simp only [str_guarantee_space, hg, if_true, hnl, hc2, if_false, hr]
    simp
  · intro h hc hr
    have hg : needed > t.bufsize - t.bufptr := by omega
    have hc2 : ¬ (max (2 * t.bufsize) needed > K.MAX_MALLOC) := by omega
    obtain ⟨junk, hj⟩ := Option.isSome_iff_exists.mp hr
    simp only [str_guarantee_space, hg, if_true, hnl, hc2, if_false, hj, poke]
    refine ⟨trivial, trivial, trivial, ?_, ?_⟩
    · intro i hi
      have h3 : ¬ (i = max (2 * t.bufsize) needed - 1) := by omega
      have h4 : i < t.bufsize := by omega
      simp [h3, h4]
    · simp
  · by_cases hg : needed > t.bufsize - t.bufptr
    · by_cases hc : max (2 * t.bufsize) needed > K.MAX_MALLOC
      · simp only [str_guarantee_space, hg, if_true, hnl, hc]
        omega
      · cases hr : E.realloc t.nalloc (max (2 * t.bufsize) needed) with
        | none =>
          simp only [str_guarantee_space, hg, if_true, hnl, hc, if_false, hr]
          omega
        | some junk =>
          simp only [str_guarantee_space, hg, if_true, hnl, hc, if_false, hr, poke]
          omega
    · simp only [str_guarantee_space, hg, if_false]
      omega

/-- C3, an instance: capacity 1000, cursor 950, with the sample constants. -/
theorem str_guarantee_space_transition_witness :
    (0 : Int) ≤ (mk_tdata 1000 950 1 0 0 0 2).bufptr ∧
    (mk_tdata 1000 950 1 0 0 0 2).bufptr ≤ (mk_tdata 1000 950 1 0 0 0 2).bufsize ∧
    (mk_tdata 1000 950 1 0 0 0 2).bufsize ≤ sample_consts.MAX_MALLOC ∧
    sample_consts.MAX_MALLOC < 1073741824 ∧
    (str_guarantee_space sample_consts env_ok (mk_tdata 1000 950 1 0 0 0 2) 1100).2.bufsize
      ≤ sample_consts.MAX_MALLOC :=
  ⟨by decide, by decide, by decide, by decide,
    (str_guarantee_space_transition sample_consts env_ok (mk_tdata 1000 950 1 0 0 0 2) 1100
      (by decide) (by decide) (by decide) (by decide)).2.2.2.2.2.1⟩

/-! ### The escaping loop -/

theorem sprint_loop_eq_esc_all (strenc : Int) (s : List Nat) :
    ∀ k : Nat, s.length ≤ k → (∀ b ∈ s, b ≠ 0) →
      sprint_loop strenc k s = esc_all strenc s ++ [34, 0] := by
  induction s with
  | nil =>
    intro k _ _
    cases k <;> simp [sprint_loop, esc_all]
  | cons c rest ih =>
    intro k hk hz
    cases k with
    | zero => simp at hk
    | succ k =>
      have hc : c ≠ 0 := hz c (List.mem_cons_self _ _)
      have hr : ∀ b ∈ rest, b ≠ 0 := fun b hb => hz b (List.mem_cons_of_mem _ hb)
      have hk2 : rest.length ≤ k := by simpa using hk
      simp [sprint_loop, esc_all, hc, ih k hk2 hr]

theorem hex_chars_val (n : Nat) (h : n < 16) :
    hex_digit_val (hex_chars.getD n 0) = some n := by
  interval_cases n <;> decide

theorem shift_and_lt (c : Nat) (h : c < 256) : c >>> 4 < 16 ∧ c &&& 15 < 16 ∧
    16 * (c >>> 4) + (c &&& 15) = c := by
  have h1 : c >>> 4 = c / 16 := by simp [Nat.shiftRight_eq_div_pow]
  have h2 : c &&& 15 = c % 16 := Nat.and_pow_two_sub_one_eq_mod c 4
  rw [h1, h2]
  omega

theorem json_unescape_esc_bytes (c : Nat) (hc : c ≠ 0) (rest : List Nat) :
    json_unescape (esc_bytes 2 c ++ rest) = (json_unescape rest).map (fun r => c :: r) := by
  by_cases h8 : c = 8
  · subst h8; rw [json_unescape.eq_def]; simp [esc_bytes]
  by_cases h10 : c = 10
  · subst h10; rw [json_unescape.eq_def]; simp [esc_bytes]
  by_cases h13 : c = 13
  · subst h13; rw [json_unescape.eq_def]; simp [esc_bytes]
  by_cases h9 : c = 9
  · subst h9; rw [json_unescape.eq_def]; simp [esc_bytes]
  by_cases h12 : c = 12
  · subst h12; rw [json_unescape.eq_def]; simp [esc_bytes]
  by_cases h34 : c = 34
  · subst h34; rw [json_unescape.eq_def]; simp [esc_bytes]
  by_cases h92 : c = 92
  · subst h92; rw [json_unescape.eq_def]; simp [esc_bytes]
  by_cases h47 : c = 47
  · subst h47; rw [json_unescape.eq_def]; simp [esc_bytes]
  by_cases h32 : c < 32
  · have e : esc_bytes 2 c =
        [92, 117, 48, 48, hex_chars.getD (c >>> 4) 0, hex_chars.getD (c &&& 15) 0] := by
      simp [esc_bytes, *]
    obtain ⟨k1, k2, k3⟩ := shift_and_lt c (by omega)
    have v1 := hex_chars_val _ k1
    have v2 := hex_chars_val _ k2
    rw [e, json_unescape.eq_def]
    simp only [List.getD_eq_getElem?_getD] at v1 v2
    simp [v1, v2, k3]
  · have e : esc_bytes 2 c = [c] := by
      simp [esc_bytes, *]
    rw [e, json_unescape.eq_def]
    simp [h92, h34, h32]

theorem json_unescape_esc_all (s : List Nat) (hz : ∀ b ∈ s, b ≠ 0) :
    json_unescape (esc_all 2 s) = some s := by
  induction s with
  | nil => simp [esc_all, json_unescape]
  | cons c rest ih =>
    have hc : c ≠ 0 := hz c (List.mem_cons_self _ _)
    have hr : ∀ b ∈ rest, b ≠ 0 := fun b hb => hz b (List.mem_cons_of_mem _ hb)
    simp [esc_all, json_unescape_esc_bytes c hc, ih hr]

/-- C8: for a byte string `s` without a NUL byte and `limit ≥ length s`,
`sprint_string` in json mode (`strenc = 2`) stores a quote, a text, a quote and
the terminator, and unescaping that text as the body of a JSON string literal
gives `s` back. -/
theorem sprint_string_json_roundtrip (s : List Nat) (limit : Int)
    (hz : ∀ b ∈ s, b ≠ 0) (hl : (s.length : Int) ≤ limit) :
    ∃ body, sprint_string limit (some s) 2 = 34 :: (body ++ [34, 0]) ∧
      json_unescape body = some s := by
  refine ⟨esc_all 2 s, ?_, json_unescape_esc_all s hz⟩
  have hk : s.length ≤ limit.toNat := by omega
  simp [sprint_string, sprint_loop_eq_esc_all 2 s _ hk hz]

/-- C8, an instance: the bytes newline, `A`, quote, 0x01, slash, backslash. -/
theorem sprint_string_json_roundtrip_witness :
    (∀ b ∈ [10, 65, 34, 1, 47, 92], b ≠ 0) ∧ (([10, 65, 34, 1, 47, 92] : List Nat).length : Int) ≤ 6 ∧
    ∃ body, sprint_string 6 (some [10, 65, 34, 1, 47, 92]) 2 = 34 :: (body ++ [34, 0]) ∧
      json_unescape body = some [10, 65, 34, 1, 47, 92] :=
  ⟨by decide, by decide,
    sprint_string_json_roundtrip [10, 65, 34, 1, 47, 92] 6 (by decide) (by decide)⟩

/-! ### `urldecode` and `parse_query` on concrete inputs -/

/-- C9, evaluated: `urldecode` turns `%0A` into the byte 10, but `%0a` into the
byte 81 where `char` is signed and 74 where it is unsigned; `%a0` becomes 16
where `char` is signed. -/
theorem urldecode_lower_case_differs :
    (urldecode true [37, 48, 65, 0] 0 0).map (fun m => cstr m 0) = some [10] ∧
    (urldecode false [37, 48, 65, 0] 0 0).map (fun m => cstr m 0) = some [10] ∧
    (urldecode true [37, 48, 97, 0] 0 0).map (fun m => cstr m 0) = some [81] ∧
    (urldecode false [37, 48, 97, 0] 0 0).map (fun m => cstr m 0) = some [74] ∧
    (urldecode true [37, 65, 48, 0] 0 0).map (fun m => cstr m 0) = some [160] ∧
    (urldecode true [37, 97, 48, 0] 0 0).map (fun m => cstr m 0) = some [16] := by
  decide

/-- C7, evaluated: the one-byte string "\n" is escaped to `"%0a"` in url mode,
and decoding `%0a` gives the byte 81 (signed `char`) or 74 (unsigned `char`)
instead of 10. -/
theorem url_round_trip_newline :
    sprint_string 1 (some [10]) 1 = [34, 37, 48, 97, 34, 0] ∧
    url_round_trip true [10] 1 = some [81] ∧
    url_round_trip false [10] 1 = some [74] := by
  decide

/-- C10, evaluated: the query `a=` (one segment, with `=`, empty value) gives
-1 with either signedness of `char`, although the same segment followed by
another one is accepted: `a=&b=1` gives 2 with the pairs (`a`, empty) and
(`b`, `1`). The two examples of the claim come out as stated:
`a=1&b=hello%20world` gives 2 with (`a`,`1`), (`b`,`hello world`), and the empty
query gives 0. -/
theorem parse_query_examples :
    (parse_query true sample_consts [97, 61, 0] 2).map (fun r => r.ret) = some (-1) ∧
    (parse_query false sample_consts [97, 61, 0] 2).map (fun r => r.ret) = some (-1) ∧
    (parse_query true sample_consts [97, 61, 38, 98, 61, 49, 0] 6).map
      (fun r => (r.ret, parse_pairs r)) = some (2, [([97], []), ([98], [49])]) ∧
    (parse_query true sample_consts
      [97, 61, 49, 38, 98, 61, 104, 101, 108, 108, 111, 37, 50, 48, 119, 111, 114, 108, 100, 0]
      19).map (fun r => (r.ret, parse_pairs r))
      = some (2, [([97], [49]), ([98], [104, 101, 108, 108, 111, 32, 119, 111, 114, 108, 100])]) ∧
    (parse_query true sample_consts [0] 0).map (fun r => (r.ret, parse_pairs r))
      = some (0, []) :=
  ⟨by decide, by decide, by decide, by decide!, by decide⟩

/-! ### The printing functions on concrete inputs -/

/-- C2, evaluated: capacity 256, cursor 157, json escaping, a string of 60
bytes 0x01 without language. `sprint_value` asks for 100 + 6*60 = 460 bytes,
`str_guarantee_space` succeeds with capacity 512 (355 bytes ahead of the
cursor), `sprint_string` stores 363 bytes, the last at offset 519, and the
returned cursor is 519: both beyond the capacity 512. -/
theorem sprint_value_str_overrun :
    (sprint_value sample_consts env_ok (db_str (List.replicate 60 1)) 1 0
      (mk_tdata 256 157 1 0 0 0 2)).map (fun r => (r.1, r.2.bufsize, r.2.wmax))
      = some (some 519, 512, 520) := by
  decide!

/-- C4, evaluated: with `maxdepth = 1` and `depth = 0` the chain of `db_chain`
is printed as `[[[7]]]`: the reference to record 2 is followed, too, where the
claim has the number 2000 in its place. With `maxdepth = 0` the output is
`[1000]`. -/
theorem sprint_record_chain_depth :
    (sprint_record sample_consts env_ok (sprint_value sample_consts env_ok db_chain 3)
      db_chain (some 0) (mk_tdata 1000 0 1 0 0 1 2)).map
      (fun r => (r.1, r.2.bufptr, r.2.depth, peek r.2 0 7))
      = some (1, 7, 0, [91, 91, 91, 55, 93, 93, 93]) ∧
    (sprint_record sample_consts env_ok (sprint_value sample_consts env_ok db_chain 3)
      db_chain (some 0) (mk_tdata 1000 0 1 0 0 0 2)).map
      (fun r => (r.1, r.2.bufptr, r.2.depth, peek r.2 0 6))
      = some (1, 6, 0, [91, 49, 48, 48, 48, 93]) := by
  decide!

/-- C6, evaluated. First: the buffer is at the ceiling (capacity `MAX_MALLOC`)
with 100 bytes left; the nested `sprint_record` for record 1 returns 0 because
`str_guarantee_space` fails, and `sprint_value` for the reference to record 1
returns a pointer, not NULL. Second: the field of record 1 is `WG_ILLEGAL`, the
nested `sprint_record` returns 0, and the enclosing `sprint_record` for record
0 returns 1. -/
theorem sprint_value_drops_failure :
    (sprint_record sample_consts env_ok (sprint_value sample_consts env_ok db_chain 2)
      db_chain (some 1) (mk_tdata 100000000 99999900 1 0 0 5 2)).map (fun r => r.1) = some 0 ∧
    (sprint_value sample_consts env_ok db_chain 3 1000
      (mk_tdata 100000000 99999900 1 0 0 5 2)).map (fun r => r.1) = some (some 99999901) ∧
    (sprint_record sample_consts env_ok (sprint_value sample_consts env_ok db_illegal 2)
      db_illegal (some 1) (mk_tdata 1000 0 1 0 0 5 2)).map (fun r => r.1) = some 0 ∧
    (sprint_record sample_consts env_ok (sprint_value sample_consts env_ok db_illegal 3)
      db_illegal (some 0) (mk_tdata 1000 0 1 0 0 5 2)).map
      (fun r => (r.1, r.2.bufptr, peek r.2 0 3)) = some (1, 3, [91, 91, 93]) := by
  decide!

/-! ### Termination of `sprint_record` and `sprint_value` -/

@[simp] theorem poke_bufsize (t : thread_data) (i : Int) (v : Nat) :
    (poke t i v).bufsize = t.bufsize := rfl

@[simp] theorem poke_bufptr (t : thread_data) (i : Int) (v : Nat) :
    (poke t i v).bufptr = t.bufptr := rfl

@[simp] theorem poke_format (t : thread_data) (i : Int) (v : Nat) :
    (poke t i v).format = t.format := rfl

@[simp] theorem putc_bufsize (t : thread_data) (v : Nat) :
    (putc t v).bufsize = t.bufsize := rfl

@[simp] theorem putc_bufptr (t : thread_data) (v : Nat) :
    (putc t v).bufptr = t.bufptr + 1 := rfl

@[simp] theorem putc_format (t : thread_data) (v : Nat) :
    (putc t v).format = t.format := rfl

@[simp] theorem set_bufptr_bufsize (t : thread_data) (p : Int) :
    (set_bufptr t p).bufsize = t.bufsize := rfl

@[simp] theorem set_bufptr_bufptr (t : thread_data) (p : Int) :
    (set_bufptr t p).bufptr = p := rfl

@[simp] theorem set_bufptr_format (t : thread_data) (p : Int) :
    (set_bufptr t p).format = t.format := rfl

@[simp] theorem store_bufsize (bs : List Nat) : ∀ (t : thread_data) (off : Int),
    (store t off bs).bufsize = t.bufsize := by
  induction bs with
  | nil => intro t off; rfl
  | cons b bs ih => intro t off; simp [store, ih]

@[simp] theorem store_bufptr (bs : List Nat) : ∀ (t : thread_data) (off : Int),
    (store t off bs).bufptr = t.bufptr := by
  induction bs with
  | nil => intro t off; rfl
  | cons b bs ih => intro t off; simp [store, ih]

@[simp] theorem store_format (bs : List Nat) : ∀ (t : thread_data) (off : Int),
    (store t off bs).format = t.format := by
  induction bs with
  | nil => intro t off; rfl
  | cons b bs ih => intro t off; simp [store, ih]

theorem guarantee_props (K : Consts) (E : Env) (t : thread_data) (n : Int)
    (hinv : buf_inv K t) (hM : K.MAX_MALLOC < 1073741824) :
    buf_inv K (str_guarantee_space K E t n).2 ∧
    t.bufsize ≤ (str_guarantee_space K E t n).2.bufsize ∧
    (str_guarantee_space K E t n).2.bufptr = t.bufptr ∧
    (str_guarantee_space K E t n).2.format = t.format ∧
    ((str_guarantee_space K E t n).1 ≠ 0 → 1 ≤ n →
      t.bufsize < (str_guarantee_space K E t n).2.bufsize ∨ t.bufptr + n ≤ t.bufsize) := by
  obtain ⟨h0, h2⟩ := hinv
  have hw : wrap32 (t.bufsize * 2) = 2 * t.bufsize := by
    rw [wrap32_eq_self] <;> omega
  have hnl : (if wrap32 (t.bufsize * 2) < n then n else wrap32 (t.bufsize * 2))
      = max (2 * t.bufsize) n := by
    rw [hw]; split <;> omega
  unfold buf_inv
  by_cases hg : n > t.bufsize - t.bufptr
  · by_cases hc : max (2 * t.bufsize) n > K.MAX_MALLOC
    · simp only [str_guarantee_space, hg, if_true, hnl, hc]
      simp
      omega
    · cases hr : E.realloc t.nalloc (max (2 * t.bufsize) n) with
      | none =>
        simp only [str_guarantee_space, hg, if_true, hnl, hc, if_false, hr]
        simp
        omega
      | some junk =>
        simp only [str_guarantee_space, hg, if_true, hnl, hc, if_false, hr, poke]
        simp
        omega
  · simp only [str_guarantee_space, hg, if_false]
    simp
    omega

theorem print_ret_post (K : Consts) (t : thread_data) (limit : Int) (text : List Nat)
    (hinv : buf_inv K t) : sv_post K t (print_ret t limit text) := by
  unfold sv_post buf_inv print_ret
  unfold buf_inv at hinv
  simp
  omega

theorem guard_total (K : Consts) (E : Env) (t : thread_data) (n : Int)
    (hinv : buf_inv K t) (hM : K.MAX_MALLOC < 1073741824)
    (f : thread_data → Option Int × thread_data)
    (hf : ∀ t1, buf_inv K t1 → sv_post K t1 (f t1)) :
    ∃ res, (if (str_guarantee_space K E t n).1 = 0
        then some ((none : Option Int), (str_guarantee_space K E t n).2)
        else some (f (str_guarantee_space K E t n).2)) = some res ∧ sv_post K t res := by
  obtain ⟨g1, g2, g3, -, -⟩ := guarantee_props K E t n hinv hM
  by_cases h : (str_guarantee_space K E t n).1 = 0
  · refine ⟨_, if_pos h, ?_⟩
    unfold sv_post
    simp
    exact ⟨g1, g2, by omega⟩
  · refine ⟨_, if_neg h, ?_⟩
    obtain ⟨f1, f2, f3, f4⟩ := hf _ g1
    exact ⟨f1, by omega, by omega, f4⟩

theorem pot_mono (K : Consts) (t t' : thread_data) (h1 : t.bufsize ≤ t'.bufsize)
    (h2 : t.bufptr ≤ t'.bufptr) : pot K t' ≤ pot K t := by
  unfold pot
  omega

theorem fields_total (K : Consts) (E : Env) (sv : Printer) (db : Db) (rec : Nat) (B : Nat)
    (hM : K.MAX_MALLOC < 1073741824) (hsv : sv_total K sv B) :
    ∀ (n : Nat) (i : Int) (t : thread_data), buf_inv K t → pot K t < B →
      ∃ res, sprint_fields K E sv db rec n i t = some res ∧ sr_post K t res := by
  intro n
  induction n with
  | zero =>
    intro i t hinv _
    exact ⟨(1, t), rfl, hinv, le_refl _, le_refl _⟩
  | succ n ih =>
    intro i t hinv hpot
    obtain ⟨g1, g2, g3, -, -⟩ := guarantee_props K E t K.MIN_STRLEN hinv hM
    simp only [sprint_fields]
    by_cases hill : db.get_field rec i = K.WG_ILLEGAL
    · exact ⟨(0, t), if_pos hill, hinv, le_refl _, le_refl _⟩
    · rw [if_neg hill]
      by_cases hg : (str_guarantee_space K E t K.MIN_STRLEN).1 = 0
      · rw [if_pos hg]
        exact ⟨_, rfl, g1, g2, by simp [g3]⟩
      · rw [if_neg hg]
        generalize ht2 : (if i ≠ 0 ∨ (str_guarantee_space K E t K.MIN_STRLEN).2.showid ≠ 0 then
            putc (str_guarantee_space K E t K.MIN_STRLEN).2
              (if (str_guarantee_space K E t K.MIN_STRLEN).2.format ≠ 0 then 44 else K.CSV_SEPARATOR)
            else (str_guarantee_space K E t K.MIN_STRLEN).2) = t2
        have k : t2.bufsize = (str_guarantee_space K E t K.MIN_STRLEN).2.bufsize ∧
            t.bufptr ≤ t2.bufptr := by
          rw [← ht2]
          split <;> simp [g3]
        have i2 : buf_inv K t2 := by
          unfold buf_inv at g1 ⊢
          omega
        have p2 : pot K t2 < B :=
          lt_of_le_of_lt (pot_mono K t t2 (by omega) k.2) hpot
        obtain ⟨res, e, q1, q2, q3, q4⟩ := hsv (db.get_field rec i) t2 i2 p2
        rw [e]
        obtain ⟨ret, t3⟩ := res
        cases ret with
        | none =>
          simp only at q1 q2 q3
          refine ⟨(0, t3), rfl, q1, ?_, ?_⟩ <;> simp only <;> omega
        | some tmp =>
          simp only at q1 q2 q3 q4 ⊢
          have q5 := q4 tmp rfl
          have i3 : buf_inv K (set_bufptr t3 tmp) := q1
          have p3 : pot K (set_bufptr t3 tmp) < B :=
            lt_of_le_of_lt (pot_mono K t _ (by simp; omega) (by simp; omega)) hpot
          obtain ⟨res', e', r1, r2, r3⟩ := ih (i + 1) (set_bufptr t3 tmp) i3 p3
          exact ⟨res', e', r1, by simp at r2; omega, by simp at r3; omega⟩

theorem record_total (K : Consts) (E : Env) (sv : Printer) (db : Db) (rec : Option Nat)
    (B : Nat) (t : thread_data)
    (hMIN : 1 ≤ K.MIN_STRLEN) (hM : K.MAX_MALLOC < 1073741824) (hsv : sv_total K sv B)
    (hinv : buf_inv K t) (hpot : pot K t < B ∨ (t.format ≠ 0 ∧ pot K t < B + 1)) :
    ∃ res, sprint_record K E sv db rec t = some res ∧ sr_post K t res := by
  obtain ⟨g1, g2, g3, g4, g5⟩ := guarantee_props K E t K.MIN_STRLEN hinv hM
  simp only [sprint_record]
  by_cases hg : (str_guarantee_space K E t K.MIN_STRLEN).1 = 0
  · rw [if_pos hg]
    exact ⟨_, rfl, g1, g2, by simp [g3]⟩
  · rw [if_neg hg]
    have g6 := g5 hg hMIN
    cases rec with
    | none =>
      refine ⟨_, rfl, ?_, ?_, ?_⟩
      · unfold buf_inv at g1 ⊢
        simpa using g1
      · simpa using g2
      · simp [g3]
    | some r =>
      simp only
      generalize ht2 : (if (str_guarantee_space K E t K.MIN_STRLEN).2.format ≠ 0
          then putc (str_guarantee_space K E t K.MIN_STRLEN).2 91
          else (str_guarantee_space K E t K.MIN_STRLEN).2) = t2
      have k : t2.bufsize = (str_guarantee_space K E t K.MIN_STRLEN).2.bufsize ∧
          t.bufptr ≤ t2.bufptr ∧ t2.format = t.format ∧ pot K t2 < B := by
        rw [← ht2]
        unfold buf_inv at g1 hinv
        split
        · rename_i hf
          rw [g4] at hf
          refine ⟨by simp, by simp [g3], by simp [g4], ?_⟩
          unfold pot at hpot ⊢
          simp only [putc_bufsize, putc_bufptr, g3]
          omega
        · rename_i hf
          rw [g4] at hf
          refine ⟨rfl, by simp [g3], g4, ?_⟩
          unfold pot at hpot ⊢
          rw [g3]
          omega
      obtain ⟨k1, k2, k3, k4⟩ := k
      have i2 : buf_inv K t2 := by
        unfold buf_inv at g1 ⊢
        omega
      by_cases hlen : db.get_record_len r < 0
      · rw [if_pos hlen]
        refine ⟨(0, t2), rfl, i2, ?_, ?_⟩ <;> simp only <;> omega
      · rw [if_neg hlen]
        generalize ht3 : (if t2.showid ≠ 0 then
            set_bufptr
              (store t2 t2.bufptr (snprintf (K.MIN_STRLEN - 1) (fmt_d (wrap32 (db.encode_record r)))))
              ((store t2 t2.bufptr
                  (snprintf (K.MIN_STRLEN - 1) (fmt_d (wrap32 (db.encode_record r))))).bufptr +
                ↑(c_strlen
                    (store t2 t2.bufptr
                        (snprintf (K.MIN_STRLEN - 1) (fmt_d (wrap32 (db.encode_record r))))).buf
                    (store t2 t2.bufptr
                        (snprintf (K.MIN_STRLEN - 1) (fmt_d (wrap32 (db.encode_record r))))).bufptr
                    (snprintf (K.MIN_STRLEN - 1) (fmt_d (wrap32 (db.encode_record r)))).length))
            else t2) = t3
        have m : t3.bufsize = t2.bufsize ∧ t2.bufptr ≤ t3.bufptr ∧ t3.format = t2.format := by
          rw [← ht3]
          split <;> simp
        obtain ⟨m1, m2, m3⟩ := m
        have i3 : buf_inv K t3 := by
          unfold buf_inv at i2 ⊢
          omega
        have p3 : pot K t3 < B :=
          lt_of_le_of_lt (pot_mono K t2 t3 (by omega) m2) k4
        obtain ⟨res, e, q1, q2, q3⟩ :=
          fields_total K E sv db r B hM hsv (db.get_record_len r).toNat 0 t3 i3 p3
        rw [e]
        obtain ⟨ret, t4⟩ := res
        simp only at q1 q2 q3 ⊢
        by_cases hret : ret = 0
        · rw [if_pos hret]
          refine ⟨(0, t4), rfl, q1, ?_, ?_⟩ <;> simp only <;> omega
        · rw [if_neg hret]
          by_cases hf4 : t4.format ≠ 0
          · rw [if_pos hf4]
            obtain ⟨c1, c2, c3, -, -⟩ := guarantee_props K E t4 K.MIN_STRLEN q1 hM
            by_cases hg5 : (str_guarantee_space K E t4 K.MIN_STRLEN).1 = 0
            · rw [if_pos hg5]
              refine ⟨_, rfl, c1, ?_, ?_⟩ <;> simp only <;> omega
            · rw [if_neg hg5]
              refine ⟨_, rfl, ?_, ?_, ?_⟩
              · exact c1
              · simp only [putc_bufsize]; omega
              · simp only [putc_bufptr]; omega
          · rw [if_neg hf4]
            refine ⟨(1, t4), rfl, q1, ?_, ?_⟩ <;> simp only <;> omega

theorem store_post (K : Consts) (t : thread_data) (off : Int) (bs : List Nat) (n : Nat)
    (hinv : buf_inv K t) :
    sv_post K t (some ((store t off bs).bufptr +
      (c_strlen (store t off bs).buf (store t off bs).bufptr n : Nat)), store t off bs) := by
  unfold sv_post buf_inv
  unfold buf_inv at hinv
  simp
  omega

theorem value_total (K : Consts) (E : Env) (db : Db)
    (hMIN : 1 ≤ K.MIN_STRLEN) (hM : K.MAX_MALLOC < 1073741824) :
    ∀ fuel : Nat, sv_total K (sprint_value K E db fuel) fuel := by
  intro fuel
  induction fuel with
  | zero =>
    intro enc t _ h
    exact absurd h (Nat.not_lt_zero _)
  | succ fuel ih =>
    intro enc t hinv hpot
    simp only [sprint_value]
    cases hv : db.value enc with
    | null =>
      simp only
      obtain ⟨g1, g2, g3, -, -⟩ := guarantee_props K E t K.MIN_STRLEN hinv hM
      by_cases hg : (str_guarantee_space K E t K.MIN_STRLEN).1 = 0
      · rw [if_pos hg]
        refine ⟨_, rfl, g1, g2, ?_, ?_⟩ <;> simp [g3]
      · rw [if_neg hg]
        split
        · obtain ⟨f1, f2, f3, f4⟩ := print_ret_post K _ K.MIN_STRLEN (cstr K.JS_NULL 0) g1
          exact ⟨_, rfl, f1, by omega, by omega, f4⟩
        · refine ⟨_, rfl, g1, g2, ?_, ?_⟩ <;> simp [g3]
    | record ptrdata =>
      simp only
      obtain ⟨g1, g2, g3, g4, g5⟩ := guarantee_props K E t K.MIN_STRLEN hinv hM
      by_cases hg : (str_guarantee_space K E t K.MIN_STRLEN).1 = 0
      · rw [if_pos hg]
        refine ⟨_, rfl, g1, g2, ?_, ?_⟩ <;> simp [g3]
      · rw [if_neg hg]
        split
        · obtain ⟨f1, f2, f3, f4⟩ := print_ret_post K _ K.MIN_STRLEN (fmt_d (wrap32 enc)) g1
          exact ⟨_, rfl, f1, by omega, by omega, f4⟩
        · rename_i hbr
          cases ptrdata with
          | none => refine ⟨_, rfl, g1, g2, ?_, ?_⟩ <;> simp [g3]
          | some r =>
            simp only
            have hfmt : (str_guarantee_space K E t K.MIN_STRLEN).2.format ≠ 0 := by
              intro h0
              exact hbr (Or.inl h0)
            have hp : pot K (str_guarantee_space K E t K.MIN_STRLEN).2 < fuel + 1 :=
              lt_of_le_of_lt (pot_mono K t _ g2 (by omega)) hpot
            obtain ⟨res, e, q1, q2, q3⟩ :=
              record_total K E (sprint_value K E db fuel) db (some r) fuel _ hMIN hM ih g1
                (Or.inr ⟨hfmt, hp⟩)
            rw [e]
            obtain ⟨ret, t2⟩ := res
            simp only at q1 q2 q3 ⊢
            refine ⟨_, rfl, q1, ?_, ?_, ?_⟩
            · simp only [poke_bufsize]; omega
            · simp only [poke_bufptr]; omega
            · intro p hp2
              simp only [poke_bufptr, Option.some.injEq] at hp2 ⊢
              omega
    | int intdata =>
      exact guard_total K E t _ hinv hM (fun t1 => print_ret t1 K.MIN_STRLEN (fmt_d intdata))
        (fun t1 h1 => print_ret_post K t1 _ _ h1)
    | double txt =>
      exact guard_total K E t _ hinv hM (fun t1 => print_ret t1 K.MIN_STRLEN txt)
        (fun t1 h1 => print_ret_post K t1 _ _ h1)
    | fixpoint txt =>
      exact guard_total K E t _ hinv hM (fun t1 => print_ret t1 K.MIN_STRLEN txt)
        (fun t1 h1 => print_ret_post K t1 _ _ h1)
    | str strdata exdata =>
      cases exdata with
      | none =>
        exact guard_total K E t _ hinv hM
          (fun t1 => (some ((store t1 t1.bufptr (sprint_string (opt_strlen strdata + opt_strlen none) strdata t1.strenc)).bufptr +
              (c_strlen (store t1 t1.bufptr (sprint_string (opt_strlen strdata + opt_strlen none) strdata t1.strenc)).buf
                (store t1 t1.bufptr (sprint_string (opt_strlen strdata + opt_strlen none) strdata t1.strenc)).bufptr
                (sprint_string (opt_strlen strdata + opt_strlen none) strdata t1.strenc).length : Nat)),
              store t1 t1.bufptr (sprint_string (opt_strlen strdata + opt_strlen none) strdata t1.strenc)))
          (fun t1 h1 => store_post K t1 _ _ _ h1)
      | some ex =>
        simp only
        obtain ⟨g1, g2, g3, -, -⟩ := guarantee_props K E t
          (wrap32 (K.MIN_STRLEN + K.STRLEN_FACTOR * (opt_strlen strdata + opt_strlen (some ex))))
          hinv hM
        by_cases hg : (str_guarantee_space K E t
            (wrap32 (K.MIN_STRLEN + K.STRLEN_FACTOR *
              (opt_strlen strdata + opt_strlen (some ex))))).1 = 0
        · rw [if_pos hg]
          refine ⟨_, rfl, g1, g2, ?_, ?_⟩ <;> simp [g3]
        · rw [if_neg hg]
          refine ⟨_, rfl, ?_⟩
          unfold sv_post buf_inv
          unfold buf_inv at g1
          simp
          omega
    | uri strdata exdata =>
      cases exdata with
      | none =>
        exact guard_total K E t _ hinv hM (fun t1 => print_ret t1 _ _)
          (fun t1 h1 => print_ret_post K t1 _ _ h1)
      | some ex =>
        exact guard_total K E t _ hinv hM (fun t1 => print_ret t1 _ _)
          (fun t1 h1 => print_ret_post K t1 _ _ h1)
    | xmlliteral strdata exdata =>
      exact guard_total K E t _ hinv hM (fun t1 => print_ret t1 _ _)
        (fun t1 h1 => print_ret_post K t1 _ _ h1)
    | char intdata =>
      exact guard_total K E t _ hinv hM (fun t1 => print_ret t1 _ _)
        (fun t1 h1 => print_ret_post K t1 _ _ h1)
    | date strbuf =>
      exact guard_total K E t _ hinv hM (fun t1 => print_ret t1 _ _)
        (fun t1 h1 => print_ret_post K t1 _ _ h1)
    | time strbuf =>
      exact guard_total K E t _ hinv hM (fun t1 => print_ret t1 _ _)
        (fun t1 h1 => print_ret_post K t1 _ _ h1)
    | var intdata =>
      exact guard_total K E t _ hinv hM (fun t1 => print_ret t1 _ _)
        (fun t1 h1 => print_ret_post K t1 _ _ h1)
    | blob strdata strl =>
      simp only
      obtain ⟨g1, g2, g3, -, -⟩ := guarantee_props K E t
        (wrap32 (K.MIN_STRLEN + K.STRLEN_FACTOR * opt_strlen strdata)) hinv hM
      by_cases hg : (str_guarantee_space K E t
          (wrap32 (K.MIN_STRLEN + K.STRLEN_FACTOR * opt_strlen strdata))).1 = 0
      · rw [if_pos hg]
        refine ⟨_, rfl, g1, g2, ?_, ?_⟩ <;> simp [g3]
      · rw [if_neg hg]
        refine ⟨_, rfl, ?_⟩
        unfold sv_post buf_inv
        unfold buf_inv at g1
        simp
        omega
    | other =>
      exact guard_total K E t _ hinv hM (fun t1 => print_ret t1 _ _)
        (fun t1 h1 => print_ret_post K t1 _ _ h1)


/-- C5: `sprint_record` and `sprint_value` return from every state whose
capacity is between 0 and `MAX_MALLOC`, for every database (cyclic ones
included), every record or value, every `maxdepth` and every format: there
is a bound `N`, the room left below the ceiling plus one, such that the
embedding gives a result for every fuel from `N` on. The constants satisfy
`MIN_STRLEN ≥ 1` and `MAX_MALLOC < 2^30`. -/
theorem sprint_record_value_terminate (K : Consts) (E : Env) (db : Db) (t : thread_data)
    (hMIN : 1 ≤ K.MIN_STRLEN) (hM : K.MAX_MALLOC < 1073741824)
    (h0 : 0 ≤ t.bufsize) (h1 : t.bufsize ≤ K.MAX_MALLOC) :
    ∃ N : Nat, ∀ fuel, N ≤ fuel →
      (∀ rec, ∃ res, sprint_record K E (sprint_value K E db fuel) db rec t = some res) ∧
      (∀ enc, ∃ res, sprint_value K E db fuel enc t = some res) := by
  refine ⟨pot K t + 1, ?_⟩
  intro fuel hfuel
  have hp : pot K t < fuel := by omega
  constructor
  · intro rec
    obtain ⟨res, e, -⟩ := record_total K E (sprint_value K E db fuel) db rec fuel t hMIN hM
      (value_total K E db hMIN hM fuel) ⟨h0, h1⟩ (Or.inl hp)
    exact ⟨res, e⟩
  · intro enc
    obtain ⟨res, e, -⟩ := value_total K E db hMIN hM fuel enc t ⟨h0, h1⟩ hp
    exact ⟨res, e⟩

/-- C5, an instance: the two-cycle of `db_cycle`, printed as json with
`maxdepth = 1` into an empty buffer of 1000 bytes. -/
theorem sprint_record_value_terminate_witness :
    (1 : Int) ≤ sample_consts.MIN_STRLEN ∧ sample_consts.MAX_MALLOC < 1073741824 ∧
    (0 : Int) ≤ (mk_tdata 1000 0 1 0 0 1 2).bufsize ∧
    (mk_tdata 1000 0 1 0 0 1 2).bufsize ≤ sample_consts.MAX_MALLOC ∧
    ∃ N : Nat, ∀ fuel, N ≤ fuel →
      (∀ rec, ∃ res, sprint_record sample_consts env_ok
        (sprint_value sample_consts env_ok db_cycle fuel) db_cycle rec
        (mk_tdata 1000 0 1 0 0 1 2) = some res) ∧
      (∀ enc, ∃ res, sprint_value sample_consts env_ok db_cycle fuel enc
        (mk_tdata 1000 0 1 0 0 1 2) = some res) :=
  ⟨by decide, by decide, by decide, by decide,
    sprint_record_value_terminate sample_consts env_ok db_cycle (mk_tdata 1000 0 1 0 0 1 2)
      (by decide) (by decide) (by decide) (by decide)⟩

/-! ### The `encode_` functions -/

/-- C20, evaluated: `encode_incomp` maps the six names to their operators and
an absent name to the equality operator, but the empty name gives
`BAD_WG_VALUE`. -/
theorem encode_incomp_names (T : ApiConsts) :
    encode_incomp T (some []) = T.BAD_WG_VALUE ∧
    encode_incomp T (some [0]) = T.BAD_WG_VALUE ∧
    encode_incomp T none = T.WG_COND_EQUAL ∧
    encode_incomp T (some [101, 113, 117, 97, 108, 0]) = T.WG_COND_EQUAL ∧
    encode_incomp T (some [110, 111, 116, 95, 101, 113, 117, 97, 108, 0]) = T.WG_COND_NOT_EQUAL ∧
    encode_incomp T (some [108, 101, 115, 115, 116, 104, 97, 110, 0]) = T.WG_COND_LESSTHAN ∧
    encode_incomp T (some [103, 114, 101, 97, 116, 101, 114, 0]) = T.WG_COND_GREATER ∧
    encode_incomp T (some [108, 116, 101, 113, 117, 97, 108, 0]) = T.WG_COND_LTEQUAL ∧
    encode_incomp T (some [103, 116, 101, 113, 117, 97, 108, 0]) = T.WG_COND_GTEQUAL :=
  ⟨rfl, rfl, rfl, rfl, rfl, rfl, rfl, rfl, rfl⟩

theorem cstr_nil : cstr [] 0 = [] := rfl

theorem cstr_cons (c : Nat) (rest : List Nat) :
    cstr (c :: rest) 0 = if c = 0 then [] else c :: cstr rest 0 := by
  by_cases h : c = 0 <;> simp [cstr, List.takeWhile_cons, h]

theorem isint_loop_ne_zero_iff (s : List Nat) :
    isint_loop s ≠ 0 ↔ ∀ c ∈ cstr s 0, isdigit c = true := by
  induction s with
  | nil => simp [isint_loop, cstr_nil]
  | cons c rest ih =>
    rw [cstr_cons]
    by_cases h0 : c = 0
    · simp [isint_loop, h0]
    · by_cases hd : isdigit c = true
      · simp [isint_loop, h0, hd, ih]
      · simp [isint_loop, h0, hd]

theorem atoi_digits_eq_foldl (s : List Nat) : ∀ acc : Nat, (∀ c ∈ s, isdigit c = true) →
    atoi_digits s acc = s.foldl (fun a c => a * 10 + (c - 48)) acc := by
  induction s with
  | nil => intro acc _; rfl
  | cons c rest ih =>
    intro acc h
    have hc : isdigit c = true := h c (List.mem_cons_self _ _)
    have hr : ∀ x ∈ rest, isdigit x = true := fun x hx => h x (List.mem_cons_of_mem _ hx)
    simp [atoi_digits, hc, ih _ hr]

theorem atoi_of_digits (s : List Nat) (h : ∀ c ∈ s, isdigit c = true)
    (hv : dec_value s < 2147483648) : atoi s = (dec_value s : Nat) := by
  have hw : wrap32 ((dec_value s : Nat) : Int) = (dec_value s : Nat) := by
    apply wrap32_eq_self <;> omega
  cases s with
  | nil => simp [atoi, atoi_digits, dec_value, wrap32]
  | cons c rest =>
    have hc : isdigit c = true := h c (List.mem_cons_self _ _)
    have hns : isspace c = false := by
      simp only [isdigit, Bool.and_eq_true, decide_eq_true_eq] at hc
      simp only [isspace, Bool.or_eq_false_iff, Bool.and_eq_false_iff, decide_eq_false_iff_not]
      omega
    have h45 : c ≠ 45 := by
      simp only [isdigit, Bool.and_eq_true, decide_eq_true_eq] at hc
      omega
    have h43 : c ≠ 43 := by
      simp only [isdigit, Bool.and_eq_true, decide_eq_true_eq] at hc
      omega
    have hd : List.dropWhile isspace (c :: rest) = c :: rest := by
      simp [List.dropWhile, hns]
    unfold atoi
    simp only [hd, List.head?_cons, Option.some.injEq, h45, h43, if_false]
    rw [atoi_digits_eq_foldl _ _ h]
    exact hw

theorem isdbl_loop_ne_zero (s : List Nat) : ∀ c : Int, 0 ≤ c → c ≤ 1 → isdbl_loop s c ≠ 0 →
    (∀ ch ∈ cstr s 0, isdigit ch = true ∨ ch = 46) ∧ c + ((cstr s 0).count 46 : Nat) ≤ 1 := by
  induction s with
  | nil => intro c _ h1 _; simp [cstr_nil]; omega
  | cons ch rest ih =>
    intro c h0 h1 hne
    rw [cstr_cons]
    by_cases hz : ch = 0
    · simp [hz]; omega
    · by_cases hd : isdigit ch = true
      · have h46 : ch ≠ 46 := by
          simp only [isdigit, Bool.and_eq_true, decide_eq_true_eq] at hd
          omega
        simp only [isdbl_loop, hz, hd, if_false, Bool.not_true] at hne
        obtain ⟨a, b⟩ := ih c h0 h1 (by simpa using hne)
        simp only [hz, if_false]
        refine ⟨?_, ?_⟩
        · intro x hx
          rcases List.mem_cons.mp hx with rfl | hx
          · exact Or.inl hd
          · exact a x hx
        · rw [List.count_cons_of_ne (Ne.symm h46)]
          exact b
      · by_cases h46 : ch = 46
        · subst h46
          have hc0 : ¬ (c + 1 > 1) := by
            intro hc
            simp [isdbl_loop, hd, hc] at hne
          simp only [isdbl_loop, hz, hd, hc0, if_false] at hne
          obtain ⟨a, b⟩ := ih (c + 1) (by omega) (by omega) (by simpa using hne)
          simp only [hz, if_false]
          refine ⟨?_, ?_⟩
          · intro x hx
            rcases List.mem_cons.mp hx with rfl | hx
            · exact Or.inr rfl
            · exact a x hx
          · rw [List.count_cons_self]
            push_cast
            omega
        · simp [isdbl_loop, hz, hd, h46] at hne

theorem isdbl_of_isint (s : List Nat) : ∀ c : Int, isint_loop s ≠ 0 → isdbl_loop s c ≠ 0 := by
  induction s with
  | nil => intro c _; simp [isdbl_loop]
  | cons ch rest ih =>
    intro c h
    by_cases hz : ch = 0
    · simp [isdbl_loop, hz]
    · by_cases hd : isdigit ch = true
      · simp only [isint_loop, hz, hd, if_false, Bool.not_true] at h
        simp only [isdbl_loop, hz, hd, if_false, Bool.not_true]
        exact ih c (by simpa using h)
      · simp [isint_loop, hz, hd] at h

/-- C18: `encode_invalue` with an explicit type. A NULL text is illegal for
every type. For type int a text with a character that is not a decimal digit
is illegal, and a text of digits only whose value is below `2^31` is encoded
as that integer (`007` as 7, `abc` is illegal). For type double a text that
does not consist of digits and at most one period is illegal (`1.2.3` is
illegal). The type tags are taken to be different from each other. -/
theorem encode_invalue_explicit (K : Consts) (T : ApiConsts) (A : QueryApi)
    (hT : tags_distinct T) (s : List Nat) :
    (∀ type, encode_invalue K T A none type = K.WG_ILLEGAL) ∧
    ((∃ c ∈ cstr s 0, isdigit c = false) →
      encode_invalue K T A (some s) T.WG_INTTYPE = K.WG_ILLEGAL) ∧
    ((∀ c ∈ s, isdigit c = true) → dec_value s < 2147483648 →
      encode_invalue K T A (some s) T.WG_INTTYPE = A.param_int (dec_value s : Nat)) ∧
    (¬ dbl_grammar (cstr s 0) →
      encode_invalue K T A (some s) T.WG_DOUBLETYPE = K.WG_ILLEGAL) ∧
    encode_invalue K T A (some [48, 48, 55, 0]) T.WG_INTTYPE = A.param_int 7 ∧
    encode_invalue K T A (some [97, 98, 99, 0]) T.WG_INTTYPE = K.WG_ILLEGAL ∧
    encode_invalue K T A (some [49, 46, 50, 46, 51, 0]) T.WG_DOUBLETYPE = K.WG_ILLEGAL := by
  simp only [tags_distinct, List.nodup_cons, List.mem_cons, List.mem_singleton, not_or,
    List.not_mem_nil, not_false_eq_true, List.nodup_nil, and_true] at hT
  obtain ⟨⟨z1, z2, z3, z4, z5, z6⟩, ⟨n2, n3, n4, n5, n6⟩, ⟨r3, r4, r5, r6⟩, ⟨i4, i5, i6⟩,
    ⟨d5, d6⟩, s6⟩ := hT
  have e_int : ∀ s', encode_invalue K T A (some s') T.WG_INTTYPE =
      if isint (some s') = 0 then K.WG_ILLEGAL else A.param_int (atoi s') := by
    intro s'
    simp [encode_invalue, Ne.symm n3]
  have e_dbl : ∀ s', encode_invalue K T A (some s') T.WG_DOUBLETYPE =
      if isdbl (some s') = 0 then K.WG_ILLEGAL else A.param_double (cstr s' 0) := by
    intro s'
    simp [encode_invalue, Ne.symm n4, Ne.symm i4, Ne.symm r4]
  refine ⟨fun _ => rfl, ?_, ?_, ?_, ?_, ?_, ?_⟩
  · rintro ⟨c, hc, hd⟩
    have : isint_loop s = 0 := by
      by_contra hne
      have := (isint_loop_ne_zero_iff s).mp hne c hc
      simp [hd] at this
    simp [e_int, isint, this]
  · intro hd hv
    have h1 : isint_loop s ≠ 0 := by
      rw [isint_loop_ne_zero_iff]
      intro c hc
      apply hd
      unfold cstr at hc
      exact (List.takeWhile_sublist _).subset hc
    simp [e_int, isint, h1, atoi_of_digits s hd hv]
  · intro hg
    have : isdbl_loop s 0 = 0 := by
      by_contra hne
      obtain ⟨a, b⟩ := isdbl_loop_ne_zero s 0 (le_refl _) (by omega) hne
      exact hg ⟨a, by omega⟩
    simp [e_dbl, isdbl, this]
  · rw [e_int, if_neg (by decide), show atoi [48, 48, 55, 0] = 7 from by decide]
  · rw [e_int, if_pos (by decide)]
  · rw [e_dbl, if_pos (by decide)]

/-- C18, an instance: the sample tags and the text `42`. -/
theorem encode_invalue_explicit_witness :
    tags_distinct sample_api_consts ∧
    encode_invalue sample_consts sample_api_consts sample_query_api (some [52, 50])
      sample_api_consts.WG_INTTYPE = sample_query_api.param_int (dec_value [52, 50] : Nat) :=
  ⟨by unfold tags_distinct; decide,
    (encode_invalue_explicit sample_consts sample_api_consts sample_query_api
      (by unfold tags_distinct; decide) [52, 50]).2.2.1 (by decide) (by decide)⟩

/-- C19: with the infer tag 0 and a text that is not NULL, `encode_invalue`
encodes the text as an integer when `isint` accepts it, else as a double when
`isdbl` accepts it, else as a string; every text accepted by `isint` is
accepted by `isdbl` as well. The type tags are taken to be different from 0. -/
theorem encode_invalue_infer (K : Consts) (T : ApiConsts) (A : QueryApi)
    (hT : tags_distinct T) (s : List Nat) :
    (isint (some s) ≠ 0 → encode_invalue K T A (some s) 0 = A.param_int (atoi s)) ∧
    (isint (some s) = 0 → isdbl (some s) ≠ 0 →
      encode_invalue K T A (some s) 0 = A.param_double (cstr s 0)) ∧
    (isint (some s) = 0 → isdbl (some s) = 0 →
      encode_invalue K T A (some s) 0 = A.param_str (cstr s 0)) ∧
    (isint (some s) ≠ 0 → isdbl (some s) ≠ 0) ∧
    ((∀ c ∈ s, isdigit c = true) → dec_value s < 2147483648 →
      encode_invalue K T A (some s) 0 = A.param_int (dec_value s : Nat)) := by
  simp only [tags_distinct, List.nodup_cons, List.mem_cons, List.mem_singleton, not_or,
    List.not_mem_nil, not_false_eq_true, List.nodup_nil, and_true] at hT
  obtain ⟨⟨z1, z2, z3, z4, z5, z6⟩, -⟩ := hT
  have e0 : encode_invalue K T A (some s) 0 =
      if isint (some s) ≠ 0 then A.param_int (atoi s)
      else if isdbl (some s) ≠ 0 then A.param_double (cstr s 0)
      else A.param_str (cstr s 0) := by
    simp [encode_invalue, z1, z2, z3, z4, z5, z6]
  refine ⟨?_, ?_, ?_, ?_, ?_⟩
  · intro h; rw [e0, if_pos h]
  · intro h1 h2; rw [e0, if_neg (by simp [h1]), if_pos h2]
  · intro h1 h2; rw [e0, if_neg (by simp [h1]), if_neg (by simp [h2])]
  · intro h; exact isdbl_of_isint s 0 h
  · intro hd hv
    have h1 : isint (some s) ≠ 0 := by
      show isint_loop s ≠ 0
      rw [isint_loop_ne_zero_iff]
      intro c hc
      apply hd
      unfold cstr at hc
      exact (List.takeWhile_sublist _).subset hc
    rw [e0, if_pos h1, atoi_of_digits s hd hv]

/-- C19, an instance: the sample tags and the text `42`. -/
theorem encode_invalue_infer_witness :
    tags_distinct sample_api_consts ∧
    encode_invalue sample_consts sample_api_consts sample_query_api (some [52, 50]) 0
      = sample_query_api.param_int (atoi [52, 50]) :=
  ⟨by unfold tags_distinct; decide,
    (encode_invalue_infer sample_consts sample_api_consts sample_query_api
      (by unfold tags_distinct; decide) [52, 50]).1 (by decide)⟩

/-! ### More concrete inputs -/

/-- C11, evaluated: the query `a=1&b` gives -1, but `a&b=1` (first segment
without `=`) gives 1 with the pair (`a&b`, `1`), `a=1&&b=2` (empty segment in
the middle) gives 2 with the pairs (`a`, `1`) and (`&b`, `2`), and `a=1&`
(empty last segment) gives 1. -/
theorem parse_query_missing_eq :
    (parse_query true sample_consts [97, 61, 49, 38, 98, 0] 5).map (fun r => r.ret) = some (-1) ∧
    (parse_query true sample_consts [97, 38, 98, 61, 49, 0] 5).map
      (fun r => (r.ret, parse_pairs r)) = some (1, [([97, 38, 98], [49])]) ∧
    (parse_query true sample_consts [97, 61, 49, 38, 38, 98, 61, 50, 0] 8).map
      (fun r => (r.ret, parse_pairs r)) = some (2, [([97], [49]), ([38, 98], [50])]) ∧
    (parse_query true sample_consts [97, 61, 49, 38, 0] 4).map
      (fun r => (r.ret, parse_pairs r)) = some (1, [([97], [49])]) :=
  ⟨by decide, by decide, by decide!, by decide⟩

/-- C14, evaluated: for the blob of the three bytes `A`, 0, `B` with length 3
`sprint_blob` stores a quote, `A`, a quote and the terminator, whatever
`strenc` is, and the text that `sprint_value` appends is the quoted `A`; the
zero byte and the `B` after it are not printed. With the byte 1 in place of the
zero byte the text is the quoted `A%01B`. -/
theorem sprint_blob_stops_at_zero :
    (∀ strenc, sprint_blob 3 (some [65, 0, 66]) strenc = [34, 65, 34, 0]) ∧
    appended_text (Value.blob (some [65, 0, 66]) 3) 1 2 = some [34, 65, 34] ∧
    appended_text (Value.blob (some [65, 1, 66]) 3) 1 2 = some [34, 65, 37, 48, 49, 66, 34] :=
  ⟨fun _ => rfl, by decide!, by decide!⟩

/-- C15, evaluated, in json format with json escaping: for the single char
that is the quote the appended text consists of three quotes; for the URI
with the bytes `a`, quote, `b` and no prefix it is these bytes between quotes;
for the string of the single byte newline with language `en` it is a quote, a
backslash, `@en` and a quote. None of the three is a well-formed JSON string
literal. The string of the bytes `a`, quote without language gives a
well-formed literal with that value. -/
theorem sprint_value_json_text_unescaped :
    appended_text (Value.char 34) 1 2 = some [34, 34, 34] ∧
    json_string_literal [34, 34, 34] = none ∧
    appended_text (Value.uri (some [97, 34, 98]) none) 1 2 = some [34, 97, 34, 98, 34] ∧
    json_string_literal [34, 97, 34, 98, 34] = none ∧
    appended_text (Value.str (some [10]) (some [101, 110])) 1 2
      = some [34, 92, 64, 101, 110, 34] ∧
    json_string_literal [34, 92, 64, 101, 110, 34] = none ∧
    appended_text (Value.str (some [97, 34]) none) 1 2 = some [34, 97, 92, 34, 34] ∧
    json_string_literal [34, 97, 92, 34, 34] = some [97, 34] :=
  ⟨by decide!, by decide!, by decide!, by decide!, by decide!, by decide!, by decide!, by decide!⟩

/-! ### The url escaping -/

theorem hex_digit_props (n : Nat) (h : n < 16) :
    hex_chars.getD n 0 = hex_digit n ∧ 32 ≤ hex_digit n ∧ hex_digit n ≤ 126 ∧
    hex_digit n ≠ 34 ∧ (hex_digit_val (hex_digit n)).isSome = true := by
  interval_cases n <;> decide

theorem esc_all_url_eq_spec (s : List Nat) (hb : ∀ b ∈ s, b < 256) :
    esc_all 1 s = url_escape_spec s := by
  induction s with
  | nil => rfl
  | cons b rest ih =>
    have hb0 : b < 256 := hb b (List.mem_cons_self _ _)
    have hr : ∀ x ∈ rest, x < 256 := fun x hx => hb x (List.mem_cons_of_mem _ hx)
    have h1 : b >>> 4 = b / 16 := by simp [Nat.shiftRight_eq_div_pow]
    have h2 : b &&& 15 = b % 16 := Nat.and_pow_two_sub_one_eq_mod b 4
    have k1 := (hex_digit_props (b / 16) (by omega)).1
    have k2 := (hex_digit_props (b % 16) (by omega)).1
    simp only [esc_all, url_escape_spec, ih hr, esc_bytes, h1, h2, k1, k2]
    by_cases hc : b < 32 ∨ b > 126 ∨ b = 37 ∨ b = 34
    · have hc' : b < 32 ∨ b = 37 ∨ b = 34 ∨ b > 126 := by omega
      simp [hc, hc']
    · have hc' : ¬ (b < 32 ∨ b = 37 ∨ b = 34 ∨ b > 126) := by omega
      simp [hc, hc']

theorem url_escape_spec_props (s : List Nat) (hb : ∀ b ∈ s, b < 256) :
    (∀ x ∈ url_escape_spec s, 32 ≤ x ∧ x ≤ 126 ∧ x ≠ 34) ∧
    percent_ok (url_escape_spec s) = true := by
  induction s with
  | nil => simp [url_escape_spec, percent_ok]
  | cons b rest ih =>
    have hb0 : b < 256 := hb b (List.mem_cons_self _ _)
    have hr : ∀ x ∈ rest, x < 256 := fun x hx => hb x (List.mem_cons_of_mem _ hx)
    obtain ⟨ih1, ih2⟩ := ih hr
    obtain ⟨-, a1, a2, a3, a4⟩ := hex_digit_props (b / 16) (by omega)
    obtain ⟨-, b1, b2, b3, b4⟩ := hex_digit_props (b % 16) (by omega)
    by_cases hc : b < 32 ∨ b > 126 ∨ b = 37 ∨ b = 34
    · simp only [url_escape_spec, if_pos hc]
      refine ⟨?_, ?_⟩
      · intro x hx
        simp only [List.cons_append, List.nil_append, List.mem_cons] at hx
        rcases hx with rfl | rfl | rfl | hx
        · omega
        · exact ⟨a1, a2, a3⟩
        · exact ⟨b1, b2, b3⟩
        · exact ih1 x hx
      · simp [percent_ok, a4, b4, ih2]
    · simp only [url_escape_spec, if_neg hc]
      refine ⟨?_, ?_⟩
      · intro x hx
        simp only [List.cons_append, List.nil_append, List.mem_cons] at hx
        rcases hx with rfl | hx
        · omega
        · exact ih1 x hx
      · have h37 : b ≠ 37 := by omega
        rw [List.singleton_append, percent_ok.eq_def]
        simp [h37, ih2]

/-- C17: for a byte string `s` without a NUL byte and `limit ≥ length s`,
`sprint_string` in url mode (`strenc = 1`) stores a quote, then for every byte
`b` of `s` in order either `%` and the two hexadecimal digits of `b` (when `b`
is below `0x20`, above `0x7e`, `%` or the quote) or `b` itself, then a quote
and the terminator. Every byte between the enclosing quotes is printable
ASCII and not a quote, and every `%` there is followed by two hexadecimal
digits. -/
theorem sprint_string_url_form (s : List Nat) (limit : Int)
    (hz : ∀ b ∈ s, b ≠ 0) (hb : ∀ b ∈ s, b < 256) (hl : (s.length : Int) ≤ limit) :
    sprint_string limit (some s) 1 = 34 :: (url_escape_spec s ++ [34, 0]) ∧
    (∀ x ∈ url_escape_spec s, 32 ≤ x ∧ x ≤ 126 ∧ x ≠ 34) ∧
    percent_ok (url_escape_spec s) = true := by
  have hk : s.length ≤ limit.toNat := by omega
  refine ⟨?_, url_escape_spec_props s hb⟩
  simp [sprint_string, sprint_loop_eq_esc_all 1 s _ hk hz, esc_all_url_eq_spec s hb]

/-- C17, an instance: the bytes newline, `A`, 0xC8, `%`, quote. -/
theorem sprint_string_url_form_witness :
    (∀ b ∈ [10, 65, 200, 37, 34], b ≠ 0) ∧ (∀ b ∈ [10, 65, 200, 37, 34], b < 256) ∧
    (([10, 65, 200, 37, 34] : List Nat).length : Int) ≤ 5 ∧
    sprint_string 5 (some [10, 65, 200, 37, 34]) 1
      = 34 :: (url_escape_spec [10, 65, 200, 37, 34] ++ [34, 0]) :=
  ⟨by decide, by decide, by decide,
    (sprint_string_url_form [10, 65, 200, 37, 34] 5 (by decide) (by decide) (by decide)).1⟩

/-! ### Bytes of the buffer after `store` -/

@[simp] theorem poke_strenc (t : thread_data) (i : Int) (v : Nat) :
    (poke t i v).strenc = t.strenc := rfl

@[simp] theorem store_strenc (bs : List Nat) : ∀ (t : thread_data) (off : Int),
    (store t off bs).strenc = t.strenc := by
  induction bs with
  | nil => intro t off; rfl
  | cons b bs ih => intro t off; simp [store, ih]

theorem store_buf (bs : List Nat) : ∀ (t : thread_data) (off j : Int),
    (store t off bs).buf j =
      if off ≤ j ∧ j < off + bs.length then bs.getD (j - off).toNat 0 else t.buf j := by
  induction bs with
  | nil =>
    intro t off j
    have : ¬ (off ≤ j ∧ j < off + (([] : List Nat).length : Int)) := by
      simp only [List.length_nil, Nat.cast_zero]; omega
    rw [if_neg this]; rfl
  | cons b bs ih =>
    intro t off j
    simp only [store, ih, List.length_cons, Nat.cast_add, Nat.cast_one]
    by_cases h1 : off + 1 ≤ j ∧ j < off + 1 + bs.length
    · have h2 : off ≤ j ∧ j < off + (bs.length + 1) := by omega
      rw [if_pos h1, if_pos h2]
      have h3 : (j - off).toNat = (j - (off + 1)).toNat + 1 := by omega
      rw [h3, List.getD_cons_succ]
    · rw [if_neg h1]
      by_cases h4 : j = off
      · have h2 : off ≤ j ∧ j < off + (bs.length + 1) := by omega
        rw [if_pos h2]
        subst h4
        simp [poke]
      · have h2 : ¬ (off ≤ j ∧ j < off + (bs.length + 1)) := by omega
        rw [if_neg h2]
        simp [poke, h4]

theorem store_buf_at (bs : List Nat) (t : thread_data) (off : Int) (i : Nat)
    (h : i < bs.length) : (store t off bs).buf (off + i) = bs.getD i 0 := by
  rw [store_buf, if_pos (by omega)]
  congr 1
  omega

theorem store_buf_out (bs : List Nat) (t : thread_data) (off j : Int)
    (h : j < off ∨ off + bs.length ≤ j) : (store t off bs).buf j = t.buf j := by
  rw [store_buf, if_neg (by omega)]

theorem peek_def (t : thread_data) (off : Int) (n : Nat) :
    peek t off n = (List.range n).map (fun i : Nat => t.buf (off + (i : Int))) := by
  have h : ∀ l : List Nat, (l.flatMap fun a => [(a : Int)]) = List.map (Nat.cast : Nat → Int) l :=
    fun l => (List.map_eq_flatMap _ l).symm
  unfold peek
  show List.map _ ((List.range n).flatMap fun a => [(a : Int)]) = _
  rw [h, List.map_map]
  rfl

theorem peek_length (t : thread_data) (off : Int) (n : Nat) : (peek t off n).length = n := by
  simp [peek_def]

theorem peek_eq (t : thread_data) (off : Int) (bs : List Nat)
    (h : ∀ i : Nat, i < bs.length → t.buf (off + i) = bs.getD i 0) :
    peek t off bs.length = bs := by
  apply List.ext_getElem
  · simp [peek_def]
  · intro i h1 h2
    simp only [peek_def, List.getElem_map, List.getElem_range]
    rw [h i h2, List.getD_eq_getElem _ _ h2]

theorem c_strlen_eq (m : Int → Nat) : ∀ (n : Nat) (p : Int) (fuel : Nat),
    (∀ i : Nat, i < n → m (p + i) ≠ 0) → m (p + n) = 0 → n < fuel → c_strlen m p fuel = n := by
  intro n
  induction n with
  | zero =>
    intro p fuel _ hz hf
    cases fuel with
    | zero => omega
    | succ f => simp at hz; simp [c_strlen, hz]
  | succ n ih =>
    intro p fuel hnz hz hf
    cases fuel with
    | zero => omega
    | succ f =>
      have h0 : m p ≠ 0 := by simpa using hnz 0 (by omega)
      have h1 : c_strlen m (p + 1) f = n := by
        apply ih
        · intro i hi
          have := hnz (i + 1) (by omega)
          rwa [show p + 1 + (i : Int) = p + ((i + 1 : Nat) : Int) by push_cast; ring]
        · rwa [show p + 1 + (n : Int) = p + ((n + 1 : Nat) : Int) by push_cast; ring]
        · omega
      simp [c_strlen, h0, h1]

theorem cstr_of_nonzero (l : List Nat) (h : ∀ b ∈ l, b ≠ 0) : cstr l 0 = l := by
  unfold cstr
  rw [List.drop_zero, List.takeWhile_eq_self_iff]
  intro b hb
  simpa using h b hb

theorem list_strlen_of_nonzero (l : List Nat) (h : ∀ b ∈ l, b ≠ 0) :
    list_strlen l 0 = l.length := by
  have := cstr_of_nonzero l h
  unfold cstr at this
  unfold list_strlen
  rw [this]

/-! ### A string with a language -/

theorem sprint_string_raw (v : List Nat) (limit : Int) (strenc : Int)
    (hz : ∀ b ∈ v, b ≠ 0) (hl : (v.length : Int) ≤ limit) (hesc : esc_all strenc v = v) :
    sprint_string limit (some v) strenc = 34 :: (v ++ [34, 0]) := by
  have hk : v.length ≤ limit.toNat := by omega
  simp [sprint_string, sprint_loop_eq_esc_all strenc v _ hk hz, hesc]

theorem snprintf_fits (limit : Int) (text : List Nat) (h : (text.length : Int) < limit) :
    snprintf limit text = text ++ [0] := by
  have h1 : limit ≠ 0 := by omega
  have h2 : ¬ limit < 0 := by omega
  have h3 : text.length ≤ (limit - 1).toNat := by omega
  unfold snprintf
  rw [if_neg h1, if_neg h2, List.take_of_length_le h3]

theorem guarantee_cfg (K : Consts) (E : Env) (t : thread_data) (n : Int) :
    (str_guarantee_space K E t n).2.bufptr = t.bufptr ∧
    (str_guarantee_space K E t n).2.strenc = t.strenc ∧
    (str_guarantee_space K E t n).2.format = t.format ∧
    (str_guarantee_space K E t n).2.showid = t.showid ∧
    (str_guarantee_space K E t n).2.depth = t.depth ∧
    (str_guarantee_space K E t n).2.maxdepth = t.maxdepth := by
  by_cases hg : n > t.bufsize - t.bufptr
  · simp only [str_guarantee_space, hg, if_true]
    generalize (if wrap32 (t.bufsize * 2) < n then n else wrap32 (t.bufsize * 2)) = nl
    by_cases hc : nl > K.MAX_MALLOC
    · simp only [hc, if_true]
      simp
    · simp only [hc, if_false]
      cases E.realloc t.nalloc nl <;> simp [poke]
  · simp only [str_guarantee_space, hg, if_false]
    simp

theorem region_text (t : thread_data) (p : Int) (body : List Nat) (fuel : Nat)
    (hb : ∀ b ∈ body, b ≠ 0)
    (hpt : ∀ i : Nat, i < body.length + 1 → t.buf (p + i) = (body ++ [0]).getD i 0)
    (hf : body.length < fuel) :
    c_strlen t.buf p fuel = body.length ∧ peek t p (body.length + 1) = body ++ [0] ∧
    peek t p body.length = body := by
  refine ⟨?_, ?_, ?_⟩
  · apply c_strlen_eq
    · intro i hi
      rw [hpt i (by omega), List.getD_append _ _ _ _ hi, List.getD_eq_getElem _ _ hi]
      exact hb _ (List.getElem_mem _)
    · rw [hpt body.length (by omega), List.getD_append_right _ _ _ _ (le_refl _)]
      simp
    · exact hf
  · have := peek_eq t p (body ++ [0]) (by
      intro i hi
      exact hpt i (by simpa using hi))
    simpa using this
  · apply peek_eq
    intro i hi
    rw [hpt i (by omega), List.getD_append _ _ _ _ hi]

/-- C13, as amended: for a string value `v` with language `l` (both without a
NUL byte, `l` shorter than `MIN_STRLEN - 2`), in an escaping mode that leaves
every byte of `v` as it is, once `str_guarantee_space` has succeeded the text
that `sprint_value` appends is the opening quote, the bytes of `v`, `@`, the
bytes of `l` and a quote, followed by the terminator: the suffix is written
over the closing quote that `sprint_string` stored. -/
theorem sprint_value_str_lang (K : Consts) (E : Env) (db : Db) (fuel : Nat) (enc : Int)
    (t : thread_data) (v l : List Nat)
    (hv : db.value enc = Value.str (some v) (some l))
    (hvz : ∀ b ∈ v, b ≠ 0) (hlz : ∀ b ∈ l, b ≠ 0)
    (hesc : esc_all t.strenc v = v)
    (hmin : (l.length : Int) + 2 < K.MIN_STRLEN)
    (hg : (str_guarantee_space K E t
      (wrap32 (K.MIN_STRLEN + K.STRLEN_FACTOR * ((v.length : Int) + l.length)))).1 ≠ 0) :
    ∃ t', sprint_value K E db (fuel + 1) enc t
        = some (some (t.bufptr + ((v.length + l.length + 3 : Nat) : Int)), t') ∧
      peek t' t.bufptr (v.length + l.length + 3) = 34 :: (v ++ 64 :: (l ++ [34])) ∧
      t'.buf (t.bufptr + ((v.length + l.length + 3 : Nat) : Int)) = 0 := by
  have hs1 : opt_strlen (some v) = (v.length : Int) := by
    simp [opt_strlen, list_strlen_of_nonzero v hvz]
  have hs2 : opt_strlen (some l) = (l.length : Int) := by
    simp [opt_strlen, list_strlen_of_nonzero l hlz]
  obtain ⟨c1, c2, -⟩ := guarantee_cfg K E t
    (wrap32 (K.MIN_STRLEN + K.STRLEN_FACTOR * ((v.length : Int) + l.length)))
  simp only [sprint_value, hv, hs1, hs2]
  rw [if_neg hg]
  generalize (str_guarantee_space K E t
      (wrap32 (K.MIN_STRLEN + K.STRLEN_FACTOR * ((v.length : Int) + l.length)))).2 = t1
    at c1 c2 ⊢
  rw [c2, sprint_string_raw v _ _ hvz (by omega) hesc, cstr_of_nonzero l hlz,
    snprintf_fits _ _ (by simp; omega)]
  simp only [store_bufptr, c1]
  generalize ht3 : store (store t1 t.bufptr (34 :: (v ++ [34, 0]))) (t.bufptr + ↑v.length + 1)
    (64 :: l ++ [34] ++ [0]) = t3
  have hbody : ∀ b ∈ 34 :: (v ++ 64 :: (l ++ [34])), b ≠ 0 := by
    intro b hb
    simp only [List.mem_cons, List.mem_append, List.mem_singleton, List.not_mem_nil,
      or_false] at hb
    rcases hb with rfl | hb | rfl | hb | rfl
    · decide
    · exact hvz b hb
    · decide
    · exact hlz b hb
    · decide
  have hlen : (34 :: (v ++ 64 :: (l ++ [34]))).length = v.length + l.length + 3 := by
    simp; omega
  have hpt : ∀ i : Nat, i < (34 :: (v ++ 64 :: (l ++ [34]))).length + 1 →
      t3.buf (t.bufptr + i) = ((34 :: (v ++ 64 :: (l ++ [34]))) ++ [0]).getD i 0 := by
    intro i hi
    rw [hlen] at hi
    rw [← ht3]
    by_cases h1 : i < v.length + 1
    · rw [store_buf_out _ _ _ _ (Or.inl (by omega)),
        store_buf_at _ _ _ _ (by simp; omega)]
      have e1 : (34 :: (v ++ [34, 0])) = (34 :: v) ++ [34, 0] := by simp
      have e2 : (34 :: (v ++ 64 :: (l ++ [34]))) ++ [0] = (34 :: v) ++ (64 :: (l ++ [34, 0])) := by
        simp
      rw [e1, e2, List.getD_append _ _ _ _ (by simpa using h1),
        List.getD_append _ _ _ _ (by simpa using h1)]
    · have e3 : t.bufptr + (i : Int) = (t.bufptr + ↑v.length + 1) + ((i - (v.length + 1) : Nat) : Int) := by
        omega
      have hl2 : (64 :: l ++ [34] ++ [0]).length = l.length + 3 := by simp
      have hl3 : (34 :: v).length = v.length + 1 := by simp
      have e2 : (34 :: (v ++ 64 :: (l ++ [34]))) ++ [0] = (34 :: v) ++ (64 :: l ++ [34] ++ [0]) := by
        simp
      have e4 := List.getD_append_right (34 :: v) (64 :: l ++ [34] ++ [0]) 0 i
        (by rw [hl3]; omega)
      rw [e3, store_buf_at _ _ _ _ (by rw [hl2]; omega), e2, e4, hl3]
  obtain ⟨r1, r2, r3⟩ := region_text t3 t.bufptr (34 :: (v ++ 64 :: (l ++ [34])))
    ((34 :: (v ++ [34, 0])).length + (64 :: l ++ [34] ++ [0]).length) hbody hpt
    (by simp; omega)
  refine ⟨t3, ?_, ?_, ?_⟩
  · rw [r1, hlen]
  · rw [← hlen]; exact r3
  · have := hpt (v.length + l.length + 3) (by rw [hlen]; omega)
    rw [this, List.getD_append_right _ _ _ _ (by rw [hlen])]
    simp [hlen]

/-- C13, an instance: the string `a` with language `en`, no escaping, printed
into an empty buffer of 1000 bytes. -/
theorem sprint_value_str_lang_witness :
    (db_value (Value.str (some [97]) (some [101, 110]))).value 0
      = Value.str (some [97]) (some [101, 110]) ∧
    (∀ b ∈ [97], b ≠ 0) ∧ (∀ b ∈ [101, 110], b ≠ 0) ∧
    esc_all (mk_tdata 1000 0 1 0 0 0 0).strenc [97] = [97] ∧
    ((([101, 110] : List Nat).length : Int) + 2 < sample_consts.MIN_STRLEN) ∧
    (str_guarantee_space sample_consts env_ok (mk_tdata 1000 0 1 0 0 0 0)
      (wrap32 (sample_consts.MIN_STRLEN + sample_consts.STRLEN_FACTOR *
        ((([97] : List Nat).length : Int) + ([101, 110] : List Nat).length)))).1 ≠ 0 ∧
    ∃ t', sprint_value sample_consts env_ok (db_value (Value.str (some [97]) (some [101, 110])))
        (0 + 1) 0 (mk_tdata 1000 0 1 0 0 0 0)
        = some (some ((mk_tdata 1000 0 1 0 0 0 0).bufptr +
            ((([97] : List Nat).length + ([101, 110] : List Nat).length + 3 : Nat) : Int)), t') ∧
      peek t' (mk_tdata 1000 0 1 0 0 0 0).bufptr
          (([97] : List Nat).length + ([101, 110] : List Nat).length + 3)
        = 34 :: ([97] ++ 64 :: ([101, 110] ++ [34])) ∧
      t'.buf ((mk_tdata 1000 0 1 0 0 0 0).bufptr +
        ((([97] : List Nat).length + ([101, 110] : List Nat).length + 3 : Nat) : Int)) = 0 :=
  ⟨rfl, by decide, by decide, by decide, by decide, by decide,
    sprint_value_str_lang sample_consts env_ok
      (db_value (Value.str (some [97]) (some [101, 110]))) 0 0 (mk_tdata 1000 0 1 0 0 0 0)
      [97] [101, 110] rfl (by decide) (by decide) (by decide) (by decide) (by decide)⟩

/-- C13 as stated fails: without escaping, for the string `a` with language
`en` the appended text is the quoted `a@en`, while the quoted form stored by
`sprint_string` followed by `@en` and a quote is the quoted `a`, then `@en`
and a quote. With json escaping, for the string of the single byte newline
the appended text is a quote, a backslash, `@en` and a quote: the `n` of the
escape is overwritten. -/
theorem sprint_value_str_lang_overwrites :
    appended_text (Value.str (some [97]) (some [101, 110])) 1 0
      = some [34, 97, 64, 101, 110, 34] ∧
    cstr (sprint_string 3 (some [97]) 0) 0 ++ [64, 101, 110, 34]
      = [34, 97, 34, 64, 101, 110, 34] ∧
    appended_text (Value.str (some [97]) (some [101, 110])) 1 0
      ≠ some (cstr (sprint_string 3 (some [97]) 0) 0 ++ [64, 101, 110, 34]) ∧
    appended_text (Value.str (some [10]) (some [101, 110])) 1 2
      ≠ some (cstr (sprint_string 3 (some [10]) 2) 0 ++ [64, 101, 110, 34]) :=
  ⟨by decide!, by decide!, by decide!, by decide!⟩

/-! ### `urldecode` in place -/

theorem getD_set_ne (mem : List Nat) (k j v : Nat) (h : k ≠ j) :
    (mem.set k v).getD j 0 = mem.getD j 0 := by
  simp only [List.getD_eq_getElem?_getD, List.getElem?_set_ne h]

theorem getD_drop (mem : List Nat) (p j : Nat) :
    (mem.drop p).getD j 0 = mem.getD (p + j) 0 := by
  simp only [List.getD_eq_getElem?_getD, List.getElem?_drop]

theorem takeWhile_nonzero_spec (l : List Nat) :
    l.getD (l.takeWhile (fun b => b != 0)).length 0 = 0 ∧
    ∀ j, j < (l.takeWhile (fun b => b != 0)).length → l.getD j 0 ≠ 0 := by
  induction l with
  | nil => simp
  | cons c rest ih =>
    by_cases hc : c = 0
    · subst hc
      simp [List.takeWhile_cons]
    · have e : (c :: rest).takeWhile (fun b => b != 0) = c :: rest.takeWhile (fun b => b != 0) := by
        simp [List.takeWhile_cons, hc]
      rw [e]
      refine ⟨by simpa using ih.1, ?_⟩
      intro j hj
      cases j with
      | zero => simpa using hc
      | succ j =>
        simp only [List.length_cons, Nat.add_lt_add_iff_right] at hj
        simpa using ih.2 j hj

theorem list_strlen_spec (mem : List Nat) (p : Nat) :
    mem.getD (p + list_strlen mem p) 0 = 0 ∧
    (∀ j, p ≤ j → j < p + list_strlen mem p → mem.getD j 0 ≠ 0) ∧
    list_strlen mem p ≤ mem.length := by
  obtain ⟨h1, h2⟩ := takeWhile_nonzero_spec (mem.drop p)
  refine ⟨?_, ?_, ?_⟩
  · rw [getD_drop] at h1
    exact h1
  · intro j hp hj
    have := h2 (j - p) (by unfold list_strlen at hj; omega)
    rw [getD_drop] at this
    rwa [show p + (j - p) = j by omega] at this
  · unfold list_strlen
    calc ((mem.drop p).takeWhile _).length ≤ (mem.drop p).length :=
          (List.takeWhile_sublist _).length_le
      _ ≤ mem.length := by simp

theorem urldecode_loop_inplace (char_signed : Bool) (e : Nat) :
    ∀ (fuel : Nat) (mem : List Nat) (dst src : Nat), dst ≤ src → src ≤ e →
      mem.getD e 0 = 0 → (∀ j, src ≤ j → j < e → mem.getD j 0 ≠ 0) → e + 1 ≤ fuel + src →
      ∃ mem', urldecode_loop char_signed e fuel mem dst src = some mem' ∧
        mem'.length = mem.length ∧
        ∀ j, (j < dst ∨ e < j) → mem'.getD j 0 = mem.getD j 0 := by
  intro fuel
  induction fuel with
  | zero =>
    intro mem dst src _ h2 _ _ h5
    omega
  | succ fuel ih =>
    intro mem dst src h1 h2 h3 h4 h5
    by_cases hz : mem.getD src 0 = 0
    · refine ⟨mem.set dst 0, ?_, by simp, ?_⟩
      · simp only [urldecode_loop, hz, if_true]
      · intro j hj
        have hse : src = e := by
          by_contra hne
          exact h4 src (le_refl _) (by omega) hz
        exact getD_set_ne mem dst j 0 (by omega)
    · have hlt : src < e := by
        rcases Nat.lt_or_ge src e with h | h
        · exact h
        · have : src = e := by omega
          rw [this] at hz
          exact absurd h3 hz
      simp only [urldecode_loop, hz, if_false]
      split
      · rename_i hc
        have hs2 : src + 2 < e := hc.2.1
        obtain ⟨mem', a1, a2, a3⟩ := ih
          (mem.set dst (wrap8 (16 * hex_adjust char_signed (to_char char_signed (mem.getD (src + 1) 0)) +
            hex_adjust char_signed (to_char char_signed (mem.getD (src + 2) 0)))))
          (dst + 1) (src + 3) (by omega) (by omega)
          (by rw [getD_set_ne _ _ _ _ (by omega)]; exact h3)
          (by
            intro j hj1 hj2
            rw [getD_set_ne _ _ _ _ (by omega)]
            exact h4 j (by omega) hj2)
          (by omega)
        refine ⟨mem', a1, by simpa using a2, ?_⟩
        intro j hj
        rw [a3 j (by omega), getD_set_ne _ _ _ _ (by omega)]
      · obtain ⟨mem', a1, a2, a3⟩ := ih (mem.set dst (mem.getD src 0)) (dst + 1) (src + 1)
          (by omega) (by omega)
          (by rw [getD_set_ne _ _ _ _ (by omega)]; exact h3)
          (by
            intro j hj1 hj2
            rw [getD_set_ne _ _ _ _ (by omega)]
            exact h4 j (by omega) hj2)
          (by omega)
        refine ⟨mem', a1, by simpa using a2, ?_⟩
        intro j hj
        rw [a3 j (by omega), getD_set_ne _ _ _ _ (by omega)]

theorem urldecode_inplace (char_signed : Bool) (mem : List Nat) (p : Nat) :
    ∃ mem', urldecode char_signed mem p p = some mem' ∧ mem'.length = mem.length ∧
      ∀ j, (j < p ∨ p + list_strlen mem p < j) → mem'.getD j 0 = mem.getD j 0 := by
  obtain ⟨s1, s2, s3⟩ := list_strlen_spec mem p
  by_cases hz : mem.getD p 0 = 0
  · exact ⟨mem, by simp only [urldecode, hz, if_true], rfl, fun _ _ => rfl⟩
  · simp only [urldecode, hz, if_false]
    exact urldecode_loop_inplace char_signed (p + list_strlen mem p) (mem.length + 1) mem p p
      (le_refl _) (by omega) s1 (fun j hj1 hj2 => s2 j hj1 hj2) (by omega)

/-! ### The loops of `parse_query` -/

theorem scan_for_spec (ch : Nat) (query : List Nat) (ql : Nat) :
    ∀ (n i : Nat), i + n = ql →
      i ≤ scan_for ch query ql i n ∧ scan_for ch query ql i n ≤ ql ∧
      (scan_for ch query ql i n < ql → query.getD (scan_for ch query ql i n) 0 = ch) ∧
      ∀ j, i ≤ j → j < scan_for ch query ql i n → query.getD j 0 ≠ ch := by
  intro n
  induction n with
  | zero =>
    intro i h
    simp only [scan_for]
    exact ⟨le_refl _, by omega, fun h' => by omega, fun j h1 h2 => by omega⟩
  | succ n ih =>
    intro i h
    have hi : i < ql := by omega
    by_cases hc : query.getD i 0 = ch
    · have e : scan_for ch query ql i (n + 1) = i := by
        simp only [scan_for, hi, if_true, hc]
      rw [e]
      exact ⟨le_refl _, by omega, fun _ => hc, fun j h1 h2 => by omega⟩
    · simp only [scan_for, hi, if_true, hc, if_false]
      obtain ⟨a1, a2, a3, a4⟩ := ih (i + 1) (by omega)
      refine ⟨by omega, a2, a3, ?_⟩
      intro j h1 h2
      by_cases hj : j = i
      · subst hj; exact hc
      · exact a4 j (by omega) h2

theorem parse_loop_total (char_signed : Bool) (K : Consts) (ql : Nat)
    (hK : 0 ≤ K.MAXPARAMS) :
    ∀ (fuel : Nat) (query : List Nat) (i : Nat) (count : Int) (params values : List Nat),
      ql + 1 ≤ fuel + i ∧ 1 ≤ fuel →
      (params.length : Int) = count → (values.length : Int) = count → count ≤ K.MAXPARAMS →
      ∃ r, parse_loop char_signed K ql fuel query i count params values = some r ∧
        r.ret ≤ K.MAXPARAMS ∧ (r.params.length : Int) ≤ K.MAXPARAMS ∧
        (r.values.length : Int) ≤ K.MAXPARAMS ∧
        (r.ret = -1 ∨ r.ret = r.params.length) := by
  intro fuel
  induction fuel with
  | zero =>
    intro query i count params values hf
    omega
  | succ fuel ih =>
    intro query i count params values hf hp hv hc
    by_cases hi : i < ql
    · simp only [parse_loop, hi, if_true]
      split
      · exact ⟨_, rfl, by simp; omega, by simp; omega, by simp; omega, Or.inl rfl⟩
      · split
        · exact ⟨_, rfl, by simp; omega, by simp; omega, by simp; omega, Or.inl rfl⟩
        · rename_i hi2 hcnt
          obtain ⟨q3, e3, -, -⟩ := urldecode_inplace char_signed
            (if scan_for 38 (if scan_for 61 query ql i (ql - i) < ql
                  then query.set (scan_for 61 query ql i (ql - i)) 0 else query) ql
                (scan_for 61 query ql i (ql - i) + 1) (ql - (scan_for 61 query ql i (ql - i) + 1)) < ql
              then (if scan_for 61 query ql i (ql - i) < ql
                  then query.set (scan_for 61 query ql i (ql - i)) 0 else query).set
                (scan_for 38 (if scan_for 61 query ql i (ql - i) < ql
                  then query.set (scan_for 61 query ql i (ql - i)) 0 else query) ql
                (scan_for 61 query ql i (ql - i) + 1) (ql - (scan_for 61 query ql i (ql - i) + 1))) 0
              else (if scan_for 61 query ql i (ql - i) < ql
                  then query.set (scan_for 61 query ql i (ql - i)) 0 else query)) i
          rw [e3]
          obtain ⟨q4, e4, -, -⟩ := urldecode_inplace char_signed q3
            (scan_for 61 query ql i (ql - i) + 1)
          simp only [e4]
          obtain ⟨s1, -, -, -⟩ := scan_for_spec 61 query ql (ql - i) i (by omega)
          obtain ⟨s2, -, -, -⟩ := scan_for_spec 38 (if scan_for 61 query ql i (ql - i) < ql
                  then query.set (scan_for 61 query ql i (ql - i)) 0 else query) ql
            (ql - (scan_for 61 query ql i (ql - i) + 1)) (scan_for 61 query ql i (ql - i) + 1)
            (by omega)
          exact ih _ _ _ _ _ (by omega) (by simp; omega) (by simp; omega) (by omega)
    · simp only [parse_loop, hi, if_false]
      exact ⟨_, rfl, hc, by simp; omega, by simp; omega, Or.inr (by simp; omega)⟩

theorem getD_set_zero (mem : List Nat) (k : Nat) : (mem.set k 0).getD k 0 = 0 := by
  simp only [List.getD_eq_getElem?_getD, List.getElem?_set_self']
  by_cases h : k < mem.length
  · simp [h]
  · simp [List.getElem?_eq_none (Nat.le_of_not_lt h)]

theorem strlen_le_of_zero (mem : List Nat) (p k : Nat) (hp : p ≤ k) (hz : mem.getD k 0 = 0) :
    p + list_strlen mem p ≤ k := by
  obtain ⟨-, s2, -⟩ := list_strlen_spec mem p
  by_contra h
  exact s2 k hp (by omega) hz

theorem seg_count_drop_step (q : List Nat) (i : Nat) (b : Bool) (hi : i < q.length) :
    seg_count (q.drop i) b =
      if q.getD i 0 = 38 then (if b then 1 else 0) + seg_count (q.drop (i + 1)) false
      else seg_count (q.drop (i + 1)) (b || decide (q.getD i 0 = 61)) := by
  rw [List.drop_eq_getElem_cons hi, List.getD_eq_getElem _ _ hi]
  rfl

theorem seg_count_to_eq (q : List Nat) (i1 : Nat) (h1 : i1 < q.length)
    (he : q.getD i1 0 = 61) :
    ∀ (k i : Nat), i + k = i1 → (∀ j, i ≤ j → j < i1 → q.getD j 0 ≠ 61) →
      seg_count (q.drop i) false = seg_count (q.drop (i1 + 1)) true := by
  intro k
  induction k with
  | zero =>
    intro i hi _
    have : i = i1 := by omega
    subst this
    rw [seg_count_drop_step q i false h1, he]
    rfl
  | succ k ih =>
    intro i hi hne
    have h61 : q.getD i 0 ≠ 61 := hne i (le_refl _) (by omega)
    rw [seg_count_drop_step q i false (by omega)]
    have := ih (i + 1) (by omega) (fun j hj1 hj2 => hne j (by omega) hj2)
    by_cases h38 : q.getD i 0 = 38
    · rw [if_pos h38, this]
      simp
    · rw [if_neg h38, decide_eq_false_iff_not.mpr h61, Bool.or_false, this]

theorem seg_count_to_amp (q : List Nat) (i3 : Nat) (h3 : i3 < q.length)
    (he : q.getD i3 0 = 38) :
    ∀ (k i : Nat), i + k = i3 → (∀ j, i ≤ j → j < i3 → q.getD j 0 ≠ 38) →
      seg_count (q.drop i) true = 1 + seg_count (q.drop (i3 + 1)) false := by
  intro k
  induction k with
  | zero =>
    intro i hi _
    have : i = i3 := by omega
    subst this
    rw [seg_count_drop_step q i true h3, he]
    rfl
  | succ k ih =>
    intro i hi hne
    have h38 : q.getD i 0 ≠ 38 := hne i (le_refl _) (by omega)
    rw [seg_count_drop_step q i true (by omega)]
    have := ih (i + 1) (by omega) (fun j hj1 hj2 => hne j (by omega) hj2)
    rw [if_neg h38, Bool.true_or, this]

theorem seg_count_no_amp (q : List Nat) :
    ∀ (k i : Nat), i + k = q.length → (∀ j, i ≤ j → j < q.length → q.getD j 0 ≠ 38) →
      seg_count (q.drop i) true = 1 := by
  intro k
  induction k with
  | zero =>
    intro i hi _
    rw [List.drop_of_length_le (by omega)]
    rfl
  | succ k ih =>
    intro i hi hne
    have h38 : q.getD i 0 ≠ 38 := hne i (le_refl _) (by omega)
    rw [seg_count_drop_step q i true (by omega)]
    have := ih (i + 1) (by omega) (fun j hj1 hj2 => hne j (by omega) hj2)
    rw [if_neg h38, Bool.true_or, this]

theorem parse_loop_step (char_signed : Bool) (K : Consts) (ql fuel : Nat) (query : List Nat)
    (i : Nat) (count : Int) (params values : List Nat) (hi : i < ql)
    (i1 i3 : Nat) (q1 q2 : List Nat)
    (h1 : i1 = scan_for 61 query ql i (ql - i))
    (hq1 : q1 = if i1 < ql then query.set i1 0 else query)
    (h3 : i3 = scan_for 38 q1 ql (i1 + 1) (ql - (i1 + 1)))
    (hq2 : q2 = if i3 < ql then q1.set i3 0 else q1) :
    parse_loop char_signed K ql (fuel + 1) query i count params values =
      if i1 + 1 ≥ ql then some ⟨-1, q1, params, values⟩
      else if count ≥ K.MAXPARAMS then some ⟨-1, q2, params, values⟩
      else
        match urldecode char_signed q2 i i with
        | none => none
        | some q3 =>
          match urldecode char_signed q3 (i1 + 1) (i1 + 1) with
          | none => none
          | some q4 =>
            parse_loop char_signed K ql fuel q4 (i3 + 1) (count + 1)
              (params ++ [i]) (values ++ [i1 + 1]) := by
  subst hq2 h3 hq1 h1
  simp only [parse_loop, hi, if_true]

theorem parse_loop_too_many (char_signed : Bool) (K : Consts) (q : List Nat)
    (hq : ∀ b ∈ q, b ≠ 0) :
    ∀ (fuel : Nat) (query : List Nat) (i : Nat) (count : Int) (params values : List Nat),
      q.length + 1 ≤ fuel + i ∧ 1 ≤ fuel →
      (∀ j, i ≤ j → query.getD j 0 = q.getD j 0) →
      count ≤ K.MAXPARAMS → K.MAXPARAMS < count + (seg_count (q.drop i) false : Nat) →
      ∃ r, parse_loop char_signed K q.length fuel query i count params values = some r ∧
        r.ret = -1 := by
  intro fuel
  induction fuel with
  | zero =>
    intro query i count params values hf
    omega
  | succ fuel ih =>
    intro query i count params values hf hinv hc hseg
    have hqz : ∀ j, j < q.length → q.getD j 0 ≠ 0 := by
      intro j hj
      rw [List.getD_eq_getElem _ _ hj]
      exact hq _ (List.getElem_mem _)
    have hqe : ∀ j, q.length ≤ j → q.getD j 0 = 0 := fun j hj => List.getD_eq_default _ _ hj
    by_cases hi : i < q.length
    · obtain ⟨i1, h1⟩ : ∃ x, x = scan_for 61 query q.length i (q.length - i) := ⟨_, rfl⟩
      obtain ⟨q1, hq1⟩ : ∃ x, x = if i1 < q.length then query.set i1 0 else query := ⟨_, rfl⟩
      obtain ⟨i3, h3⟩ : ∃ x, x = scan_for 38 q1 q.length (i1 + 1) (q.length - (i1 + 1)) :=
        ⟨_, rfl⟩
      obtain ⟨q2, hq2⟩ : ∃ x, x = if i3 < q.length then q1.set i3 0 else q1 := ⟨_, rfl⟩
      rw [parse_loop_step char_signed K q.length fuel query i count params values hi
        i1 i3 q1 q2 h1 hq1 h3 hq2]
      by_cases hb1 : i1 + 1 ≥ q.length
      · rw [if_pos hb1]
        exact ⟨_, rfl, rfl⟩
      · rw [if_neg hb1]
        by_cases hb2 : count ≥ K.MAXPARAMS
        · rw [if_pos hb2]
          exact ⟨_, rfl, rfl⟩
        · rw [if_neg hb2]
          obtain ⟨a1, a2, a3, a4⟩ := scan_for_spec 61 query q.length (q.length - i) i (by omega)
          rw [← h1] at a1 a2 a3 a4
          have hi1 : i1 < q.length := by omega
          have e1 : q.getD i1 0 = 61 := by rw [← hinv i1 a1]; exact a3 hi1
          have n1 : ∀ j, i ≤ j → j < i1 → q.getD j 0 ≠ 61 := by
            intro j hj1 hj2
            rw [← hinv j hj1]
            exact a4 j hj1 hj2
          have hq1' : q1 = query.set i1 0 := by rw [hq1, if_pos hi1]
          have inv1 : ∀ j, i1 + 1 ≤ j → q1.getD j 0 = q.getD j 0 := by
            intro j hj
            rw [hq1', getD_set_ne _ _ _ _ (by omega)]
            exact hinv j (by omega)
          obtain ⟨b1, b2, b3, b4⟩ := scan_for_spec 38 q1 q.length (q.length - (i1 + 1)) (i1 + 1)
            (by omega)
          rw [← h3] at b1 b2 b3 b4
          have n3 : ∀ j, i1 + 1 ≤ j → j < i3 → q.getD j 0 ≠ 38 := by
            intro j hj1 hj2
            rw [← inv1 j hj1]
            exact b4 j hj1 hj2
          have s1 := seg_count_to_eq q i1 hi1 e1 (i1 - i) i (by omega) n1
          -- the value scan has to stop at a `&`
          have hi3 : i3 < q.length := by
            by_contra hge
            have hi3e : i3 = q.length := by omega
            have s3 := seg_count_no_amp q (q.length - (i1 + 1)) (i1 + 1) (by omega)
              (fun j hj1 hj2 => n3 j hj1 (by omega))
            rw [s1, s3] at hseg
            push_cast at hseg
            omega
          have e3 : q.getD i3 0 = 38 := by rw [← inv1 i3 b1]; exact b3 hi3
          have s2 := seg_count_to_amp q i3 hi3 e3 (i3 - (i1 + 1)) (i1 + 1) (by omega) n3
          have hq2' : q2 = q1.set i3 0 := by rw [hq2, if_pos hi3]
          have z1 : q2.getD i1 0 = 0 := by
            rw [hq2', getD_set_ne _ _ _ _ (by omega), hq1', getD_set_zero]
          have z3 : q2.getD i3 0 = 0 := by rw [hq2', getD_set_zero]
          obtain ⟨q3, u3, -, f3⟩ := urldecode_inplace char_signed q2 i
          have l3 := strlen_le_of_zero q2 i i1 a1 z1
          have z3' : q3.getD i3 0 = 0 := by rw [f3 i3 (Or.inr (by omega))]; exact z3
          obtain ⟨q4, u4, -, f4⟩ := urldecode_inplace char_signed q3 (i1 + 1)
          have l4 := strlen_le_of_zero q3 (i1 + 1) i3 b1 z3'
          simp only [u3, u4]
          apply ih
          · omega
          · intro j hj
            rw [f4 j (Or.inr (by omega)), f3 j (Or.inr (by omega)), hq2',
              getD_set_ne _ _ _ _ (by omega)]
            exact inv1 j (by omega)
          · omega
          · rw [s1, s2] at hseg
            push_cast at hseg ⊢
            omega
    · exfalso
      rw [List.drop_of_length_le (by omega)] at hseg
      simp only [seg_count, Bool.false_eq_true, if_false, Nat.cast_zero, add_zero] at hseg
      omega

/-- C12: with `MAXPARAMS ≥ 0`, `parse_query` returns for every character
array and every length; what it returns is at most `MAXPARAMS`, and it stores
at most `MAXPARAMS` pointers in `params` and in `values` (so never at an index
`≥ MAXPARAMS`). For a NUL-terminated query without other NUL bytes in which
more than `MAXPARAMS` of the `&`-separated segments contain `=`, it returns
-1. -/
theorem parse_query_cap (char_signed : Bool) (K : Consts) (hK : 0 ≤ K.MAXPARAMS) :
    (∀ (query : List Nat) (ql : Int),
      ∃ r, parse_query char_signed K query ql = some r ∧ r.ret ≤ K.MAXPARAMS ∧
        (r.params.length : Int) ≤ K.MAXPARAMS ∧ (r.values.length : Int) ≤ K.MAXPARAMS) ∧
    (∀ q : List Nat, (∀ b ∈ q, b ≠ 0) → K.MAXPARAMS < (seg_count q false : Nat) →
      ∃ r, parse_query char_signed K (q ++ [0]) q.length = some r ∧ r.ret = -1) := by
  constructor
  · intro query ql
    obtain ⟨r, e, a, b, c, -⟩ := parse_loop_total char_signed K ql.toNat hK (ql.toNat + 1)
      query 0 0 [] [] (by omega) rfl rfl hK
    exact ⟨r, e, a, b, c⟩
  · intro q hq hseg
    have e : ((q.length : Int)).toNat = q.length := by omega
    unfold parse_query
    rw [e]
    apply parse_loop_too_many char_signed K q hq
    · omega
    · intro j _
      by_cases hj : j < q.length
      · rw [List.getD_append _ _ _ _ hj]
      · rw [List.getD_eq_default q 0 (by omega), List.getD_append_right _ _ _ _ (by omega)]
        cases (j - q.length) <;> rfl
    · exact hK
    · simpa using hseg

/-- C12, an instance: `MAXPARAMS = 1` and the query `a=1&b=2`. -/
theorem parse_query_cap_witness :
    (0 : Int) ≤ ({ sample_consts with MAXPARAMS := 1 } : Consts).MAXPARAMS ∧
    (∀ b ∈ [97, 61, 49, 38, 98, 61, 50], b ≠ 0) ∧
    ({ sample_consts with MAXPARAMS := 1 } : Consts).MAXPARAMS
      < (seg_count [97, 61, 49, 38, 98, 61, 50] false : Nat) ∧
    ∃ r, parse_query true { sample_consts with MAXPARAMS := 1 }
        ([97, 61, 49, 38, 98, 61, 50] ++ [0]) ([97, 61, 49, 38, 98, 61, 50] : List Nat).length
        = some r ∧ r.ret = -1 :=
  ⟨by decide, by decide, by decide,
    (parse_query_cap true { sample_consts with MAXPARAMS := 1 } (by decide)).2
      [97, 61, 49, 38, 98, 61, 50] (by decide) (by decide)⟩

/-! ### What the printing functions leave unchanged -/

@[simp] theorem poke_nalloc (t : thread_data) (i : Int) (v : Nat) :
    (poke t i v).nalloc = t.nalloc := rfl

@[simp] theorem poke_showid (t : thread_data) (i : Int) (v : Nat) :
    (poke t i v).showid = t.showid := rfl

@[simp] theorem poke_depth (t : thread_data) (i : Int) (v : Nat) :
    (poke t i v).depth = t.depth := rfl

@[simp] theorem poke_maxdepth (t : thread_data) (i : Int) (v : Nat) :
    (poke t i v).maxdepth = t.maxdepth := rfl

theorem poke_buf_ne (t : thread_data) (i j : Int) (v : Nat) (h : j ≠ i) :
    (poke t i v).buf j = t.buf j := by
  simp [poke, h]

theorem poke_buf_self (t : thread_data) (i : Int) (v : Nat) : (poke t i v).buf i = v := by
  simp [poke]

@[simp] theorem store_nalloc (bs : List Nat) : ∀ (t : thread_data) (off : Int),
    (store t off bs).nalloc = t.nalloc := by
  induction bs with
  | nil => intro t off; rfl
  | cons b bs ih => intro t off; simp [store, ih]

@[simp] theorem store_showid (bs : List Nat) : ∀ (t : thread_data) (off : Int),
    (store t off bs).showid = t.showid := by
  induction bs with
  | nil => intro t off; rfl
  | cons b bs ih => intro t off; simp [store, ih]

@[simp] theorem store_depth (bs : List Nat) : ∀ (t : thread_data) (off : Int),
    (store t off bs).depth = t.depth := by
  induction bs with
  | nil => intro t off; rfl
  | cons b bs ih => intro t off; simp [store, ih]

@[simp] theorem store_maxdepth (bs : List Nat) : ∀ (t : thread_data) (off : Int),
    (store t off bs).maxdepth = t.maxdepth := by
  induction bs with
  | nil => intro t off; rfl
  | cons b bs ih => intro t off; simp [store, ih]

theorem cfg_eq_refl (t : thread_data) : cfg_eq t t := ⟨rfl, rfl, rfl, rfl, rfl⟩

theorem cfg_eq_trans {a b c : thread_data} (h1 : cfg_eq a b) (h2 : cfg_eq b c) : cfg_eq a c := by
  unfold cfg_eq at *
  obtain ⟨a1, a2, a3, a4, a5⟩ := h1
  obtain ⟨b1, b2, b3, b4, b5⟩ := h2
  exact ⟨a1.trans b1, a2.trans b2, a3.trans b3, a4.trans b4, a5.trans b5⟩

theorem cfg_eq_store (t : thread_data) (off : Int) (bs : List Nat) : cfg_eq (store t off bs) t := by
  unfold cfg_eq
  simp

theorem cfg_eq_poke (t : thread_data) (i : Int) (v : Nat) : cfg_eq (poke t i v) t :=
  ⟨rfl, rfl, rfl, rfl, rfl⟩

theorem cfg_eq_putc (t : thread_data) (v : Nat) : cfg_eq (putc t v) t :=
  ⟨rfl, rfl, rfl, rfl, rfl⟩

theorem cfg_eq_set_bufptr (t : thread_data) (p : Int) : cfg_eq (set_bufptr t p) t :=
  ⟨rfl, rfl, rfl, rfl, rfl⟩

theorem guarantee_frame (K : Consts) (E : Env) (t : thread_data) (n : Int) :
    t.nalloc ≤ (str_guarantee_space K E t n).2.nalloc ∧
    cfg_eq (str_guarantee_space K E t n).2 t ∧
    (str_guarantee_space K E t n).2.bufptr = t.bufptr ∧
    ((str_guarantee_space K E t n).2.nalloc = t.nalloc → (str_guarantee_space K E t n).2 = t) := by
  obtain ⟨c1, c2, c3, c4, c5, c6⟩ := guarantee_cfg K E t n
  refine ⟨?_, ⟨c3, c4, c5, c6, c2⟩, c1, ?_⟩
  · by_cases hg : n > t.bufsize - t.bufptr
    · simp only [str_guarantee_space, hg, if_true]
      generalize (if wrap32 (t.bufsize * 2) < n then n else wrap32 (t.bufsize * 2)) = nl
      by_cases hc : nl > K.MAX_MALLOC
      · simp only [hc, if_true]
        exact le_refl _
      · simp only [hc, if_false]
        cases E.realloc t.nalloc nl <;> simp [poke]
    · simp only [str_guarantee_space, hg, if_false]
      exact le_refl _
  · by_cases hg : n > t.bufsize - t.bufptr
    · simp only [str_guarantee_space, hg, if_true]
      generalize (if wrap32 (t.bufsize * 2) < n then n else wrap32 (t.bufsize * 2)) = nl
      by_cases hc : nl > K.MAX_MALLOC
      · simp only [hc, if_true]
        intro _; trivial
      · simp only [hc, if_false]
        cases E.realloc t.nalloc nl <;> simp [poke]
    · simp only [str_guarantee_space, hg, if_false]
      intro _; trivial

theorem frame_post_store (t : thread_data) (off : Int) (bs : List Nat) (p : Int)
    (h1 : t.bufptr ≤ off) (h2 : t.bufptr ≤ p) :
    frame_post t (some p) (store t off bs) := by
  refine ⟨by simp, cfg_eq_store t off bs, by simp, ?_, ?_⟩
  · intro q hq
    simp only [Option.some.injEq] at hq
    simp only [store_bufptr]
    omega
  · intro _ j hj
    exact store_buf_out bs t off j (Or.inl (by omega))

theorem print_ret_frame (t : thread_data) (limit : Int) (text : List Nat) :
    frame_post t (print_ret t limit text).1 (print_ret t limit text).2 := by
  unfold print_ret
  apply frame_post_store
  · exact le_refl _
  · simp only [store_bufptr]
    omega

theorem guard_frame (K : Consts) (E : Env) (t : thread_data) (n : Int)
    (f : thread_data → Option Int × thread_data)
    (hf : ∀ t1, frame_post t1 (f t1).1 (f t1).2) :
    ∀ res, (if (str_guarantee_space K E t n).1 = 0
        then some ((none : Option Int), (str_guarantee_space K E t n).2)
        else some (f (str_guarantee_space K E t n).2)) = some res →
      frame_post t res.1 res.2 := by
  obtain ⟨g1, g2, g3, g4⟩ := guarantee_frame K E t n
  intro res hres
  by_cases h : (str_guarantee_space K E t n).1 = 0
  · rw [if_pos h] at hres
    cases hres
    refine ⟨g1, g2, by simp [g3], fun p hp => by simp at hp, ?_⟩
    intro he j _
    simp only at he ⊢
    rw [g4 he]
  · rw [if_neg h] at hres
    cases hres
    obtain ⟨f1, f2, f3, f4, f5⟩ := hf (str_guarantee_space K E t n).2
    refine ⟨le_trans g1 f1, cfg_eq_trans f2 g2, by omega, f4, ?_⟩
    intro he j hj
    have hn : (str_guarantee_space K E t n).2.nalloc = t.nalloc := by omega
    have ht := g4 hn
    rw [f5 (by omega) j (by omega), ht]

theorem fr_refl (t : thread_data) : frame_post t none t :=
  ⟨le_refl _, cfg_eq_refl t, le_refl _, fun p hp => by simp at hp, fun _ _ _ => rfl⟩

theorem fr_of_frame {a b : thread_data} {r : Option Int} (h : frame_post a r b) :
    frame_post a none b :=
  ⟨h.1, h.2.1, h.2.2.1, fun p hp => by simp at hp, h.2.2.2.2⟩

theorem fr_trans {a b c : thread_data} {r : Option Int} (h1 : frame_post a none b)
    (h2 : frame_post b r c) : frame_post a r c := by
  obtain ⟨a1, a2, a3, -, a5⟩ := h1
  obtain ⟨b1, b2, b3, b4, b5⟩ := h2
  refine ⟨le_trans a1 b1, cfg_eq_trans b2 a2, le_trans a3 b3, b4, ?_⟩
  intro he j hj
  rw [b5 (by omega) j (by omega), a5 (by omega) j hj]

theorem fr_guarantee (K : Consts) (E : Env) (t : thread_data) (n : Int) :
    frame_post t none (str_guarantee_space K E t n).2 := by
  obtain ⟨g1, g2, g3, g4⟩ := guarantee_frame K E t n
  refine ⟨g1, g2, by omega, fun p hp => by simp at hp, ?_⟩
  intro he j _
  rw [g4 he]

theorem fr_putc (t : thread_data) (v : Nat) : frame_post t none (putc t v) := by
  refine ⟨le_refl _, cfg_eq_putc t v, by simp, fun p hp => by simp at hp, ?_⟩
  intro _ j hj
  exact poke_buf_ne t t.bufptr j v (by omega)

theorem fr_poke (t : thread_data) (v : Nat) : frame_post t none (poke t t.bufptr v) := by
  refine ⟨le_refl _, cfg_eq_poke t _ v, le_refl _, fun p hp => by simp at hp, ?_⟩
  intro _ j hj
  exact poke_buf_ne t t.bufptr j v (by omega)

theorem fr_set_bufptr (t : thread_data) (p : Int) (h : t.bufptr ≤ p) :
    frame_post t none (set_bufptr t p) :=
  ⟨le_refl _, cfg_eq_set_bufptr t p, h, fun q hq => by simp at hq, fun _ _ _ => rfl⟩

theorem fr_store (t : thread_data) (off : Int) (bs : List Nat) (h : t.bufptr ≤ off) :
    frame_post t none (store t off bs) :=
  fr_of_frame (frame_post_store t off bs t.bufptr h (le_refl _))

theorem fr_sep (t : thread_data) (c : Prop) [Decidable c] (v : Nat) :
    frame_post t none (if c then putc t v else t) := by
  split
  · exact fr_putc t v
  · exact fr_refl t

theorem fields_frame (K : Consts) (E : Env) (sv : Printer) (db : Db) (rec : Nat)
    (hsv : sv_frame sv) :
    ∀ (n : Nat) (i : Int) (s : thread_data) (res : Int × thread_data),
      sprint_fields K E sv db rec n i s = some res → frame_post s none res.2 := by
  intro n
  induction n with
  | zero =>
    intro i s res h
    simp only [sprint_fields, Option.some.injEq] at h
    subst h
    exact fr_refl s
  | succ n ih =>
    intro i s res h
    simp only [sprint_fields] at h
    split at h
    · cases h
      exact fr_refl s
    · split at h
      · cases h
        exact fr_guarantee K E s _
      · have k1 := fr_guarantee K E s K.MIN_STRLEN
        have k2 := fr_sep (str_guarantee_space K E s K.MIN_STRLEN).2
          (i ≠ 0 ∨ (str_guarantee_space K E s K.MIN_STRLEN).2.showid ≠ 0)
          (if (str_guarantee_space K E s K.MIN_STRLEN).2.format ≠ 0 then 44 else K.CSV_SEPARATOR)
        split at h
        · cases h
        · rename_i t3 hsv3
          cases h
          exact fr_trans k1 (fr_trans k2 (fr_of_frame (hsv _ _ _ hsv3)))
        · rename_i tmp t3 hsv3
          have k3 := hsv _ _ _ hsv3
          have k4 := fr_set_bufptr t3 tmp (k3.2.2.2.1 tmp rfl)
          exact fr_trans k1 (fr_trans k2 (fr_trans (fr_of_frame k3) (fr_trans k4 (ih _ _ _ h))))

theorem record_frame (K : Consts) (E : Env) (sv : Printer) (db : Db) (rec : Option Nat)
    (hsv : sv_frame sv) (t : thread_data) (res : Int × thread_data)
    (h : sprint_record K E sv db rec t = some res) : frame_post t none res.2 := by
  simp only [sprint_record] at h
  have k1 := fr_guarantee K E t K.MIN_STRLEN
  split at h
  · cases h
    exact k1
  · cases rec with
    | none =>
      simp only [Option.some.injEq] at h
      subst h
      exact fr_trans k1 (fr_trans (fr_store _ _ _ (le_refl _))
        (fr_set_bufptr _ _ (by simp)))
    | some r =>
      simp only at h
      have k2 : frame_post (str_guarantee_space K E t K.MIN_STRLEN).2 none
          (if (str_guarantee_space K E t K.MIN_STRLEN).2.format ≠ 0
            then putc (str_guarantee_space K E t K.MIN_STRLEN).2 91
            else (str_guarantee_space K E t K.MIN_STRLEN).2) := fr_sep _ _ _
      generalize (if (str_guarantee_space K E t K.MIN_STRLEN).2.format ≠ 0
            then putc (str_guarantee_space K E t K.MIN_STRLEN).2 91
            else (str_guarantee_space K E t K.MIN_STRLEN).2) = t2 at h k2
      split at h
      · cases h
        exact fr_trans k1 k2
      · have k3 : frame_post t2 none
            (if t2.showid ≠ 0 then
              set_bufptr
                (store t2 t2.bufptr (snprintf (K.MIN_STRLEN - 1) (fmt_d (wrap32 (db.encode_record r)))))
                ((store t2 t2.bufptr
                    (snprintf (K.MIN_STRLEN - 1) (fmt_d (wrap32 (db.encode_record r))))).bufptr +
                  ↑(c_strlen
                      (store t2 t2.bufptr
                          (snprintf (K.MIN_STRLEN - 1) (fmt_d (wrap32 (db.encode_record r))))).buf
                      (store t2 t2.bufptr
                          (snprintf (K.MIN_STRLEN - 1) (fmt_d (wrap32 (db.encode_record r))))).bufptr
                      (snprintf (K.MIN_STRLEN - 1) (fmt_d (wrap32 (db.encode_record r)))).length))
              else t2) := by
          split
          · exact fr_trans (fr_store _ _ _ (le_refl _)) (fr_set_bufptr _ _ (by simp))
          · exact fr_refl t2
        generalize (if t2.showid ≠ 0 then
              set_bufptr
                (store t2 t2.bufptr (snprintf (K.MIN_STRLEN - 1) (fmt_d (wrap32 (db.encode_record r)))))
                ((store t2 t2.bufptr
                    (snprintf (K.MIN_STRLEN - 1) (fmt_d (wrap32 (db.encode_record r))))).bufptr +
                  ↑(c_strlen
                      (store t2 t2.bufptr
                          (snprintf (K.MIN_STRLEN - 1) (fmt_d (wrap32 (db.encode_record r))))).buf
                      (store t2 t2.bufptr
                          (snprintf (K.MIN_STRLEN - 1) (fmt_d (wrap32 (db.encode_record r))))).bufptr
                      (snprintf (K.MIN_STRLEN - 1) (fmt_d (wrap32 (db.encode_record r)))).length))
              else t2) = t3 at h k3
        split at h
        · cases h
        · rename_i ret t4 hf
          have k4 := fields_frame K E sv db r hsv _ _ _ _ hf
          have k14 := fr_trans k1 (fr_trans k2 (fr_trans k3 k4))
          split at h
          · cases h
            exact k14
          · split at h
            · split at h
              · cases h
                exact fr_trans k14 (fr_guarantee K E t4 _)
              · cases h
                exact fr_trans k14 (fr_trans (fr_guarantee K E t4 _) (fr_putc _ _))
            · cases h
              exact k14

theorem value_frame (K : Consts) (E : Env) (db : Db) :
    ∀ fuel : Nat, sv_frame (sprint_value K E db fuel) := by
  intro fuel
  induction fuel with
  | zero =>
    intro enc s res h
    simp [sprint_value] at h
  | succ fuel ih =>
    intro enc s res h
    simp only [sprint_value] at h
    cases hv : db.value enc with
    | null =>
      rw [hv] at h
      simp only at h
      have k1 := fr_guarantee K E s K.MIN_STRLEN
      split at h
      · cases h
        exact k1
      · split at h
        · cases h
          exact fr_trans k1 (print_ret_frame _ _ _)
        · cases h
          exact ⟨k1.1, k1.2.1, k1.2.2.1, fun p hp => by simp only [Option.some.injEq] at hp; subst hp; exact le_refl _, k1.2.2.2.2⟩
    | record ptrdata =>
      rw [hv] at h
      simp only at h
      have k1 := fr_guarantee K E s K.MIN_STRLEN
      split at h
      · cases h
        exact k1
      · split at h
        · cases h
          exact fr_trans k1 (print_ret_frame _ _ _)
        · cases ptrdata with
          | none =>
            cases h
            exact k1
          | some r =>
            simp only at h
            split at h
            · cases h
            · rename_i ret t2 hrec
              cases h
              have k2 := record_frame K E _ db (some r) ih _ _ hrec
              have k3 := fr_poke t2 0
              have k := fr_trans k1 (fr_trans k2 k3)
              exact ⟨k.1, k.2.1, k.2.2.1, fun p hp => by simp only [Option.some.injEq] at hp; subst hp; exact le_refl _, k.2.2.2.2⟩
    | int intdata =>
      rw [hv] at h
      exact guard_frame K E s _ (fun t1 => print_ret t1 K.MIN_STRLEN (fmt_d intdata))
        (fun t1 => print_ret_frame t1 _ _) res h
    | double txt =>
      rw [hv] at h
      exact guard_frame K E s _ (fun t1 => print_ret t1 K.MIN_STRLEN txt)
        (fun t1 => print_ret_frame t1 _ _) res h
    | fixpoint txt =>
      rw [hv] at h
      exact guard_frame K E s _ (fun t1 => print_ret t1 K.MIN_STRLEN txt)
        (fun t1 => print_ret_frame t1 _ _) res h
    | str strdata exdata =>
      rw [hv] at h
      simp only at h
      have k1 := fr_guarantee K E s
        (wrap32 (K.MIN_STRLEN + K.STRLEN_FACTOR * (opt_strlen strdata + opt_strlen exdata)))
      split at h
      · cases h
        exact k1
      · cases exdata with
        | none =>
          simp only [Option.some.injEq] at h
          subst h
          exact fr_trans k1 (frame_post_store _ _ _ _ (le_refl _) (by simp))
        | some ex =>
          simp only [Option.some.injEq] at h
          subst h
          have hs : 0 ≤ opt_strlen strdata := by
            cases strdata <;> simp [opt_strlen]
          refine fr_trans k1 (fr_trans (fr_store _ _ _ (le_refl _))
            (frame_post_store _ _ _ _ ?_ ?_))
          · simp only [store_bufptr]; omega
          · simp only [store_bufptr]; omega
    | uri strdata exdata =>
      rw [hv] at h
      cases exdata with
      | none =>
        exact guard_frame K E s _ (fun t1 => print_ret t1 _ _)
          (fun t1 => print_ret_frame t1 _ _) res h
      | some ex =>
        exact guard_frame K E s _ (fun t1 => print_ret t1 _ _)
          (fun t1 => print_ret_frame t1 _ _) res h
    | xmlliteral strdata exdata =>
      rw [hv] at h
      exact guard_frame K E s _ (fun t1 => print_ret t1 _ _)
        (fun t1 => print_ret_frame t1 _ _) res h
    | char intdata =>
      rw [hv] at h
      exact guard_frame K E s _ (fun t1 => print_ret t1 _ _)
        (fun t1 => print_ret_frame t1 _ _) res h
    | date strbuf =>
      rw [hv] at h
      exact guard_frame K E s _ (fun t1 => print_ret t1 _ _)
        (fun t1 => print_ret_frame t1 _ _) res h
    | time strbuf =>
      rw [hv] at h
      exact guard_frame K E s _ (fun t1 => print_ret t1 _ _)
        (fun t1 => print_ret_frame t1 _ _) res h
    | var intdata =>
      rw [hv] at h
      exact guard_frame K E s _ (fun t1 => print_ret t1 _ _)
        (fun t1 => print_ret_frame t1 _ _) res h
    | blob strdata strl =>
      rw [hv] at h
      simp only at h
      have k1 := fr_guarantee K E s
        (wrap32 (K.MIN_STRLEN + K.STRLEN_FACTOR * opt_strlen strdata))
      split at h
      · cases h
        exact k1
      · simp only [Option.some.injEq] at h
        subst h
        exact fr_trans k1 (frame_post_store _ _ _ _ (le_refl _) (by simp))
    | other =>
      rw [hv] at h
      exact guard_frame K E s _ (fun t1 => print_ret t1 _ _)
        (fun t1 => print_ret_frame t1 _ _) res h

/-! ### The layout of a printed record -/

theorem peek_succ (t : thread_data) (a : Int) (n : Nat) :
    peek t a (n + 1) = peek t a n ++ [t.buf (a + n)] := by
  simp only [peek_def, List.range_succ, List.map_append, List.map_cons, List.map_nil]

theorem peek_add (t : thread_data) (a : Int) (m : Nat) : ∀ n : Nat,
    peek t a (m + n) = peek t a m ++ peek t (a + m) n := by
  intro n
  induction n with
  | zero => simp [peek_def]
  | succ n ih =>
    have e : a + ((m + n : Nat) : Int) = a + m + n := by push_cast; ring
    rw [← Nat.add_assoc, peek_succ, ih, peek_succ, List.append_assoc, e]

theorem peek_congr (t u : thread_data) (a : Int) (n : Nat)
    (h : ∀ j, a ≤ j → j < a + n → t.buf j = u.buf j) : peek t a n = peek u a n := by
  simp only [peek_def]
  apply List.map_congr_left
  intro i hi
  have := List.mem_range.mp hi
  exact h _ (by omega) (by omega)

theorem tb_append (t : thread_data) (a b c : Int) (h1 : a ≤ b) (h2 : b ≤ c) :
    text_between t a c = text_between t a b ++ text_between t b c := by
  unfold text_between
  have e : (c - a).toNat = (b - a).toNat + (c - b).toNat := by omega
  rw [e, peek_add]
  congr 2
  omega

theorem tb_congr (t u : thread_data) (a b : Int)
    (h : ∀ j, a ≤ j → j < b → t.buf j = u.buf j) : text_between t a b = text_between u a b := by
  unfold text_between
  apply peek_congr
  intro j h1 h2
  exact h j h1 (by omega)

theorem tb_self (t : thread_data) (a : Int) : text_between t a a = [] := by
  simp [text_between, peek_def]

theorem tb_one (t : thread_data) (a : Int) : text_between t a (a + 1) = [t.buf a] := by
  have : (a + 1 - a).toNat = 1 := by omega
  simp [text_between, this, peek_def, List.range_succ]

theorem digitChar_ne_zero (n : Nat) (h : n < 10) : (Nat.digitChar n).toNat ≠ 0 := by
  interval_cases n <;> decide

theorem toDigitsCore_props (fuel : Nat) : ∀ (n : Nat) (ds : List Char) (k : Nat),
    (∀ c ∈ ds, c.toNat ≠ 0) → n < 10 ^ k → 1 ≤ k →
    (∀ c ∈ Nat.toDigitsCore 10 fuel n ds, c.toNat ≠ 0) ∧
    (Nat.toDigitsCore 10 fuel n ds).length ≤ k + ds.length := by
  induction fuel with
  | zero =>
    intro n ds k h _ _
    simp only [Nat.toDigitsCore]
    exact ⟨h, by omega⟩
  | succ fuel ih =>
    intro n ds k h hn hk
    simp only [Nat.toDigitsCore]
    have hd : ∀ c ∈ Nat.digitChar (n % 10) :: ds, c.toNat ≠ 0 := by
      intro c hc
      rcases List.mem_cons.mp hc with rfl | hc
      · exact digitChar_ne_zero _ (Nat.mod_lt _ (by omega))
      · exact h c hc
    split
    · refine ⟨hd, ?_⟩
      simp only [List.length_cons]
      omega
    · rename_i hne
      have hk2 : 2 ≤ k := by
        by_contra hlt
        have : k = 1 := by omega
        subst this
        have : n / 10 = 0 := by omega
        exact hne this
      have hn' : n / 10 < 10 ^ (k - 1) := by
        have e : 10 ^ k = 10 ^ (k - 1) * 10 := by
          rw [← pow_succ]
          congr 1
          omega
        rw [e] at hn
        exact Nat.div_lt_of_lt_mul (by rw [Nat.mul_comm]; exact hn)
      obtain ⟨a, b⟩ := ih (n / 10) (Nat.digitChar (n % 10) :: ds) (k - 1) hd hn' (by omega)
      refine ⟨a, ?_⟩
      simp only [List.length_cons] at b
      omega

theorem fmt_d_props (x : Int) (h1 : -2147483648 ≤ x) (h2 : x < 2147483648) :
    (∀ b ∈ fmt_d x, b ≠ 0) ∧ (fmt_d x).length ≤ 11 := by
  have hn : x.natAbs < 10 ^ 10 := by
    have : x.natAbs ≤ 2147483648 := by omega
    calc x.natAbs ≤ 2147483648 := this
      _ < 10 ^ 10 := by norm_num
  obtain ⟨a, b⟩ := toDigitsCore_props (x.natAbs + 1) x.natAbs [] 10 (by simp) hn (by omega)
  have a' : ∀ v ∈ (Nat.toDigits 10 x.natAbs).map Char.toNat, v ≠ 0 := by
    intro v hv
    obtain ⟨c, hc, rfl⟩ := List.mem_map.mp hv
    exact a c hc
  have b' : ((Nat.toDigits 10 x.natAbs).map Char.toNat).length ≤ 10 := by
    simpa [Nat.toDigits] using b
  unfold fmt_d
  split
  · refine ⟨?_, by simp only [List.length_cons]; omega⟩
    intro v hv
    rcases List.mem_cons.mp hv with rfl | hv
    · decide
    · exact a' v hv
  · exact ⟨a', by omega⟩

theorem wrap32_range (x : Int) : -2147483648 ≤ wrap32 x ∧ wrap32 x < 2147483648 := by
  unfold wrap32
  omega

theorem join_sep_cons (sep : Nat) (a : List Nat) (l : List (List Nat)) :
    join_sep sep (a :: l) = a ++ prefixed sep l := by
  induction l generalizing a with
  | nil => simp [join_sep, prefixed]
  | cons b rest ih => simp [join_sep, prefixed, ih]

theorem fields_text_true (sep : Nat) (l : List (List Nat)) :
    fields_text sep true l = prefixed sep l := by
  cases l <;> simp [fields_text, prefixed]

theorem fields_text_false (sep : Nat) (l : List (List Nat)) :
    fields_text sep false l = join_sep sep l := by
  cases l with
  | nil => rfl
  | cons a rest => simp [fields_text, join_sep_cons]

theorem rendered_of_cfg (sv : Printer) (s t : thread_data) (enc : Int) (txt : List Nat)
    (h : rendered sv s enc txt) (hc : cfg_eq s t) : rendered sv t enc txt := by
  obtain ⟨a, b, p, h1, h2, h3, h4, h5⟩ := h
  exact ⟨a, b, p, cfg_eq_trans h1 hc, h2, h3, h4, h5⟩

theorem fields_ret (K : Consts) (E : Env) (sv : Printer) (db : Db) (rec : Nat) :
    ∀ (n : Nat) (i : Int) (s : thread_data) (res : Int × thread_data),
      sprint_fields K E sv db rec n i s = some res → res.1 = 0 ∨ res.1 = 1 := by
  intro n
  induction n with
  | zero =>
    intro i s res h
    simp only [sprint_fields, Option.some.injEq] at h
    subst h
    exact Or.inr rfl
  | succ n ih =>
    intro i s res h
    simp only [sprint_fields] at h
    split at h
    · cases h; exact Or.inl rfl
    · split at h
      · cases h; exact Or.inl rfl
      · split at h
        · cases h
        · cases h; exact Or.inl rfl
        · exact ih _ _ _ h

theorem fields_layout (K : Consts) (E : Env) (sv : Printer) (db : Db) (rec : Nat)
    (hsv : sv_frame sv) :
    ∀ (n : Nat) (i : Int) (s s' : thread_data), 0 ≤ i →
      sprint_fields K E sv db rec n i s = some (1, s') → s'.nalloc = s.nalloc →
      ∃ texts : List (List Nat), texts.length = n ∧
        (∀ k : Nat, k < n → rendered sv s (db.get_field rec (i + k)) (texts.getD k [])) ∧
        text_between s' s.bufptr s'.bufptr =
          fields_text (if s.format ≠ 0 then 44 else K.CSV_SEPARATOR)
            (decide (i ≠ 0 ∨ s.showid ≠ 0)) texts := by
  intro n
  induction n with
  | zero =>
    intro i s s' _ h _
    simp only [sprint_fields, Option.some.injEq, Prod.mk.injEq, true_and] at h
    subst h
    exact ⟨[], rfl, fun k hk => by omega, by rw [tb_self]; rfl⟩
  | succ n ih =>
    intro i s s' hi h hn
    simp only [sprint_fields] at h
    split at h
    · simp at h
    · split at h
      · simp at h
      · obtain ⟨g1, g2, g3, g4⟩ := guarantee_frame K E s K.MIN_STRLEN
        have k2 := fr_sep (str_guarantee_space K E s K.MIN_STRLEN).2
          (i ≠ 0 ∨ (str_guarantee_space K E s K.MIN_STRLEN).2.showid ≠ 0)
          (if (str_guarantee_space K E s K.MIN_STRLEN).2.format ≠ 0 then 44 else K.CSV_SEPARATOR)
        split at h
        · simp at h
        · simp at h
        · rename_i tmp t3 hsv3
          have k3 := hsv _ _ _ hsv3
          have k4 := fr_set_bufptr t3 tmp (k3.2.2.2.1 tmp rfl)
          have k5 := fields_frame K E sv db rec hsv _ _ _ _ h
          simp only at k3 k5
          -- no reallocation anywhere
          have n1 : (str_guarantee_space K E s K.MIN_STRLEN).2.nalloc = s.nalloc := by
            have := k2.1; have := k3.1; have := k4.1; have := k5.1
            omega
          have e1 := g4 n1
          rw [e1] at k2 k3 hsv3
          generalize ht2 : (if i ≠ 0 ∨ s.showid ≠ 0 then
            putc s (if s.format ≠ 0 then 44 else K.CSV_SEPARATOR) else s) = t2 at k2 k3 hsv3
          have n2 : t2.nalloc = s.nalloc := by
            have := k2.1; have := k3.1; have := k4.1; have := k5.1
            omega
          have n3 : t3.nalloc = t2.nalloc := by
            have := k3.1; have := k4.1; have := k5.1
            omega
          have n5 : s'.nalloc = (set_bufptr t3 tmp).nalloc := by
            have := k4.1; have := k5.1
            omega
          obtain ⟨rest, r1, r2, r3⟩ := ih (i + 1) (set_bufptr t3 tmp) s' (by omega) h n5
          have c3 : cfg_eq (set_bufptr t3 tmp) s :=
            cfg_eq_trans k4.2.1 (cfg_eq_trans k3.2.1 k2.2.1)
          have b2 : t2.bufptr ≤ tmp := le_trans k3.2.2.1 (k3.2.2.2.1 tmp rfl)
          have b5 : tmp ≤ s'.bufptr := by simpa using k5.2.2.1
          refine ⟨text_between t3 t2.bufptr tmp :: rest, by simp [r1], ?_, ?_⟩
          · intro k hk
            cases k with
            | zero =>
              simp only [List.getD_cons_zero, Nat.cast_zero, add_zero]
              exact ⟨t2, t3, tmp, k2.2.1, hsv3, b2, n3, rfl⟩
            | succ k =>
              simp only [List.getD_cons_succ]
              have := rendered_of_cfg sv _ s _ _ (r2 k (by omega)) c3
              rwa [show i + 1 + (k : Int) = i + ((k + 1 : Nat) : Int) by push_cast; ring] at this
          · -- the bytes below `tmp` are the same in `s'` and `t3`
            have f5 : ∀ j, j < tmp → s'.buf j = t3.buf j := by
              intro j hj
              exact k5.2.2.2.2 n5 j (by simpa using hj)
            have f3 : ∀ j, j < t2.bufptr → t3.buf j = t2.buf j := k3.2.2.2.2 n3
            rw [tb_append s' s.bufptr t2.bufptr s'.bufptr k2.2.2.1 (by omega),
              tb_append s' t2.bufptr tmp s'.bufptr b2 b5,
              tb_congr s' t3 t2.bufptr tmp (fun j _ hj => f5 j hj)]
            simp only [set_bufptr_bufptr, set_bufptr_format, c3.1] at r3
            have hlead : decide (i + 1 ≠ 0 ∨ (set_bufptr t3 tmp).showid ≠ 0) = true := by
              simp only [decide_eq_true_eq]
              exact Or.inl (by omega)
            have c3f : t3.format = s.format := (cfg_eq_trans k3.2.1 k2.2.1).1
            rw [hlead, fields_text_true] at r3
            simp only [c3f] at r3
            rw [r3]
            simp only [fields_text]
            rw [List.append_assoc]
            congr 1
            by_cases hl : i ≠ 0 ∨ s.showid ≠ 0
            · rw [if_pos hl] at ht2
              have e2 : t2.bufptr = s.bufptr + 1 := by rw [← ht2]; rfl
              have e3 : s'.buf s.bufptr = (if s.format ≠ 0 then 44 else K.CSV_SEPARATOR) := by
                rw [f5 _ (by omega), f3 _ (by omega), ← ht2]
                exact poke_buf_self _ _ _
              rw [e2, tb_one, e3]
              simp [hl]
            · rw [if_neg hl] at ht2
              have e2 : t2.bufptr = s.bufptr := by rw [← ht2]
              rw [e2, tb_self]
              simp [hl]

theorem ident_text (t2 : thread_data) (limit : Int) (d : List Nat)
    (hd : ∀ b ∈ d, b ≠ 0) (hl : (d.length : Int) < limit) :
    (store t2 t2.bufptr (snprintf limit d)).bufptr +
        c_strlen (store t2 t2.bufptr (snprintf limit d)).buf
          (store t2 t2.bufptr (snprintf limit d)).bufptr (snprintf limit d).length =
      t2.bufptr + d.length ∧
    text_between (store t2 t2.bufptr (snprintf limit d)) t2.bufptr (t2.bufptr + d.length) = d := by
  rw [snprintf_fits limit d hl]
  have hlen : (d ++ [0]).length = d.length + 1 := by simp
  obtain ⟨r1, -, r3⟩ := region_text (store t2 t2.bufptr (d ++ [0])) t2.bufptr d (d ++ [0]).length hd
    (fun i hi => store_buf_at (d ++ [0]) t2 t2.bufptr i (by omega)) (by omega)
  refine ⟨?_, ?_⟩
  · rw [store_bufptr, r1]
  · unfold text_between
    have e : (t2.bufptr + (d.length : Int) - t2.bufptr).toNat = d.length := by omega
    rw [e, r3]

theorem record_layout (K : Consts) (E : Env) (db : Db) (fuel : Nat) (rec : Nat)
    (t t' : thread_data) (hMIN : t.showid ≠ 0 → 13 ≤ K.MIN_STRLEN)
    (hrun : sprint_record K E (sprint_value K E db fuel) db (some rec) t = some (1, t'))
    (hcap : t'.nalloc = t.nalloc) :
    ∃ texts : List (List Nat),
      (texts.length : Int) = db.get_record_len rec ∧
      (∀ k : Nat, k < texts.length →
        rendered (sprint_value K E db fuel) t (db.get_field rec k) (texts.getD k [])) ∧
      t.bufptr ≤ t'.bufptr ∧
      text_between t' t.bufptr t'.bufptr =
        (if t.format ≠ 0 then [91] else []) ++
        join_sep (if t.format ≠ 0 then 44 else K.CSV_SEPARATOR)
          ((if t.showid ≠ 0 then [fmt_d (wrap32 (db.encode_record rec))] else []) ++ texts) ++
        (if t.format ≠ 0 then [93] else []) := by
  have hsv := value_frame K E db fuel
  obtain ⟨g1, g2, g3, g4⟩ := guarantee_frame K E t K.MIN_STRLEN
  simp only [sprint_record] at hrun
  split at hrun
  · simp at hrun
  · have k2 : frame_post (str_guarantee_space K E t K.MIN_STRLEN).2 none
        (if (str_guarantee_space K E t K.MIN_STRLEN).2.format ≠ 0
          then putc (str_guarantee_space K E t K.MIN_STRLEN).2 91
          else (str_guarantee_space K E t K.MIN_STRLEN).2) := fr_sep _ _ _
    generalize ht2 : (if (str_guarantee_space K E t K.MIN_STRLEN).2.format ≠ 0
          then putc (str_guarantee_space K E t K.MIN_STRLEN).2 91
          else (str_guarantee_space K E t K.MIN_STRLEN).2) = t2 at hrun k2
    split at hrun
    · simp at hrun
    · rename_i hlen
      have k3 : frame_post t2 none
          (if t2.showid ≠ 0 then
            set_bufptr
              (store t2 t2.bufptr (snprintf (K.MIN_STRLEN - 1) (fmt_d (wrap32 (db.encode_record rec)))))
              ((store t2 t2.bufptr
                  (snprintf (K.MIN_STRLEN - 1) (fmt_d (wrap32 (db.encode_record rec))))).bufptr +
                ↑(c_strlen
                    (store t2 t2.bufptr
                        (snprintf (K.MIN_STRLEN - 1) (fmt_d (wrap32 (db.encode_record rec))))).buf
                    (store t2 t2.bufptr
                        (snprintf (K.MIN_STRLEN - 1) (fmt_d (wrap32 (db.encode_record rec))))).bufptr
                    (snprintf (K.MIN_STRLEN - 1) (fmt_d (wrap32 (db.encode_record rec)))).length))
            else t2) := by
        split
        · exact fr_trans (fr_store _ _ _ (le_refl _)) (fr_set_bufptr _ _ (by simp))
        · exact fr_refl t2
      generalize ht3 : (if t2.showid ≠ 0 then
            set_bufptr
              (store t2 t2.bufptr (snprintf (K.MIN_STRLEN - 1) (fmt_d (wrap32 (db.encode_record rec)))))
              ((store t2 t2.bufptr
                  (snprintf (K.MIN_STRLEN - 1) (fmt_d (wrap32 (db.encode_record rec))))).bufptr +
                ↑(c_strlen
                    (store t2 t2.bufptr
                        (snprintf (K.MIN_STRLEN - 1) (fmt_d (wrap32 (db.encode_record rec))))).buf
                    (store t2 t2.bufptr
                        (snprintf (K.MIN_STRLEN - 1) (fmt_d (wrap32 (db.encode_record rec))))).bufptr
                    (snprintf (K.MIN_STRLEN - 1) (fmt_d (wrap32 (db.encode_record rec)))).length))
            else t2) = t3 at hrun k3
      split at hrun
      · cases hrun
      · rename_i ret t4 hf
        have k4 := fields_frame K E (sprint_value K E db fuel) db rec hsv _ _ _ _ hf
        simp only at k4
        have hret := fields_ret K E (sprint_value K E db fuel) db rec _ _ _ _ hf
        simp only at hret
        -- the last step: the closing bracket
        have k5 : frame_post t4 none t' ∧ t'.bufptr = t4.bufptr + (if t4.format ≠ 0 then 1 else 0) ∧
            (t'.nalloc = t4.nalloc →
              text_between t' t4.bufptr t'.bufptr = if t4.format ≠ 0 then [93] else []) ∧
            ret = 1 := by
          split at hrun
          · simp at hrun
          · have hr1 : ret = 1 := by omega
            split at hrun
            · rename_i hfm
              obtain ⟨q1, q2, q3, q4⟩ := guarantee_frame K E t4 K.MIN_STRLEN
              split at hrun
              · simp at hrun
              · simp only [Option.some.injEq, Prod.mk.injEq, true_and] at hrun
                subst hrun
                refine ⟨fr_trans (fr_guarantee K E t4 _) (fr_putc _ _), ?_, ?_, hr1⟩
                · rw [if_pos hfm, putc_bufptr, q3]
                · intro hn
                  have e := q4 (by simpa using hn)
                  rw [e, if_pos hfm, putc_bufptr, tb_one]
                  congr 1
                  exact poke_buf_self _ _ _
            · rename_i hfm
              simp only [Option.some.injEq, Prod.mk.injEq, true_and] at hrun
              subst hrun
              refine ⟨fr_refl _, by rw [if_neg hfm, add_zero], ?_, hr1⟩
              intro _
              rw [if_neg hfm, tb_self]
        obtain ⟨k5, b5, x5, hr1⟩ := k5
        subst hr1
        clear hrun hret
        -- no reallocation anywhere
        have n1 : (str_guarantee_space K E t K.MIN_STRLEN).2.nalloc = t.nalloc := by
          have := k2.1; have := k3.1; have := k4.1; have := k5.1
          omega
        have e1 := g4 n1
        rw [e1] at ht2 k2
        have n2 : t2.nalloc = t.nalloc := by
          have := k2.1; have := k3.1; have := k4.1; have := k5.1
          omega
        have n3 : t3.nalloc = t2.nalloc := by
          have := k3.1; have := k4.1; have := k5.1
          omega
        have n4 : t4.nalloc = t3.nalloc := by
          have := k4.1; have := k5.1
          omega
        have n5 : t'.nalloc = t4.nalloc := by omega
        have c2 : cfg_eq t2 t := k2.2.1
        have c3 : cfg_eq t3 t := cfg_eq_trans k3.2.1 c2
        have c4 : cfg_eq t4 t := cfg_eq_trans k4.2.1 c3
        obtain ⟨texts, r1, r2, r3⟩ :=
          fields_layout K E (sprint_value K E db fuel) db rec hsv _ 0 t3 t4 (le_refl _) hf n4
        have f4 : ∀ j, j < t4.bufptr → t'.buf j = t4.buf j := k5.2.2.2.2 n5
        have f3 : ∀ j, j < t3.bufptr → t4.buf j = t3.buf j := k4.2.2.2.2 n4
        have f2 : ∀ j, j < t2.bufptr → t3.buf j = t2.buf j := k3.2.2.2.2 n3
        have b2 := k2.2.2.1
        have b3 := k3.2.2.1
        have b4 := k4.2.2.1
        have b5' := k5.2.2.1
        -- the opening bracket
        have x2 : text_between t2 t.bufptr t2.bufptr = if t.format ≠ 0 then [91] else [] := by
          by_cases hfm : t.format ≠ 0
          · rw [if_pos hfm] at ht2
            rw [if_pos hfm, ← ht2, putc_bufptr, tb_one]
            congr 1
            exact poke_buf_self _ _ _
          · rw [if_neg hfm] at ht2
            rw [if_neg hfm, ← ht2, tb_self]
        -- the identity
        have x3 : text_between t3 t2.bufptr t3.bufptr =
            if t.showid ≠ 0 then fmt_d (wrap32 (db.encode_record rec)) else [] := by
          have hs : t2.showid = t.showid := c2.2.1
          by_cases hsh : t.showid ≠ 0
          · have hsh2 : t2.showid ≠ 0 := by rw [hs]; exact hsh
            rw [if_pos hsh2] at ht3
            obtain ⟨w1, w2⟩ := wrap32_range (db.encode_record rec)
            obtain ⟨d1, d2⟩ := fmt_d_props (wrap32 (db.encode_record rec)) w1 w2
            have hM := hMIN hsh
            obtain ⟨i1, i2⟩ := ident_text t2 (K.MIN_STRLEN - 1) (fmt_d (wrap32 (db.encode_record rec)))
              d1 (by omega)
            rw [i1] at ht3
            rw [if_pos hsh, ← ht3, set_bufptr_bufptr]
            exact i2
          · have hsh2 : ¬ t2.showid ≠ 0 := by rw [hs]; exact hsh
            rw [if_neg hsh2] at ht3
            rw [if_neg hsh, ← ht3, tb_self]
        refine ⟨texts, ?_, ?_, by omega, ?_⟩
        · rw [r1]
          omega
        · intro k hk
          have := rendered_of_cfg _ _ t _ _ (r2 k (by omega)) c3
          rwa [zero_add] at this
        · rw [tb_append t' t.bufptr t2.bufptr t'.bufptr b2 (by omega),
            tb_append t' t2.bufptr t3.bufptr t'.bufptr b3 (by omega),
            tb_append t' t3.bufptr t4.bufptr t'.bufptr b4 b5',
            x5 n5,
            tb_congr t' t4 t3.bufptr t4.bufptr (fun j _ hj => f4 j hj),
            tb_congr t' t3 t2.bufptr t3.bufptr
              (fun j _ hj => by rw [f4 j (by omega), f3 j hj]),
            tb_congr t' t2 t.bufptr t2.bufptr
              (fun j _ hj => by rw [f4 j (by omega), f3 j (by omega), f2 j hj]),
            x2, x3, r3]
          simp only [c3.1, c3.2.1, c4.1]
          by_cases hsh : t.showid ≠ 0
          · have hl : decide ((0 : Int) ≠ 0 ∨ t.showid ≠ 0) = true := by simp [hsh]
            rw [hl, fields_text_true, if_pos hsh, if_pos hsh, List.singleton_append, join_sep_cons]
            simp only [List.append_assoc]
          · have hl : decide ((0 : Int) ≠ 0 ∨ t.showid ≠ 0) = false := by simp [hsh]
            rw [hl, fields_text_false, if_neg hsh, if_neg hsh, List.nil_append, List.nil_append]
            simp only [List.append_assoc]

/-- C16: from a state whose capacity is between 0 and `MAX_MALLOC`, with
enough fuel, `sprint_record` returns for a non-null record. When it returns 1
(every field has been printed) and `realloc` has not been called (the buffer
had the capacity), the text it has appended is, in JSON format
(`format != 0`), `[` + body + `]` and in CSV format the body alone. The body
is the list of items joined by the separator (`,` in JSON, `CSV_SEPARATOR` in
CSV), with no separator before the first item or after the last: the decimal
identity of the record first when `showid` is set, then one text per field,
each of them the text that a successful call of `sprint_value` on that field
has appended. There are as many field texts as `wg_get_record_len` says. The
constants satisfy `MIN_STRLEN ≥ 13`, which leaves room for the identity, and
`MAX_MALLOC < 2^30`. -/
theorem sprint_record_layout (K : Consts) (E : Env) (db : Db) (fuel : Nat) (rec : Nat)
    (t : thread_data) (hMIN : 13 ≤ K.MIN_STRLEN) (hM : K.MAX_MALLOC < 1073741824)
    (h0 : 0 ≤ t.bufsize) (h1 : t.bufsize ≤ K.MAX_MALLOC) (hfuel : pot K t < fuel) :
    ∃ res, sprint_record K E (sprint_value K E db fuel) db (some rec) t = some res ∧
      (res.1 = 1 → res.2.nalloc = t.nalloc →
        ∃ texts : List (List Nat),
          (texts.length : Int) = db.get_record_len rec ∧
          (∀ k : Nat, k < texts.length →
            rendered (sprint_value K E db fuel) t (db.get_field rec k) (texts.getD k [])) ∧
          t.bufptr ≤ res.2.bufptr ∧
          text_between res.2 t.bufptr res.2.bufptr =
            (if t.format ≠ 0 then [91] else []) ++
            join_sep (if t.format ≠ 0 then 44 else K.CSV_SEPARATOR)
              ((if t.showid ≠ 0 then [fmt_d (wrap32 (db.encode_record rec))] else []) ++ texts) ++
            (if t.format ≠ 0 then [93] else [])) := by
  obtain ⟨res, e, -⟩ := record_total K E (sprint_value K E db fuel) db (some rec) fuel t
    (by omega) hM (value_total K E db (by omega) hM fuel) ⟨h0, h1⟩ (Or.inl hfuel)
  refine ⟨res, e, ?_⟩
  intro hr hn
  obtain ⟨r, t'⟩ := res
  simp only at hr hn
  subst hr
  exact record_layout K E db fuel rec t t' (fun _ => hMIN) e hn

/-- C16, an instance: record 5 of `db_ints`, printed as json with its identity
into an empty buffer of 1000 bytes. The run returns 1 without a call of
`realloc`, and the appended text is `[5,10,20,30]`. -/
theorem sprint_record_layout_witness :
    (13 : Int) ≤ sample_consts.MIN_STRLEN ∧ sample_consts.MAX_MALLOC < 1073741824 ∧
    (0 : Int) ≤ (mk_tdata 1000 0 1 1 0 0 2).bufsize ∧
    (mk_tdata 1000 0 1 1 0 0 2).bufsize ≤ sample_consts.MAX_MALLOC ∧
    pot sample_consts (mk_tdata 1000 0 1 1 0 0 2) < 200000000 ∧
    (sprint_record sample_consts env_ok (sprint_value sample_consts env_ok db_ints 200000000)
        db_ints (some 5) (mk_tdata 1000 0 1 1 0 0 2)).map
      (fun r => (r.1, r.2.nalloc, text_between r.2 0 r.2.bufptr))
      = some (1, (mk_tdata 1000 0 1 1 0 0 2).nalloc,
          [91, 53, 44, 49, 48, 44, 50, 48, 44, 51, 48, 93]) ∧
    ∃ res, sprint_record sample_consts env_ok (sprint_value sample_consts env_ok db_ints 200000000)
        db_ints (some 5) (mk_tdata 1000 0 1 1 0 0 2) = some res ∧
      (res.1 = 1 → res.2.nalloc = (mk_tdata 1000 0 1 1 0 0 2).nalloc →
        ∃ texts : List (List Nat),
          (texts.length : Int) = db_ints.get_record_len 5 ∧
          (∀ k : Nat, k < texts.length →
            rendered (sprint_value sample_consts env_ok db_ints 200000000)
              (mk_tdata 1000 0 1 1 0 0 2) (db_ints.get_field 5 k) (texts.getD k [])) ∧
          (mk_tdata 1000 0 1 1 0 0 2).bufptr ≤ res.2.bufptr ∧
          text_between res.2 (mk_tdata 1000 0 1 1 0 0 2).bufptr res.2.bufptr =
            (if (mk_tdata 1000 0 1 1 0 0 2).format ≠ 0 then [91] else []) ++
            join_sep (if (mk_tdata 1000 0 1 1 0 0 2).format ≠ 0 then 44
                else sample_consts.CSV_SEPARATOR)
              ((if (mk_tdata 1000 0 1 1 0 0 2).showid ≠ 0
                  then [fmt_d (wrap32 (db_ints.encode_record 5))] else []) ++ texts) ++
            (if (mk_tdata 1000 0 1 1 0 0 2).format ≠ 0 then [93] else [])) :=
  ⟨by decide, by decide, by decide, by decide, by decide, by decide!,
    sprint_record_layout sample_consts env_ok db_ints 200000000 5 (mk_tdata 1000 0 1 1 0 0 2)
      (by decide) (by decide) (by decide) (by decide) (by decide)⟩


/-! ### `encode_intype` -/

/-- C21, evaluated: `encode_intype` maps the six names to their type tags and
an absent name to the infer tag 0, but the empty name gives `BAD_WG_VALUE`,
as does a name that is none of the six. -/
theorem encode_intype_names (T : ApiConsts) :
    encode_intype T (some []) = T.BAD_WG_VALUE ∧
    encode_intype T (some [0]) = T.BAD_WG_VALUE ∧
    encode_intype T none = 0 ∧
    encode_intype T (some [110, 117, 108, 108, 0]) = T.WG_NULLTYPE ∧
    encode_intype T (some [105, 110, 116, 0]) = T.WG_INTTYPE ∧
    encode_intype T (some [114, 101, 99, 111, 114, 100, 0]) = T.WG_RECORDTYPE ∧
    encode_intype T (some [100, 111, 117, 98, 108, 101, 0]) = T.WG_DOUBLETYPE ∧
    encode_intype T (some [115, 116, 114, 0]) = T.WG_STRTYPE ∧
    encode_intype T (some [99, 104, 97, 114, 0]) = T.WG_CHARTYPE ∧
    encode_intype T (some [120, 0]) = T.BAD_WG_VALUE :=
  ⟨rfl, rfl, rfl, rfl, rfl, rfl, rfl, rfl, rfl, rfl⟩



/-! ### Authorization -/

theorem strncmp_starts (e s : List Nat) :
    (((list_strlen s 0 : Nat) : Int) ≥ ((list_strlen e 0 : Nat) : Int) ∧
      strncmp_eq e s (((list_strlen e 0 : Nat) : Int)).toNat = true) ↔
    cstr e 0 <+: cstr s 0 := by
  have h1 : list_strlen s 0 = (cstr s 0).length := rfl
  have h2 : list_strlen e 0 = (cstr e 0).length := rfl
  rw [h1, h2, Int.toNat_ofNat]
  unfold strncmp_eq
  rw [List.take_left' rfl, beq_iff_eq]
  constructor
  · rintro ⟨a, b⟩
    have a' : (cstr e 0).length ≤ (cstr s 0).length := by omega
    rw [List.take_append_of_le_length a'] at b
    exact List.prefix_iff_eq_take.mpr b
  · intro h
    have a' : (cstr e 0).length ≤ (cstr s 0).length := h.length_le
    refine ⟨by omega, ?_⟩
    rw [List.take_append_of_le_length a']
    exact List.prefix_iff_eq_take.mp h

theorem authorize_aux_loop_exact (str : List Nat) (sl eqflag : Int) (hq : eqflag ≠ 0)
    (lst : List (List Nat)) :
    authorize_aux_loop str sl eqflag lst =
      if lst.any (fun e => cstr e 0 == cstr str 0) = true then 1 else 0 := by
  induction lst with
  | nil => rfl
  | cons e rest ih =>
    rw [authorize_aux_loop, if_pos hq, ih, List.any_cons]
    unfold strcmp_eq
    cases (cstr e 0 == cstr str 0) <;> rfl

theorem authorize_aux_loop_starts (str : List Nat) (lst : List (List Nat)) :
    authorize_aux_loop str ((list_strlen str 0 : Nat) : Int) 0 lst =
      if lst.any (fun e => (cstr e 0).isPrefixOf (cstr str 0)) = true then 1 else 0 := by
  induction lst with
  | nil => rfl
  | cons e rest ih =>
    rw [authorize_aux_loop, if_neg (by decide), ih, List.any_cons]
    by_cases h : cstr e 0 <+: cstr str 0
    · rw [if_pos ((strncmp_starts e str).mpr h), List.isPrefixOf_iff_prefix.mpr h]
      rfl
    · rw [if_neg (fun hc => h ((strncmp_starts e str).mp hc))]
      have : (cstr e 0).isPrefixOf (cstr str 0) = false := by
        rw [Bool.eq_false_iff]
        exact fun hc => h ( List.isPrefixOf_iff_prefix.mp hc)
      rw [this]
      rfl

theorem authorize_aux_spec (s : Option (List Nat)) (lst : List (List Nat)) (eqflag : Int) :
    authorize_aux s lst eqflag =
      if list_matches (decide (eqflag ≠ 0)) s lst = true then 1 else 0 := by
  unfold authorize_aux list_matches
  cases lst with
  | nil => rfl
  | cons e rest =>
    have hl : ¬ (e :: rest).length = 0 := by simp
    rw [if_neg hl]
    cases s with
    | none => rfl
    | some str =>
      simp only [List.isEmpty_cons, Bool.false_or]
      have h1 : list_strlen str 0 = (cstr str 0).length := rfl
      by_cases hs : ((list_strlen str 0 : Nat) : Int) < 1
      · rw [if_pos hs]
        have : cstr str 0 = [] := by
          apply List.eq_nil_of_length_eq_zero
          omega
        rw [this]
        rfl
      · rw [if_neg hs]
        have : (cstr str 0).isEmpty = false := by
          cases hc : cstr str 0 with
          | nil => rw [h1, hc] at hs; simp at hs
          | cons a b => rfl
        rw [this]
        simp only [Bool.not_false, Bool.true_and]
        by_cases hq : eqflag ≠ 0
        · rw [authorize_aux_loop_exact str _ eqflag hq, decide_eq_true hq]
          rfl
        · have h0 : eqflag = 0 := by omega
          subst h0
          rw [authorize_aux_loop_starts]
          rfl

theorem authorize_aux_ne_zero (s : Option (List Nat)) (lst : List (List Nat)) (eqflag : Int) :
    authorize_aux s lst eqflag ≠ 0 ↔ list_matches (decide (eqflag ≠ 0)) s lst = true := by
  rw [authorize_aux_spec]
  by_cases h : list_matches (decide (eqflag ≠ 0)) s lst = true <;> simp [h]

theorem authorize_aux_eq_zero (s : Option (List Nat)) (lst : List (List Nat)) (eqflag : Int) :
    authorize_aux s lst eqflag = 0 ↔ list_matches (decide (eqflag ≠ 0)) s lst = false := by
  rw [authorize_aux_spec]
  cases h : list_matches (decide (eqflag ≠ 0)) s lst <;> simp

theorem authorize_eq_ref (L : Levels) (conf : dserve_conf) (level : Int)
    (tdata : thread_ctx) (database token : Option (List Nat)) :
    authorize L conf level tdata database token =
      authorize_ref L conf level tdata database token := by
  unfold authorize authorize_ref
  by_cases h1 : tdata.isserver = 0 ∧ tdata.iscgi = 0
  · rw [if_pos h1, if_pos h1]
  · rw [if_neg h1, if_neg h1]
    have e2 : (database.isSome = true ∧ authorize_aux database conf.dbases 1 = 0) ↔
        (database.isSome = true ∧ list_matches true database conf.dbases = false) := by
      rw [authorize_aux_eq_zero]
      rfl
    by_cases h2 : database.isSome = true ∧ authorize_aux database conf.dbases 1 = 0
    · rw [if_pos h2, if_pos (e2.mp h2)]
    · rw [if_neg h2, if_neg (fun h => h2 (e2.mpr h))]
      unfold addr_ok token_ok
      simp only [authorize_aux_spec]
      simp only [show decide ((0 : Int) ≠ 0) = false from rfl,
        show decide ((1 : Int) ≠ 0) = true from rfl]
      by_cases hr : level = L.READ_LEVEL
      · simp only [if_pos hr]
        cases list_matches false tdata.ip conf.admin_ips <;>
        cases list_matches false tdata.ip conf.write_ips <;>
        cases list_matches false tdata.ip conf.read_ips <;>
        cases list_matches true token conf.admin_tokens <;>
        cases list_matches true token conf.write_tokens <;>
        cases list_matches true token conf.read_tokens <;> rfl
      · simp only [if_neg hr]
        by_cases hw : level = L.WRITE_LEVEL
        · simp only [if_pos hw]
          cases list_matches false tdata.ip conf.admin_ips <;>
          cases list_matches false tdata.ip conf.write_ips <;>
          cases list_matches true token conf.admin_tokens <;>
          cases list_matches true token conf.write_tokens <;> rfl
        · simp only [if_neg hw]
          by_cases ha : level = L.ADMIN_LEVEL
          · simp only [if_pos ha]
            cases list_matches false tdata.ip conf.admin_ips <;>
            cases list_matches true token conf.admin_tokens <;> rfl
          · simp only [if_neg ha]
            rfl

/-- C24: `authorize` equals the reference `authorize_ref`. A non-network
invocation (neither server nor CGI) is allowed. Otherwise a named database
that the allow-list does not match is denied, and once this check has passed
the result is allowed exactly when both the address and the token are
admitted at the level: `addr_ok` and `token_ok` consult the admin, write and
read lists at READ level, the admin and write lists at WRITE level, the admin
list at ADMIN level, and admit nothing at any other level; a list matches as
`list_matches` says. With the read addresses `10.0.0.` and no other list, the
caller `10.0.0.5` is allowed at READ level with any token. -/
theorem authorize_eq_reference (L : Levels) (conf : dserve_conf) (level : Int)
    (tdata : thread_ctx) (database token : Option (List Nat)) :
    authorize L conf level tdata database token =
      authorize_ref L conf level tdata database token ∧
    authorize sample_levels { conf_empty with read_ips := [net_10_0_0] }
      sample_levels.READ_LEVEL (caller 0) none token = 1 :=
  ⟨authorize_eq_ref L conf level tdata database token, rfl⟩

theorem list_matches_nonempty (exact : Bool) (s : Option (List Nat)) (lst : List (List Nat))
    (hne : lst ≠ []) (h : list_matches exact s lst = true) :
    ∃ str, s = some str ∧ ∃ e ∈ lst,
      if exact = true then cstr e 0 = cstr str 0 else cstr e 0 <+: cstr str 0 := by
  unfold list_matches at h
  cases lst with
  | nil => exact absurd rfl hne
  | cons a rest =>
    simp only [List.isEmpty_cons, Bool.false_or] at h
    cases s with
    | none => simp at h
    | some str =>
      simp only [Bool.and_eq_true, List.any_eq_true] at h
      obtain ⟨-, e, he, hm⟩ := h
      refine ⟨str, rfl, e, he, ?_⟩
      cases exact with
      | true => simpa using hm
      | false => simpa using hm

/-- C22 as stated fails: with the read-address list `10.0.0.`, the read-token
list empty and no other list, the caller `10.0.1.5`, whose address does not
start with `10.0.0.`, is allowed at READ level, with a token and without: the
empty admin address list matches every address. -/
theorem authorize_read_open_by_empty_admin :
    ¬ (cstr net_10_0_0 0 <+: opt_text (caller 1).ip) ∧
    authorize sample_levels { conf_empty with read_ips := [net_10_0_0] }
      sample_levels.READ_LEVEL (caller 1) none (some [120, 0]) = 1 ∧
    authorize sample_levels { conf_empty with read_ips := [net_10_0_0] }
      sample_levels.READ_LEVEL (caller 1) none none = 1 :=
  ⟨by decide, rfl, rfl⟩

/-- C22, as amended: for a network invocation in which the admin, write and
read address lists are all non-empty, a caller whose address starts with no
entry of any of the three lists is denied at READ level, whatever the token
and the database. -/
theorem authorize_read_denied (L : Levels) (conf : dserve_conf) (tdata : thread_ctx)
    (database token : Option (List Nat))
    (hnet : tdata.isserver ≠ 0 ∨ tdata.iscgi ≠ 0)
    (ha : conf.admin_ips ≠ []) (hw : conf.write_ips ≠ []) (hr : conf.read_ips ≠ [])
    (hip : ∀ e ∈ conf.admin_ips ++ conf.write_ips ++ conf.read_ips,
      ¬ (cstr e 0 <+: opt_text tdata.ip)) :
    authorize L conf L.READ_LEVEL tdata database token = 0 := by
  have hno : ∀ lst, lst ≠ [] → (∀ e ∈ lst, ¬ (cstr e 0 <+: opt_text tdata.ip)) →
      list_matches false tdata.ip lst = false := by
    intro lst hne hl
    rw [Bool.eq_false_iff]
    intro hm
    obtain ⟨str, hs, e, he, hp⟩ := list_matches_nonempty false tdata.ip lst hne hm
    apply hl e he
    rw [hs]
    simpa using hp
  have m1 := hno conf.admin_ips ha (fun e he => hip e (by simp [he]))
  have m2 := hno conf.write_ips hw (fun e he => hip e (by simp [he]))
  have m3 := hno conf.read_ips hr (fun e he => hip e (by simp [he]))
  rw [authorize_eq_ref]
  unfold authorize_ref addr_ok
  have hn : ¬ (tdata.isserver = 0 ∧ tdata.iscgi = 0) := by omega
  rw [if_neg hn, if_pos rfl, m1, m2, m3]
  split <;> rfl

/-- C22, an instance: all three address lists hold `10.0.0.`, the caller is
`10.0.1.5`. -/
theorem authorize_read_denied_witness :
    ((caller 1).isserver ≠ 0 ∨ (caller 1).iscgi ≠ 0) ∧
    conf_three.admin_ips ≠ [] ∧ conf_three.write_ips ≠ [] ∧ conf_three.read_ips ≠ [] ∧
    (∀ e ∈ conf_three.admin_ips ++ conf_three.write_ips ++ conf_three.read_ips,
      ¬ (cstr e 0 <+: opt_text (caller 1).ip)) ∧
    authorize sample_levels conf_three sample_levels.READ_LEVEL (caller 1) none
      (some [120, 0]) = 0 :=
  ⟨by decide, by decide, by decide, by decide, by decide,
    authorize_read_denied sample_levels conf_three (caller 1) none (some [120, 0])
      (by decide) (by decide) (by decide) (by decide) (by decide)⟩

/-- C23 as stated fails for an absent database: with the allow-list holding
the single name `m` and no other list, a caller of the server that names no
database is allowed at READ level. -/
theorem authorize_absent_database_allowed :
    ({ conf_empty with dbases := [[109, 0]] } : dserve_conf).dbases ≠ [] ∧
    authorize sample_levels { conf_empty with dbases := [[109, 0]] }
      sample_levels.READ_LEVEL (caller 0) none none = 1 :=
  ⟨by decide, rfl⟩

/-- C23, as amended: for every network invocation, every level and every
named database, if the allow-list is non-empty then `authorize` allows only
if the name is equal to some entry of the allow-list. -/
theorem authorize_named_database (L : Levels) (conf : dserve_conf) (level : Int)
    (tdata : thread_ctx) (db : List Nat) (token : Option (List Nat))
    (hnet : tdata.isserver ≠ 0 ∨ tdata.iscgi ≠ 0) (hne : conf.dbases ≠ [])
    (hallow : authorize L conf level tdata (some db) token ≠ 0) :
    ∃ e ∈ conf.dbases, cstr e 0 = cstr db 0 := by
  rw [authorize_eq_ref] at hallow
  unfold authorize_ref at hallow
  have hn : ¬ (tdata.isserver = 0 ∧ tdata.iscgi = 0) := by omega
  rw [if_neg hn] at hallow
  by_cases hm : list_matches true (some db) conf.dbases = true
  · obtain ⟨str, hs, e, he, hp⟩ := list_matches_nonempty true (some db) conf.dbases hne hm
    cases hs
    exact ⟨e, he, by simpa using hp⟩
  · rw [if_pos ⟨rfl, by simpa using hm⟩] at hallow
    exact absurd rfl hallow

/-- C23, an instance: the allow-list holds the name `m`, which the caller
asks for. -/
theorem authorize_named_database_witness :
    ((caller 0).isserver ≠ 0 ∨ (caller 0).iscgi ≠ 0) ∧
    ({ conf_empty with dbases := [[109, 0]] } : dserve_conf).dbases ≠ [] ∧
    authorize sample_levels { conf_empty with dbases := [[109, 0]] }
      sample_levels.READ_LEVEL (caller 0) (some [109, 0]) none ≠ 0 ∧
    ∃ e ∈ ({ conf_empty with dbases := [[109, 0]] } : dserve_conf).dbases,
      cstr e 0 = cstr [109, 0] 0 :=
  ⟨by decide, by decide, by decide,
    authorize_named_database sample_levels { conf_empty with dbases := [[109, 0]] }
      sample_levels.READ_LEVEL (caller 0) [109, 0] none (by decide) (by decide) (by decide)⟩

/-- C28: the levels are monotone. For every configuration, caller, token and
database, if `authorize` allows at ADMIN level it allows at WRITE level, and
if it allows at WRITE level it allows at READ level. The constants
`ADMIN_LEVEL` and `READ_LEVEL` are taken to differ. -/
theorem authorize_monotone (L : Levels) (conf : dserve_conf) (tdata : thread_ctx)
    (database token : Option (List Nat)) (hL : L.ADMIN_LEVEL ≠ L.READ_LEVEL) :
    (authorize L conf L.ADMIN_LEVEL tdata database token ≠ 0 →
      authorize L conf L.WRITE_LEVEL tdata database token ≠ 0) ∧
    (authorize L conf L.WRITE_LEVEL tdata database token ≠ 0 →
      authorize L conf L.READ_LEVEL tdata database token ≠ 0) := by
  simp only [authorize_eq_ref]
  unfold authorize_ref addr_ok token_ok
  by_cases h1 : tdata.isserver = 0 ∧ tdata.iscgi = 0
  · simp only [if_pos h1]
    exact ⟨fun h => h, fun h => h⟩
  · simp only [if_neg h1]
    by_cases h2 : database.isSome = true ∧ list_matches true database conf.dbases = false
    · simp only [if_pos h2]
      exact ⟨fun h => h, fun h => h⟩
    · simp only [if_neg h2, if_neg hL, if_true]
      by_cases hwr : L.WRITE_LEVEL = L.READ_LEVEL
      · by_cases haw : L.ADMIN_LEVEL = L.WRITE_LEVEL
        · exact absurd (haw.trans hwr) hL
        · simp only [if_pos hwr, if_neg haw]
          cases list_matches false tdata.ip conf.admin_ips <;>
          cases list_matches false tdata.ip conf.write_ips <;>
          cases list_matches false tdata.ip conf.read_ips <;>
          cases list_matches true token conf.admin_tokens <;>
          cases list_matches true token conf.write_tokens <;>
          cases list_matches true token conf.read_tokens <;> decide
      · by_cases haw : L.ADMIN_LEVEL = L.WRITE_LEVEL
        · simp only [if_neg hwr, if_pos haw]
          cases list_matches false tdata.ip conf.admin_ips <;>
          cases list_matches false tdata.ip conf.write_ips <;>
          cases list_matches false tdata.ip conf.read_ips <;>
          cases list_matches true token conf.admin_tokens <;>
          cases list_matches true token conf.write_tokens <;>
          cases list_matches true token conf.read_tokens <;> decide
        · simp only [if_neg hwr, if_neg haw]
          cases list_matches false tdata.ip conf.admin_ips <;>
          cases list_matches false tdata.ip conf.write_ips <;>
          cases list_matches false tdata.ip conf.read_ips <;>
          cases list_matches true token conf.admin_tokens <;>
          cases list_matches true token conf.write_tokens <;>
          cases list_matches true token conf.read_tokens <;> decide

/-- C28, an instance: all three address lists hold `10.0.0.`, the caller is
`10.0.0.5`, allowed at ADMIN level, and the token lists are empty. -/
theorem authorize_monotone_witness :
    sample_levels.ADMIN_LEVEL ≠ sample_levels.READ_LEVEL ∧
    authorize sample_levels conf_three sample_levels.ADMIN_LEVEL (caller 0) none none ≠ 0 ∧
    (authorize sample_levels conf_three sample_levels.ADMIN_LEVEL (caller 0) none none ≠ 0 →
      authorize sample_levels conf_three sample_levels.WRITE_LEVEL (caller 0) none none ≠ 0) ∧
    (authorize sample_levels conf_three sample_levels.WRITE_LEVEL (caller 0) none none ≠ 0 →
      authorize sample_levels conf_three sample_levels.READ_LEVEL (caller 0) none none ≠ 0) :=
  ⟨by decide, by decide,
    authorize_monotone sample_levels conf_three (caller 0) none none (by decide)⟩


/-! ### The expansion bound of `sprint_string` and `sprint_blob` -/

theorem sprint_loop_take (strenc : Int) : ∀ (n : Nat) (s : List Nat),
    sprint_loop strenc n s = esc_all strenc ((cstr s 0).take n) ++ [34, 0] := by
  intro n
  induction n with
  | zero =>
    intro s
    simp [sprint_loop, esc_all]
  | succ n ih =>
    intro s
    cases s with
    | nil => simp [sprint_loop, cstr_nil, esc_all]
    | cons c rest =>
      rw [cstr_cons]
      by_cases hc : c = 0
      · simp [sprint_loop, hc, esc_all]
      · simp [sprint_loop, hc, esc_all, ih rest]

theorem ite_length_le {c : Prop} [Decidable c] (a b : List Nat) (n : Nat)
    (ha : a.length ≤ n) (hb : b.length ≤ n) : (if c then a else b).length ≤ n := by
  split <;> assumption

theorem esc_bytes_length (strenc : Int) (c : Nat) :
    (esc_bytes strenc c).length ≤ 6 ∧ (esc_bytes 1 c).length ≤ 3 := by
  constructor
  · unfold esc_bytes
    repeat' apply ite_length_le
    all_goals simp
  · unfold esc_bytes
    rw [if_neg (by decide), if_neg (by decide), if_pos rfl]
    apply ite_length_le <;> simp

theorem esc_all_length (strenc : Int) (s : List Nat) :
    (esc_all strenc s).length ≤ 6 * s.length ∧ (esc_all 1 s).length ≤ 3 * s.length := by
  induction s with
  | nil => simp [esc_all]
  | cons c rest ih =>
    obtain ⟨a, b⟩ := esc_bytes_length strenc c
    simp only [esc_all, List.length_append, List.length_cons]
    omega

/-- C27: for every escaping mode, every limit and every source string,
`sprint_string` escapes exactly the first `k` bytes of the source, where `k`
is the smaller of the limit (a negative limit counting as 0) and the length
up to the first NUL, and stores at most `6*k + 3` bytes; `sprint_blob` stores
at most `3*k + 3`; for a NULL source both store 3 bytes. So with
`MIN_STRLEN ≥ 3` and `STRLEN_FACTOR ≥ 6` the bytes stored fit in
`MIN_STRLEN + STRLEN_FACTOR*k`. -/
theorem sprint_string_bound (K : Consts) (limit : Int) (s : List Nat) (strenc : Int)
    (hM : 3 ≤ K.MIN_STRLEN) (hF : 6 ≤ K.STRLEN_FACTOR) :
    sprint_string limit (some s) strenc
      = 34 :: (esc_all strenc ((cstr s 0).take limit.toNat) ++ [34, 0]) ∧
    ((cstr s 0).take limit.toNat).length = min limit.toNat (list_strlen s 0) ∧
    (sprint_string limit (some s) strenc).length ≤ 6 * min limit.toNat (list_strlen s 0) + 3 ∧
    (sprint_blob limit (some s) strenc).length ≤ 3 * min limit.toNat (list_strlen s 0) + 3 ∧
    (sprint_string limit none strenc).length = 3 ∧
    (sprint_blob limit none strenc).length = 3 ∧
    ((sprint_string limit (some s) strenc).length : Int)
      ≤ K.MIN_STRLEN + K.STRLEN_FACTOR * (min limit.toNat (list_strlen s 0) : Nat) ∧
    ((sprint_blob limit (some s) strenc).length : Int)
      ≤ K.MIN_STRLEN + K.STRLEN_FACTOR * (min limit.toNat (list_strlen s 0) : Nat) := by
  have hk : ((cstr s 0).take limit.toNat).length = min limit.toNat (list_strlen s 0) := by
    rw [List.length_take]
    rfl
  obtain ⟨a, -⟩ := esc_all_length strenc ((cstr s 0).take limit.toNat)
  obtain ⟨-, b⟩ := esc_all_length 1 ((cstr s 0).take limit.toNat)
  rw [hk] at a b
  have e1 : (sprint_string limit (some s) strenc).length
      = (esc_all strenc ((cstr s 0).take limit.toNat)).length + 3 := by
    simp [sprint_string, sprint_loop_take]
  have e2 : (sprint_blob limit (some s) strenc).length
      = (esc_all 1 ((cstr s 0).take limit.toNat)).length + 3 := by
    simp [sprint_blob, sprint_loop_take]
  generalize min limit.toNat (list_strlen s 0) = m at hk a b ⊢
  have hF' : (6 : Int) * (m : Int) ≤ K.STRLEN_FACTOR * (m : Int) :=
    mul_le_mul_of_nonneg_right hF (by omega)
  refine ⟨by simp [sprint_string, sprint_loop_take], hk, by omega, by omega, rfl, rfl, ?_, ?_⟩
  · rw [e1]
    generalize K.STRLEN_FACTOR * (m : Int) = fm at hF'
    omega
  · rw [e2]
    generalize K.STRLEN_FACTOR * (m : Int) = fm at hF'
    omega

/-- C27, an instance: the string of a newline and `a`, json escaping,
limit 5. -/
theorem sprint_string_bound_witness :
    (3 : Int) ≤ sample_consts.MIN_STRLEN ∧ (6 : Int) ≤ sample_consts.STRLEN_FACTOR ∧
    sprint_string 5 (some [10, 97, 0]) 2
      = 34 :: (esc_all 2 ((cstr [10, 97, 0] 0).take (5 : Int).toNat) ++ [34, 0]) ∧
    ((cstr [10, 97, 0] 0).take (5 : Int).toNat).length
      = min (5 : Int).toNat (list_strlen [10, 97, 0] 0) ∧
    (sprint_string 5 (some [10, 97, 0]) 2).length
      ≤ 6 * min (5 : Int).toNat (list_strlen [10, 97, 0] 0) + 3 ∧
    (sprint_blob 5 (some [10, 97, 0]) 2).length
      ≤ 3 * min (5 : Int).toNat (list_strlen [10, 97, 0] 0) + 3 ∧
    (sprint_string 5 none 2).length = 3 ∧
    (sprint_blob 5 none 2).length = 3 ∧
    ((sprint_string 5 (some [10, 97, 0]) 2).length : Int)
      ≤ sample_consts.MIN_STRLEN +
        sample_consts.STRLEN_FACTOR * (min (5 : Int).toNat (list_strlen [10, 97, 0] 0) : Nat) ∧
    ((sprint_blob 5 (some [10, 97, 0]) 2).length : Int)
      ≤ sample_consts.MIN_STRLEN +
        sample_consts.STRLEN_FACTOR * (min (5 : Int).toNat (list_strlen [10, 97, 0] 0) : Nat) :=
  ⟨by decide, by decide,
    sprint_string_bound sample_consts 5 [10, 97, 0] 2 (by decide) (by decide)⟩


/-! ### The cleanup sweep -/

theorem set_slot_self (td : Nat → thread_ctx) (i : Nat) (v : thread_ctx) :
    set_slot td i v i = v := by
  simp [set_slot]

theorem set_slot_ne (td : Nat → thread_ctx) (i j : Nat) (v : thread_ctx) (h : j ≠ i) :
    set_slot td i v j = td j := by
  simp [set_slot, h]

theorem clear_lock_idle (s : thread_ctx) (h : s.lock_id = 0) : clear_lock s = s := by
  cases s
  simp only at h
  subst h
  rfl

theorem clear_db_idle (s : thread_ctx) (h : s.db = none) : clear_db s = s := by
  cases s
  simp only at h
  subst h
  rfl

theorem slot_ok_none (L : LockConsts) (s : thread_ctx) (h : slot_ok L s = true)
    (hdb : s.db = none) : s.lock_id = 0 := by
  simpa [slot_ok, hdb] using h

theorem slot_ok_some (L : LockConsts) (s : thread_ctx) (d : Nat) (h : slot_ok L s = true)
    (hdb : s.db = some d) :
    s.lock_id ≠ 0 ∧ (s.lock_type = L.READ_LOCK_TYPE ∨ s.lock_type = L.WRITE_LOCK_TYPE) := by
  simpa [slot_ok, hdb] using h

theorem release_of_held (L : LockConsts) (hL : L.READ_LOCK_TYPE ≠ L.WRITE_LOCK_TYPE)
    (s : thread_ctx) (d : Nat) (hdb : s.db = some d) (hl : s.lock_id ≠ 0) :
    (s.lock_type = L.READ_LOCK_TYPE → release_of L s = some (Call.end_read d s.lock_id)) ∧
    (s.lock_type = L.WRITE_LOCK_TYPE → release_of L s = some (Call.end_write d s.lock_id)) := by
  constructor
  · intro hr
    have hnw : ¬ s.lock_type = L.WRITE_LOCK_TYPE := by rw [hr]; exact hL
    simp only [release_of, hdb, if_neg hl, if_neg hnw]
  · intro hw
    simp only [release_of, hdb, if_neg hl, if_pos hw]

theorem clear_locks_spec (L : LockConsts) (m : Int) (hm : m ≤ 1000)
    (hL : L.READ_LOCK_TYPE ≠ L.WRITE_LOCK_TYPE) :
    ∀ (n fuel i : Nat) (td : Nat → thread_ctx), i + n = m.toNat → n ≤ fuel →
      (∀ j, i ≤ j → j < i + n → slot_ok L (td j) = true) →
      (clear_locks L m fuel i td).1 = (List.range' i n).filterMap (fun j => release_of L (td j)) ∧
      ∀ j, (clear_locks L m fuel i td).2 j =
        if i ≤ j ∧ j < i + n then clear_lock (td j) else td j := by
  intro n
  induction n with
  | zero =>
    intro fuel i td hi _ _
    have hc : ¬ ((i : Int) < m ∧ i < 1000) := by omega
    cases fuel with
    | zero => exact ⟨rfl, fun j => by rw [if_neg (by omega)]; rfl⟩
    | succ f =>
      simp only [clear_locks, if_neg hc]
      exact ⟨rfl, fun j => by rw [if_neg (by omega)]⟩
  | succ n ih =>
    intro fuel i td hi hf hs
    cases fuel with
    | zero => omega
    | succ f =>
      have hc : (i : Int) < m ∧ i < 1000 := by omega
      have hsi := hs i (le_refl _) (by omega)
      have hfm : ∀ v : thread_ctx,
          (List.range' (i + 1) n).filterMap (fun j => release_of L (set_slot td i v j)) =
            (List.range' (i + 1) n).filterMap (fun j => release_of L (td j)) := by
        intro v
        apply List.filterMap_congr
        intro j hj
        rw [List.mem_range'_1] at hj
        rw [set_slot_ne td i j v (by omega)]
      -- the state after the remaining iterations, when slot `i` is cleared
      have hstate : ∀ (r : Nat → thread_ctx),
          (∀ j, r j = if i + 1 ≤ j ∧ j < i + 1 + n
            then clear_lock (set_slot td i (clear_lock (td i)) j)
            else set_slot td i (clear_lock (td i)) j) →
          ∀ j, r j = if i ≤ j ∧ j < i + (n + 1) then clear_lock (td j) else td j := by
        intro r hr j
        rw [hr j]
        by_cases hji : j = i
        · subst hji
          rw [if_neg (by omega), if_pos (by omega), set_slot_self]
        · rw [set_slot_ne td i j _ hji]
          by_cases hq : i + 1 ≤ j ∧ j < i + 1 + n
          · rw [if_pos hq, if_pos (by omega)]
          · rw [if_neg hq, if_neg (by omega)]
      rw [List.range'_succ, List.filterMap_cons]
      cases hdb : (td i).db with
      | none =>
        obtain ⟨a, b⟩ := ih f (i + 1) td (by omega) (by omega)
          (fun j h1 h2 => hs j (by omega) (by omega))
        have hlk := slot_ok_none L (td i) hsi hdb
        have hrel : release_of L (td i) = none := by simp only [release_of, hdb]
        simp only [clear_locks, if_pos hc, hdb, hrel]
        refine ⟨a, ?_⟩
        intro j
        rw [b j]
        by_cases hji : j = i
        · subst hji
          rw [if_neg (by omega), if_pos (by omega), clear_lock_idle _ hlk]
        · by_cases hq : i + 1 ≤ j ∧ j < i + 1 + n
          · rw [if_pos hq, if_pos (by omega)]
          · rw [if_neg hq, if_neg (by omega)]
      | some d =>
        obtain ⟨hl1, hl2⟩ := slot_ok_some L (td i) d hsi hdb
        obtain ⟨rr, rw'⟩ := release_of_held L hL (td i) d hdb hl1
        obtain ⟨a, b⟩ := ih f (i + 1) (set_slot td i (clear_lock (td i)))
          (by omega) (by omega)
          (fun j h1 h2 => by rw [set_slot_ne td i j _ (by omega)]; exact hs j (by omega) (by omega))
        rw [hfm] at a
        rcases hl2 with hr | hw
        · simp only [clear_locks, if_pos hc, hdb, if_pos hl1, if_pos hr, rr hr]
          exact ⟨by rw [a], hstate _ b⟩
        · have hnr : ¬ (td i).lock_type = L.READ_LOCK_TYPE := by
            rw [hw]; exact fun h => hL h.symm
          simp only [clear_locks, if_pos hc, hdb, if_pos hl1, if_neg hnr, if_pos hw, rw' hw]
          exact ⟨by rw [a], hstate _ b⟩

theorem detach_all_spec (m : Int) (hm : m ≤ 1000) :
    ∀ (n fuel i : Nat) (td : Nat → thread_ctx), i + n = m.toNat → n ≤ fuel →
      (detach_all m fuel i td).1 = (List.range' i n).filterMap (fun j => detach_of (td j)) ∧
      ∀ j, (detach_all m fuel i td).2 j =
        if i ≤ j ∧ j < i + n then clear_db (td j) else td j := by
  intro n
  induction n with
  | zero =>
    intro fuel i td hi _
    have hc : ¬ ((i : Int) < m ∧ i < 1000) := by omega
    cases fuel with
    | zero => exact ⟨rfl, fun j => by rw [if_neg (by omega)]; rfl⟩
    | succ f =>
      simp only [detach_all, if_neg hc]
      exact ⟨rfl, fun j => by rw [if_neg (by omega)]⟩
  | succ n ih =>
    intro fuel i td hi hf
    cases fuel with
    | zero => omega
    | succ f =>
      have hc : (i : Int) < m ∧ i < 1000 := by omega
      rw [List.range'_succ, List.filterMap_cons]
      cases hdb : (td i).db with
      | none =>
        obtain ⟨a, b⟩ := ih f (i + 1) td (by omega) (by omega)
        have hrel : detach_of (td i) = none := by simp only [detach_of, hdb, Option.map_none']
        simp only [detach_all, if_pos hc, hdb, hrel]
        refine ⟨a, ?_⟩
        intro j
        rw [b j]
        by_cases hji : j = i
        · subst hji
          rw [if_neg (by omega), if_pos (by omega), clear_db_idle _ hdb]
        · by_cases hq : i + 1 ≤ j ∧ j < i + 1 + n
          · rw [if_pos hq, if_pos (by omega)]
          · rw [if_neg hq, if_neg (by omega)]
      | some d =>
        obtain ⟨a, b⟩ := ih f (i + 1) (set_slot td i (clear_db (td i))) (by omega) (by omega)
        have hfm : (List.range' (i + 1) n).filterMap
              (fun j => detach_of (set_slot td i (clear_db (td i)) j)) =
            (List.range' (i + 1) n).filterMap (fun j => detach_of (td j)) := by
          apply List.filterMap_congr
          intro j hj
          rw [List.mem_range'_1] at hj
          rw [set_slot_ne td i j _ (by omega)]
        rw [hfm] at a
        have hrel : detach_of (td i) = some (Call.detach d) := by
          simp only [detach_of, hdb, Option.map_some']
        simp only [detach_all, if_pos hc, hdb, hrel]
        refine ⟨by rw [a], ?_⟩
        intro j
        rw [b j]
        by_cases hji : j = i
        · subst hji
          rw [if_neg (by omega), if_pos (by omega), set_slot_self]
        · rw [set_slot_ne td i j _ hji]
          by_cases hq : i + 1 ≤ j ∧ j < i + 1 + n
          · rw [if_pos hq, if_pos (by omega)]
          · rw [if_neg hq, if_neg (by omega)]

theorem sweep_once (serveroption : Bool) (L : LockConsts) (g : dserve_global)
    (hL : L.READ_LOCK_TYPE ≠ L.WRITE_LOCK_TYPE) (hmax : g.maxthreads ≤ 1000)
    (hslots : ∀ i, i < g.maxthreads.toNat → slot_ok L (g.threads_data i) = true) :
    (clear_detach_final serveroption L g).1 =
      (List.range g.maxthreads.toNat).filterMap (fun i => release_of L (g.threads_data i)) ++
      (List.range g.maxthreads.toNat).filterMap (fun i => detach_of (g.threads_data i)) ∧
    (clear_detach_final serveroption L g).2.maxthreads = g.maxthreads ∧
    (clear_detach_final serveroption L g).2.common =
      (if serveroption = true ∧ g.maxthreads > 0 ∧ g.common.isSome = true then some 1
       else g.common) ∧
    ∀ j, (clear_detach_final serveroption L g).2.threads_data j =
      if j < g.maxthreads.toNat then clear_db (clear_lock (g.threads_data j))
      else g.threads_data j := by
  obtain ⟨a1, b1⟩ := clear_locks_spec L g.maxthreads hmax hL g.maxthreads.toNat 1001 0
    g.threads_data (by omega) (by omega) (fun j _ h2 => hslots j (by omega))
  obtain ⟨a2, b2⟩ := detach_all_spec g.maxthreads hmax g.maxthreads.toNat 1001 0
    (clear_locks L g.maxthreads 1001 0 g.threads_data).2 (by omega) (by omega)
  have hd : (List.range' 0 g.maxthreads.toNat).filterMap
        (fun j => detach_of ((clear_locks L g.maxthreads 1001 0 g.threads_data).2 j)) =
      (List.range' 0 g.maxthreads.toNat).filterMap (fun j => detach_of (g.threads_data j)) := by
    apply List.filterMap_congr
    intro j hj
    rw [List.mem_range'_1] at hj
    rw [b1 j, if_pos (by omega)]
    rfl
  refine ⟨?_, rfl, rfl, ?_⟩
  · simp only [clear_detach_final]
    rw [a1, a2, hd, List.range_eq_range']
  · intro j
    simp only [clear_detach_final]
    rw [b2 j, b1 j]
    by_cases hj : j < g.maxthreads.toNat
    · rw [if_pos (by omega), if_pos (by omega), if_pos hj]
    · rw [if_neg (by omega), if_neg (by omega), if_neg hj]

/-- C25: the cleanup sweep. For a thread table of at most 1000 threads (the
bound of the loops) in which each slot is idle or holds an attachment with a
read or write lock, with `READ_LOCK_TYPE` and `WRITE_LOCK_TYPE` different:
`clear_detach_final` makes, in slot order, one release per held lock
(`wg_end_read` or `wg_end_write`, matching the lock type) and then one detach
per attachment, and nothing else; afterwards every slot has `lock_id = 0` and
`db = NULL`. A second sweep makes no call and leaves `maxthreads`, the
shutdown flag and every slot as they are. -/
theorem clear_detach_final_sweep (serveroption : Bool) (L : LockConsts) (g : dserve_global)
    (hL : L.READ_LOCK_TYPE ≠ L.WRITE_LOCK_TYPE) (hmax : g.maxthreads ≤ 1000)
    (hslots : ∀ i, i < g.maxthreads.toNat → slot_ok L (g.threads_data i) = true) :
    (clear_detach_final serveroption L g).1 =
      (List.range g.maxthreads.toNat).filterMap (fun i => release_of L (g.threads_data i)) ++
      (List.range g.maxthreads.toNat).filterMap (fun i => detach_of (g.threads_data i)) ∧
    (∀ i, i < g.maxthreads.toNat →
      ((clear_detach_final serveroption L g).2.threads_data i).lock_id = 0 ∧
      ((clear_detach_final serveroption L g).2.threads_data i).db = none) ∧
    (clear_detach_final serveroption L (clear_detach_final serveroption L g).2).1 = [] ∧
    (clear_detach_final serveroption L (clear_detach_final serveroption L g).2).2.maxthreads =
      (clear_detach_final serveroption L g).2.maxthreads ∧
    (clear_detach_final serveroption L (clear_detach_final serveroption L g).2).2.common =
      (clear_detach_final serveroption L g).2.common ∧
    ∀ i, (clear_detach_final serveroption L (clear_detach_final serveroption L g).2).2.threads_data i =
      (clear_detach_final serveroption L g).2.threads_data i := by
  obtain ⟨s1, s2, s3, s4⟩ := sweep_once serveroption L g hL hmax hslots
  have hidle : ∀ i, i < g.maxthreads.toNat →
      ((clear_detach_final serveroption L g).2.threads_data i).lock_id = 0 ∧
      ((clear_detach_final serveroption L g).2.threads_data i).db = none := by
    intro i hi
    rw [s4 i, if_pos hi]
    exact ⟨rfl, rfl⟩
  have hslots2 : ∀ i, i < (clear_detach_final serveroption L g).2.maxthreads.toNat →
      slot_ok L ((clear_detach_final serveroption L g).2.threads_data i) = true := by
    intro i hi
    rw [s2] at hi
    obtain ⟨h1, h2⟩ := hidle i hi
    simp [slot_ok, h1, h2]
  obtain ⟨u1, u2, u3, u4⟩ := sweep_once serveroption L (clear_detach_final serveroption L g).2 hL
    (by rw [s2]; exact hmax) hslots2
  refine ⟨s1, hidle, ?_, u2, ?_, ?_⟩
  · rw [u1, List.append_eq_nil, List.filterMap_eq_nil_iff, List.filterMap_eq_nil_iff]
    rw [s2]
    constructor
    · intro i hi
      have h2 := (hidle i (List.mem_range.mp hi)).2
      simp only [release_of, h2]
    · intro i hi
      have h2 := (hidle i (List.mem_range.mp hi)).2
      simp only [detach_of, h2, Option.map_none']
  · rw [u3, s2, s3]
    by_cases hc : serveroption = true ∧ g.maxthreads > 0 ∧ g.common.isSome = true
    · rw [if_pos hc, if_pos ⟨hc.1, hc.2.1, rfl⟩]
    · rw [if_neg hc]
      rw [if_neg hc]
  · intro i
    rw [u4 i, s2]
    by_cases hi : i < g.maxthreads.toNat
    · obtain ⟨h1, h2⟩ := hidle i hi
      rw [if_pos hi, clear_lock_idle _ h1, clear_db_idle _ h2]
    · rw [if_neg hi]

/-- C25, an instance: three threads each hold a lock. The sweep releases the
three locks and detaches the three databases, and a second sweep makes no
call. -/
theorem clear_detach_final_sweep_witness :
    sample_locks.READ_LOCK_TYPE ≠ sample_locks.WRITE_LOCK_TYPE ∧
    three_threads.maxthreads ≤ 1000 ∧
    (∀ i, i < three_threads.maxthreads.toNat →
      slot_ok sample_locks (three_threads.threads_data i) = true) ∧
    (clear_detach_final true sample_locks three_threads).1 =
      [Call.end_read 100 11, Call.end_write 101 12, Call.end_read 102 13,
        Call.detach 100, Call.detach 101, Call.detach 102] ∧
    ((clear_detach_final true sample_locks three_threads).1 =
      (List.range three_threads.maxthreads.toNat).filterMap
        (fun i => release_of sample_locks (three_threads.threads_data i)) ++
      (List.range three_threads.maxthreads.toNat).filterMap
        (fun i => detach_of (three_threads.threads_data i)) ∧
    (∀ i, i < three_threads.maxthreads.toNat →
      ((clear_detach_final true sample_locks three_threads).2.threads_data i).lock_id = 0 ∧
      ((clear_detach_final true sample_locks three_threads).2.threads_data i).db = none) ∧
    (clear_detach_final true sample_locks
      (clear_detach_final true sample_locks three_threads).2).1 = [] ∧
    (clear_detach_final true sample_locks
      (clear_detach_final true sample_locks three_threads).2).2.maxthreads =
      (clear_detach_final true sample_locks three_threads).2.maxthreads ∧
    (clear_detach_final true sample_locks
      (clear_detach_final true sample_locks three_threads).2).2.common =
      (clear_detach_final true sample_locks three_threads).2.common ∧
    ∀ i, (clear_detach_final true sample_locks
      (clear_detach_final true sample_locks three_threads).2).2.threads_data i =
      (clear_detach_final true sample_locks three_threads).2.threads_data i) :=
  ⟨by decide, by decide, by decide, by decide,
    clear_detach_final_sweep true sample_locks three_threads (by decide) (by decide)
      (by decide)⟩

/-! ### The output buffer on the error path -/

/-- C26, evaluated: when `realloc` fails, `str_guarantee_space` returns 0
after it has freed the buffer, and `tdata->buf` still holds the old pointer;
`err_clear_detach_halt`, called for the failed request, frees the buffer
again: two calls of `free` on the same pointer. The same happens when the
failure is reported by `sprint_value` (which returns NULL). Without the failed
`realloc` the buffer is freed once. -/
theorem err_clear_detach_halt_frees_again :
    (str_guarantee_space sample_consts env_fail (mk_tdata 10 0 1 0 0 0 2) 100).1 = 0 ∧
    (str_guarantee_space sample_consts env_fail (mk_tdata 10 0 1 0 0 0 2) 100).2.nfree = 1 ∧
    (err_clear_detach_halt sample_locks true idle_slot
        (str_guarantee_space sample_consts env_fail (mk_tdata 10 0 1 0 0 0 2) 100).2).map
      (fun r => (r.1, r.2.2.nfree)) = some ([Call.free_buf], 2) ∧
    (sprint_value sample_consts env_fail (db_value (Value.int 7)) 1 0
        (mk_tdata 10 0 1 0 0 0 2)).map (fun r => (r.1, r.2.nfree)) = some (none, 1) ∧
    ((sprint_value sample_consts env_fail (db_value (Value.int 7)) 1 0
        (mk_tdata 10 0 1 0 0 0 2)).bind
      (fun r => err_clear_detach_halt sample_locks true idle_slot r.2)).map
      (fun r => (r.1, r.2.2.nfree)) = some ([Call.free_buf], 2) ∧
    (err_clear_detach_halt sample_locks true idle_slot (mk_tdata 10 0 1 0 0 0 2)).map
      (fun r => (r.1, r.2.2.nfree)) = some ([Call.free_buf], 1) :=
  ⟨by decide, by decide, by decide, by decide, by decide, by decide⟩


/-! ### `urldecode` in place -/

theorem slice_self (mem : List Nat) (a : Nat) : slice mem a a = [] := by
  simp [slice]

theorem slice_cons (mem : List Nat) (a b : Nat) (h : a < b) :
    slice mem a b = mem.getD a 0 :: slice mem (a + 1) b := by
  unfold slice
  have e : b - a = (b - (a + 1)) + 1 := by omega
  rw [e, List.range_succ_eq_map, List.map_cons, List.map_map]
  congr 1
  apply List.map_congr_left
  intro i _
  show mem.getD (a + (i + 1)) 0 = mem.getD (a + 1 + i) 0
  congr 1
  omega

theorem slice_length (mem : List Nat) (a b : Nat) : (slice mem a b).length = b - a := by
  simp [slice]

theorem slice_set (mem : List Nat) (k v a b : Nat) (h : k < a) :
    slice (mem.set k v) a b = slice mem a b := by
  unfold slice
  apply List.map_congr_left
  intro i _
  exact getD_set_ne mem k (a + i) v (by omega)

theorem getD_set_self (mem : List Nat) (k v : Nat) (h : k < mem.length) :
    (mem.set k v).getD k 0 = v := by
  simp only [List.getD_eq_getElem?_getD, List.getElem?_set_self h]
  rfl

theorem decode_text_copy (cs : Bool) (c : Nat) (rest : List Nat)
    (h : ¬ (c = 37 ∧ 2 ≤ rest.length ∧
      (to_char cs (rest.getD 0 0) ≠ 0 ∧ to_char cs (rest.getD 1 0) ≠ 0) ∧
      (isxdigit (to_char cs (rest.getD 0 0)) = true ∧
        isxdigit (to_char cs (rest.getD 1 0)) = true))) :
    decode_text cs (c :: rest) = c :: decode_text cs rest := by
  match rest with
  | [] => rfl
  | [a] => rfl
  | a :: b :: r =>
    have h' : ¬ (c = 37 ∧ (to_char cs a ≠ 0 ∧ to_char cs b ≠ 0) ∧
        (isxdigit (to_char cs a) = true ∧ isxdigit (to_char cs b) = true)) := by
      intro hc
      exact h ⟨hc.1, by simp, hc.2.1, hc.2.2⟩
    rw [decode_text, if_neg h']

theorem decode_text_length (cs : Bool) : ∀ (n : Nat) (l : List Nat), l.length ≤ n →
    (decode_text cs l).length ≤ l.length := by
  intro n
  induction n with
  | zero =>
    intro l hl
    have : l = [] := List.eq_nil_of_length_eq_zero (by omega)
    subst this
    simp [decode_text]
  | succ n ih =>
    intro l hl
    match l with
    | [] => simp [decode_text]
    | [c] => simp [decode_text]
    | [c, a] => simp [decode_text]
    | c :: a :: b :: r =>
      rw [decode_text]
      split
      · have := ih r (by simp at hl; omega)
        simp only [List.length_cons]
        omega
      · have := ih (a :: b :: r) (by simp at hl ⊢; omega)
        simp only [List.length_cons] at this ⊢
        omega

theorem urldecode_loop_decodes (cs : Bool) (e : Nat) :
    ∀ (fuel : Nat) (mem : List Nat) (dst src : Nat), dst ≤ src → src ≤ e → e ≤ mem.length →
      mem.getD e 0 = 0 → (∀ j, src ≤ j → j < e → mem.getD j 0 ≠ 0) → e + 1 ≤ fuel + src →
      ∃ mem', urldecode_loop cs e fuel mem dst src = some mem' ∧
        mem'.length = mem.length ∧
        (∀ i, i < (decode_text cs (slice mem src e)).length →
          mem'.getD (dst + i) 0 = (decode_text cs (slice mem src e)).getD i 0) ∧
        mem'.getD (dst + (decode_text cs (slice mem src e)).length) 0 = 0 ∧
        ∀ j, (j < dst ∨ dst + (decode_text cs (slice mem src e)).length < j) →
          mem'.getD j 0 = mem.getD j 0 := by
  intro fuel
  induction fuel with
  | zero =>
    intro mem dst src _ h2 _ _ _ h5
    omega
  | succ fuel ih =>
    intro mem dst src h1 h2 hlen h3 h4 h5
    by_cases hz : mem.getD src 0 = 0
    · have hse : src = e := by
        by_contra hne
        exact h4 src (le_refl _) (by omega) hz
      subst hse
      refine ⟨mem.set dst 0, ?_, by simp, ?_, ?_, ?_⟩
      · simp only [urldecode_loop, hz, if_true]
      · intro i hi
        simp [slice_self, decode_text] at hi
      · simp only [slice_self, decode_text, List.length_nil, Nat.add_zero]
        exact getD_set_zero mem dst
      · intro j hj
        simp only [slice_self, decode_text, List.length_nil, Nat.add_zero] at hj
        exact getD_set_ne mem dst j 0 (by omega)
    · have hlt : src < e := by
        rcases Nat.lt_or_ge src e with h | h
        · exact h
        · have : src = e := by omega
          rw [this] at hz
          exact absurd h3 hz
      have hd : dst < mem.length := by omega
      simp only [urldecode_loop, hz, if_false]
      split
      · rename_i hc
        have hs2 : src + 2 < e := hc.2.1
        have hsl : slice mem src e = mem.getD src 0 :: mem.getD (src + 1) 0 ::
            mem.getD (src + 2) 0 :: slice mem (src + 3) e := by
          rw [slice_cons mem src e (by omega), slice_cons mem (src + 1) e (by omega),
            slice_cons mem (src + 2) e (by omega)]
        have hD : decode_text cs (slice mem src e) =
            wrap8 (16 * hex_adjust cs (to_char cs (mem.getD (src + 1) 0)) +
              hex_adjust cs (to_char cs (mem.getD (src + 2) 0))) ::
            decode_text cs (slice mem (src + 3) e) := by
          rw [hsl, decode_text, if_pos ⟨hc.1, hc.2.2.1, hc.2.2.2⟩]
        generalize wrap8 (16 * hex_adjust cs (to_char cs (mem.getD (src + 1) 0)) +
              hex_adjust cs (to_char cs (mem.getD (src + 2) 0))) = v at hD ⊢
        obtain ⟨mem', a1, a2, a3, a4, a5⟩ := ih (mem.set dst v) (dst + 1) (src + 3)
          (by omega) (by omega) (by simpa using hlen)
          (by rw [getD_set_ne _ _ _ _ (by omega)]; exact h3)
          (by
            intro j hj1 hj2
            rw [getD_set_ne _ _ _ _ (by omega)]
            exact h4 j (by omega) hj2)
          (by omega)
        rw [slice_set mem dst v (src + 3) e (by omega)] at a3 a4 a5
        rw [hD]
        refine ⟨mem', a1, by simpa using a2, ?_, ?_, ?_⟩
        · intro i hi
          cases i with
          | zero =>
            rw [Nat.add_zero, a5 dst (Or.inl (by omega)), getD_set_self mem dst v hd]
            rfl
          | succ k =>
            simp only [List.length_cons] at hi
            have := a3 k (by omega)
            rw [show dst + (k + 1) = dst + 1 + k by omega, this]
            rfl
        · simp only [List.length_cons]
          rw [show dst + ((decode_text cs (slice mem (src + 3) e)).length + 1)
            = dst + 1 + (decode_text cs (slice mem (src + 3) e)).length by omega]
          exact a4
        · intro j hj
          simp only [List.length_cons] at hj
          rw [a5 j (by omega), getD_set_ne _ _ _ _ (by omega)]
      · rename_i hc
        have hsl : slice mem src e = mem.getD src 0 :: slice mem (src + 1) e :=
          slice_cons mem src e hlt
        have hD : decode_text cs (slice mem src e) =
            mem.getD src 0 :: decode_text cs (slice mem (src + 1) e) := by
          rw [hsl]
          apply decode_text_copy
          intro hcc
          apply hc
          obtain ⟨c1, c2, c3, c4⟩ := hcc
          rw [slice_length] at c2
          have g0 : (slice mem (src + 1) e).getD 0 0 = mem.getD (src + 1) 0 := by
            rw [slice_cons mem (src + 1) e (by omega)]
            rfl
          have g1 : (slice mem (src + 1) e).getD 1 0 = mem.getD (src + 2) 0 := by
            rw [slice_cons mem (src + 1) e (by omega), slice_cons mem (src + 2) e (by omega)]
            rfl
          rw [g0, g1] at c3 c4
          exact ⟨c1, by omega, c3, c4⟩
        generalize mem.getD src 0 = v at hD ⊢
        obtain ⟨mem', a1, a2, a3, a4, a5⟩ := ih (mem.set dst v) (dst + 1) (src + 1)
          (by omega) (by omega) (by simpa using hlen)
          (by rw [getD_set_ne _ _ _ _ (by omega)]; exact h3)
          (by
            intro j hj1 hj2
            rw [getD_set_ne _ _ _ _ (by omega)]
            exact h4 j (by omega) hj2)
          (by omega)
        rw [slice_set mem dst v (src + 1) e (by omega)] at a3 a4 a5
        rw [hD]
        refine ⟨mem', a1, by simpa using a2, ?_, ?_, ?_⟩
        · intro i hi
          cases i with
          | zero =>
            rw [Nat.add_zero, a5 dst (Or.inl (by omega)), getD_set_self mem dst v hd]
            rfl
          | succ k =>
            simp only [List.length_cons] at hi
            have := a3 k (by omega)
            rw [show dst + (k + 1) = dst + 1 + k by omega, this]
            rfl
        · simp only [List.length_cons]
          rw [show dst + ((decode_text cs (slice mem (src + 1) e)).length + 1)
            = dst + 1 + (decode_text cs (slice mem (src + 1) e)).length by omega]
          exact a4
        · intro j hj
          simp only [List.length_cons] at hj
          rw [a5 j (by omega), getD_set_ne _ _ _ _ (by omega)]

theorem slice_eq_cstr (mem : List Nat) (p : Nat) :
    slice mem p (p + list_strlen mem p) = cstr mem p := by
  have hpre : cstr mem p <+: mem.drop p := List.takeWhile_prefix _
  have hlen : (cstr mem p).length = list_strlen mem p := rfl
  have e : cstr mem p = (mem.drop p).take (list_strlen mem p) := by
    have := List.prefix_iff_eq_take.mp hpre
    rwa [hlen] at this
  have hle : list_strlen mem p ≤ (mem.drop p).length := by
    rw [← hlen]
    exact hpre.length_le
  rw [List.length_drop] at hle
  apply List.ext_getElem?
  intro i
  rw [e]
  unfold slice
  by_cases hi : i < list_strlen mem p
  · have h1 : i < (List.range (p + list_strlen mem p - p)).length := by
      rw [List.length_range]; omega
    rw [List.getElem?_map, List.getElem?_range (by omega), List.getElem?_take_of_lt hi,
      List.getElem?_drop, Option.map_some', List.getD_eq_getElem?_getD,
      List.getElem?_eq_getElem (by omega)]
    rfl
  · rw [List.getElem?_eq_none (by rw [List.length_map, List.length_range]; omega),
      List.getElem?_eq_none (by rw [List.length_take, List.length_drop]; omega)]

theorem decode_text_no_percent (cs : Bool) (s : List Nat) (h : 37 ∉ s) :
    decode_text cs s = s := by
  induction s with
  | nil => rfl
  | cons c rest ih =>
    have hc : c ≠ 37 := fun hc => h (by simp [hc])
    have hr : 37 ∉ rest := fun hr => h (List.mem_cons_of_mem _ hr)
    rw [decode_text_copy cs c rest (fun hcc => hc hcc.1), ih hr]

theorem urldecode_loop_step (cs : Bool) (e fuel : Nat) (m : List Nat) (dst src : Nat)
    (h : m.getD src 0 ≠ 0) :
    ∃ v k, 1 ≤ k ∧ urldecode_loop cs e (fuel + 1) m dst src =
      urldecode_loop cs e fuel (m.set dst v) (dst + 1) (src + k) := by
  simp only [urldecode_loop, h, if_false]
  split
  · exact ⟨_, 3, by omega, rfl⟩
  · exact ⟨_, 1, by omega, rfl⟩

/-- C29: `urldecode` may be run in place. For every character array and
every position `p` of a string in it, `urldecode(p, p)` returns, and with `D`
the decoded text of the string (`decode_text`: a `%` followed by two hex
digits gives one byte, every other byte is copied as it is) the array then
holds `D` at `p` followed by a terminator, `D` is not longer than the string,
so that the terminator is written at or before the original one, and every
byte before `p` or after the new terminator is as it was. Each step of the
loop stores one byte and reads at least one. A text without `%` is decoded to
itself, and so are `%zz` and a trailing `%4`. An instance: `a%41b` followed
by `x` becomes `aAb`, and the bytes `b`, NUL, `x` after the new terminator
stay. -/
theorem urldecode_in_place (cs : Bool) (mem : List Nat) (p : Nat) :
    (∃ mem', urldecode cs mem p p = some mem' ∧ mem'.length = mem.length ∧
      (∀ i, i < (decode_text cs (cstr mem p)).length →
        mem'.getD (p + i) 0 = (decode_text cs (cstr mem p)).getD i 0) ∧
      mem'.getD (p + (decode_text cs (cstr mem p)).length) 0 = 0 ∧
      (decode_text cs (cstr mem p)).length ≤ list_strlen mem p ∧
      ∀ j, (j < p ∨ p + (decode_text cs (cstr mem p)).length < j) →
        mem'.getD j 0 = mem.getD j 0) ∧
    (∀ (e fuel : Nat) (m : List Nat) (dst src : Nat), m.getD src 0 ≠ 0 →
      ∃ v k, 1 ≤ k ∧ urldecode_loop cs e (fuel + 1) m dst src =
        urldecode_loop cs e fuel (m.set dst v) (dst + 1) (src + k)) ∧
    (∀ s, 37 ∉ s → decode_text cs s = s) ∧
    decode_text cs [37, 122, 122] = [37, 122, 122] ∧
    decode_text cs [37, 52] = [37, 52] ∧
    urldecode cs [97, 37, 52, 49, 98, 0, 120] 0 0 = some [97, 65, 98, 0, 98, 0, 120] := by
  refine ⟨?_, fun e fuel m dst src h => urldecode_loop_step cs e fuel m dst src h,
    decode_text_no_percent cs, ?_, ?_, ?_⟩
  · obtain ⟨s1, s2, s3⟩ := list_strlen_spec mem p
    have hlenD : (decode_text cs (cstr mem p)).length ≤ list_strlen mem p :=
      decode_text_length cs _ _ (le_refl _)
    by_cases hz : mem.getD p 0 = 0
    · have h0 : list_strlen mem p = 0 := by
        have := strlen_le_of_zero mem p p (le_refl _) hz
        omega
      have hc : cstr mem p = [] := List.eq_nil_of_length_eq_zero h0
      refine ⟨mem, by simp only [urldecode, hz, if_true], rfl, ?_, ?_, hlenD, fun _ _ => rfl⟩
      · intro i hi
        rw [hc] at hi
        simp [decode_text] at hi
      · rw [hc]
        simpa [decode_text] using hz
    · have hpl : p < mem.length := by
        by_contra hge
        exact hz (List.getD_eq_default _ _ (by omega))
      have hpre : (cstr mem p).length ≤ (mem.drop p).length :=
        ( List.takeWhile_prefix _ : cstr mem p <+: mem.drop p).length_le
      have hcl : (cstr mem p).length = list_strlen mem p := rfl
      rw [List.length_drop] at hpre
      obtain ⟨mem', a1, a2, a3, a4, a5⟩ := urldecode_loop_decodes cs (p + list_strlen mem p)
        (mem.length + 1) mem p p (le_refl _) (by omega) (by omega) s1
        (fun j hj1 hj2 => s2 j hj1 hj2) (by omega)
      rw [slice_eq_cstr] at a3 a4 a5
      exact ⟨mem', by simp only [urldecode, hz, if_false]; exact a1, a2, a3, a4, hlenD, a5⟩
  · cases cs <;> decide
  · rfl
  · cases cs <;> decide

end Dserve
